import Mathlib

/-!
# Sudoku solver and generator: constraint-propagation core

A shallow embedding of `colors.c`, `grid.c` and the solver/generator of
`sudoku.c`.

* A `colors_t` (C `uint64_t`) is a `Nat` below `2 ^ 64`; arithmetic that can
  wrap carries an explicit `% 2 ^ 64`.  `colors_subtract` computes
  `c1 - (c1 & c2)`, whose subtrahend never exceeds `c1`, so the truncated
  subtraction of `Nat` is the machine subtraction.
* A unit (`colors_t *subgrid[]`) is the list of the cells the pointers refer
  to; a heuristic returns its `bool` together with the updated cells, and the
  grid driver writes them back through the coordinates of the unit.
* `malloc` is assumed to succeed.
* The static counter `solutions` and the position in the sequence returned by
  `rand()` are threaded through the solver as a `world`.
* `while` loops whose bound is not syntactic take a fuel argument; `none`
  means that the fuel ran out, never a result of the program.
-/

namespace Sudoku

/-! ## colors.c -/

def MAX_COLORS : Nat := 64

def UINT64_MAX : Nat := 2 ^ 64 - 1

def colors_full (size : Nat) : Nat :=
  if size ≥ MAX_COLORS then UINT64_MAX else (1 <<< size) - 1

def colors_empty : Nat := 0

def colors_set (color_id : Nat) : Nat :=
  if color_id ≥ MAX_COLORS then 0 else 1 <<< color_id

def colors_add (colors color_id : Nat) : Nat :=
  colors ||| colors_set color_id

/-- Bitwise complement `~colors` of a 64-bit word. -/
def colors_negate (colors : Nat) : Nat :=
  UINT64_MAX - colors % 2 ^ 64

def colors_discard (colors color_id : Nat) : Nat :=
  colors &&& colors_negate (colors_set color_id)

def colors_is_in (colors color_id : Nat) : Bool :=
  if color_id ≥ MAX_COLORS then false else (colors >>> color_id) % 2 == 1

def colors_and (colors1 colors2 : Nat) : Nat := colors1 &&& colors2

def colors_or (colors1 colors2 : Nat) : Nat := colors1 ||| colors2

def colors_xor (colors1 colors2 : Nat) : Nat := colors1 ^^^ colors2

/-- The C code is `colors1 - (colors1 & colors2)`; the subtrahend is at most
`colors1`, so no wrap-around can occur. -/
def colors_subtract (colors1 colors2 : Nat) : Nat :=
  colors1 - (colors1 &&& colors2)

def colors_is_equal (colors1 colors2 : Nat) : Bool := colors1 == colors2

def colors_is_subset (colors1 colors2 : Nat) : Bool :=
  colors1 == (colors1 &&& colors2)

def colors_is_singleton (colors : Nat) : Bool :=
  if colors == colors_empty then false
  else (colors &&& (colors - 1)) == 0

/-- Parallel mask-and-add population count on a 64-bit word. -/
def colors_count (colors : Nat) : Nat :=
  let x := colors
  let b5 := colors_negate ((UINT64_MAX <<< 32) % 2 ^ 64)
  let b4 := b5 ^^^ ((b5 <<< 16) % 2 ^ 64)
  let b3 := b4 ^^^ ((b4 <<< 8) % 2 ^ 64)
  let b2 := b3 ^^^ ((b3 <<< 4) % 2 ^ 64)
  let b1 := b2 ^^^ ((b2 <<< 2) % 2 ^ 64)
  let b0 := b1 ^^^ ((b1 <<< 1) % 2 ^ 64)
  let x := (((x >>> 1) &&& b0) + (x &&& b0)) % 2 ^ 64
  let x := (((x >>> 2) &&& b1) + (x &&& b1)) % 2 ^ 64
  let x := (((x >>> 4) + x) % 2 ^ 64) &&& b2
  let x := (((x >>> 8) + x) % 2 ^ 64) &&& b3
  let x := (((x >>> 16) + x) % 2 ^ 64) &&& b4
  let x := (((x >>> 32) + x) % 2 ^ 64) &&& b5
  x

def colors_rightmost (colors : Nat) : Nat :=
  colors &&& ((colors_negate colors + 1) % 2 ^ 64)

/-- The loop `while (x != 0) { x >>= 1; ++count; }` of `colors_leftmost`;
a 64-bit word is exhausted after at most 64 shifts. -/
def colors_leftmost_loop : Nat → Nat → Nat → Nat
  | 0, _, count => count
  | fuel + 1, x, count =>
    if x != 0 then colors_leftmost_loop fuel (x >>> 1) (count + 1) else count

def colors_leftmost (colors : Nat) : Nat :=
  if colors == colors_empty then colors_empty
  else colors_set (colors_leftmost_loop 64 (colors >>> 1) 0)

/-- The array `set` built by `colors_random`: the singletons of the set bits
of a 64-bit word, lowest first. -/
def colors_random_set (colors : Nat) : List Nat :=
  ((List.range 64).filter (fun j => (colors >>> j) &&& 1 != 0)).map colors_set

/-- Picks `set[rand() % count]`; `r` is the value returned by `rand()`, which
is called only when `colors` is not empty. -/
def colors_random (colors : Nat) (r : Nat) : Nat :=
  if colors == 0 then 0
  else (colors_random_set colors).getD (r % colors_count colors) 0

/-- State of the loop of `subgrid_consistency`: `none` once it has returned
`false`, otherwise `(singleton, appeared)`. -/
def subgrid_consistency_step (subgrid : List Nat) (st : Option (Nat × Nat)) (i : Nat) :
    Option (Nat × Nat) :=
  match st with
  | none => none
  | some (singleton, appeared) =>
    let c := subgrid.getD i 0
    if c == 0 then none
    else if colors_is_singleton c then
      if (c &&& singleton) == c then none
      else some (singleton ||| c, appeared ||| c)
    else some (singleton, appeared ||| c)

def subgrid_consistency (subgrid : List Nat) (size : Nat) : Bool :=
  match (List.range size).foldl (subgrid_consistency_step subgrid) (some (0, 0)) with
  | none => false
  | some (_, appeared) => appeared == colors_full size

def cross_hatching (subgrid : List Nat) (size : Nat) : Bool × List Nat :=
  let colors := (List.range size).foldl
    (fun colors i =>
      if colors_is_singleton (subgrid.getD i 0) then colors ||| subgrid.getD i 0 else colors) 0
  (List.range size).foldl
    (fun (st : Bool × List Nat) i =>
      if colors_is_singleton (st.2.getD i 0) then st
      else
        let new := colors_subtract (st.2.getD i 0) colors
        if st.2.getD i 0 != new then (true, st.2.set i new) else st)
    (false, subgrid)

def lone_number (subgrid : List Nat) (size : Nat) : Bool × List Nat :=
  let ar := ((List.range size).tail).foldl
    (fun (ar : Nat × Nat) i => (ar.1 ||| subgrid.getD i 0, ar.2 ||| (ar.1 &&& subgrid.getD i 0)))
    (subgrid.getD 0 0, 0)
  let lone := colors_subtract ar.1 ar.2
  if lone == 0 then (false, subgrid)
  else
    (List.range size).foldl
      (fun (st : Bool × List Nat) i =>
        if colors_is_singleton (st.2.getD i 0) then st
        else
          let new := st.2.getD i 0 &&& lone
          if colors_is_singleton new then (true, st.2.set i new) else st)
      (false, subgrid)

def naked_subset (subgrid : List Nat) (size : Nat) : Bool × List Nat :=
  (List.range size).foldl
    (fun (st : Bool × List Nat) i =>
      if colors_is_singleton (st.2.getD i 0) then st
      else
        let count := (List.range size).foldl
          (fun count j =>
            if colors_is_singleton (st.2.getD j 0) then count
            else if colors_is_subset (st.2.getD j 0) (st.2.getD i 0) then count + 1
            else count) 0
        if count != colors_count (st.2.getD i 0) then st
        else
          (List.range size).foldl
            (fun (st : Bool × List Nat) j =>
              if colors_is_subset (st.2.getD j 0) (st.2.getD i 0) then st
              else
                let new := colors_subtract (st.2.getD j 0) (st.2.getD i 0)
                if st.2.getD j 0 != new then (true, st.2.set j new) else st)
            st)
    (false, subgrid)

/-- The side array `position` of `hidden_subset`: `position[j]` collects the
indices of the cells that contain color `j`. -/
def hidden_subset_position (subgrid : List Nat) (size : Nat) : List Nat :=
  (List.range size).foldl
    (fun position i =>
      (List.range size).foldl
        (fun position j =>
          if colors_is_in (subgrid.getD i 0) j then
            position.set j ((position.getD j 0 + colors_set i) % 2 ^ 64)
          else position)
        position)
    (List.replicate size 0)

def hidden_subset (subgrid : List Nat) (size : Nat) : Bool × List Nat :=
  let position := hidden_subset_position subgrid size
  (List.range size).foldl
    (fun (st : Bool × List Nat) i =>
      if colors_is_singleton (position.getD i 0) then st
      else
        let cs := (List.range size).foldl
          (fun (cs : Nat × Nat) j =>
            if colors_is_singleton (position.getD j 0) ||
                !colors_is_subset (position.getD j 0) (position.getD i 0) then cs
            else (cs.1 + 1, (cs.2 + colors_set j) % 2 ^ 64))
          (0, 0)
        if cs.1 != colors_count (position.getD i 0) then st
        else
          (List.range size).foldl
            (fun (st : Bool × List Nat) j =>
              let new := st.2.getD j 0 &&& cs.2
              if new != 0 && new != st.2.getD j 0 then (true, st.2.set j new) else st)
            st)
    (false, subgrid)

/-- Level 1 is `naked_subset(..) || hidden_subset(..)`, which skips
`hidden_subset` when `naked_subset` returned `true`; level 0 is
`cross_hatching(..) | lone_number(..)`, which runs both, taken left to
right. -/
def subgrid_heuristics (subgrid : List Nat) (size level : Nat) : Bool × List Nat :=
  if level != 0 then
    let r := naked_subset subgrid size
    if r.1 then r else hidden_subset r.2 size
  else
    let r1 := cross_hatching subgrid size
    let r2 := lone_number r1.2 size
    (r1.1 || r2.1, r2.2)

/-! ## grid.c -/

def MAX_GRID_SIZE : Nat := 64

def EMPTY_CELL : Char := '_'

def NOT_CONSISTENT : Nat := 2

def SOLVED : Nat := 1

def CONSISTENT_NOT_SOLVED : Nat := 0

def color_table : List Char :=
  "123456789ABCDEFGHIJKLMNOPQRSTUVWXYZ@abcdefghijklmnopqrstuvwxyz&*".toList

/-- The C `struct _grid_t`; `cells` holds `size` rows of `size` cells. -/
structure grid_t where
  size : Nat
  cells : List (List Nat)
  deriving DecidableEq

/-- The C `struct choice_t`. -/
structure choice_t where
  row : Nat
  column : Nat
  color : Nat
  deriving DecidableEq

/-- Reads `grid->cells[i][j]`. -/
def grid_cell (grid : grid_t) (i j : Nat) : Nat :=
  (grid.cells.getD i []).getD j 0

/-- Performs `grid->cells[i][j] = v`. -/
def grid_put (grid : grid_t) (i j v : Nat) : grid_t :=
  { grid with cells := grid.cells.set i ((grid.cells.getD i []).set j v) }

def grid_check_size (size : Nat) : Bool :=
  size == 1 || size == 4 || size == 9 || size == 16 ||
  size == 25 || size == 36 || size == 49 || size == 64

def grid_alloc (size : Nat) : Option grid_t :=
  if !grid_check_size size then none
  else some { size := size, cells := List.replicate size (List.replicate size (colors_full size)) }

/-- A deep copy has the size and the cells of the original. -/
def grid_copy (grid : grid_t) : grid_t :=
  { size := grid.size, cells := grid.cells }

def grid_set_cell (grid : grid_t) (row column : Nat) (color : Char) : grid_t :=
  if row ≥ grid.size || column ≥ grid.size then grid
  else if color == EMPTY_CELL then grid_put grid row column (colors_full grid.size)
  else
    match (List.range grid.size).find? (fun i => color_table.getD i (Char.ofNat 0) == color) with
    | some i => grid_put grid row column (colors_set i)
    | none => grid

def grid_is_solved (grid : grid_t) : Bool :=
  (List.range grid.size).all fun i =>
    (List.range grid.size).all fun j => colors_is_singleton (grid_cell grid i j)

/-- The value of `(size_t) sqrt(size)`: the number of `b ≥ 1` with
`b * b ≤ size`. -/
def sqrt_size (size : Nat) : Nat :=
  ((List.range size).filter (fun b => (b + 1) * (b + 1) ≤ size)).length

/-- Coordinates of the cells of row `index`, in the order of `subgrid`. -/
def row_unit (size index : Nat) : List (Nat × Nat) :=
  (List.range size).map fun i => (index, i)

/-- Coordinates of the cells of column `index`, in the order of `subgrid`. -/
def column_unit (size index : Nat) : List (Nat × Nat) :=
  (List.range size).map fun i => (i, index)

/-- Coordinates of the cells of block `index`, in the order of `subgrid`;
for a supported size the block has `block_size * block_size = size` cells. -/
def block_unit (size index : Nat) : List (Nat × Nat) :=
  let block_size := sqrt_size size
  let start_row := index / block_size * block_size
  let start_column := index % block_size * block_size
  (List.range block_size).flatMap fun i =>
    (List.range block_size).map fun j => (start_row + i, start_column + j)

/-- The cells a unit refers to. -/
def unit_cells (grid : grid_t) (unit : List (Nat × Nat)) : List Nat :=
  unit.map fun p => grid_cell grid p.1 p.2

/-- Stores the cells of a unit back into the grid. -/
def unit_store (grid : grid_t) (unit : List (Nat × Nat)) (subgrid : List Nat) : grid_t :=
  (unit.zip subgrid).foldl (fun g pv => grid_put g pv.1.1 pv.1.2 pv.2) grid

def grid_is_consistent (grid : grid_t) : Bool :=
  if grid.size == 1 then true
  else
    (List.range grid.size).all fun index =>
      subgrid_consistency (unit_cells grid (row_unit grid.size index)) grid.size &&
      subgrid_consistency (unit_cells grid (column_unit grid.size index)) grid.size &&
      subgrid_consistency (unit_cells grid (block_unit grid.size index)) grid.size

/-- One call `fix |= subgrid_heuristics(subgrid, grid->size, level)` on the
unit whose pointers were just stored in `subgrid`. -/
def unit_heuristics (level : Nat) (st : Bool × grid_t) (unit : List (Nat × Nat)) :
    Bool × grid_t :=
  let r := subgrid_heuristics (unit_cells st.2 unit) st.2.size level
  (st.1 || r.1, unit_store st.2 unit r.2)

/-- The body of the `while (level < 2)` loop up to the test of `fix`: one
pass over the rows, columns and blocks. -/
def heuristics_pass (grid : grid_t) (level : Nat) : Bool × grid_t :=
  (List.range grid.size).foldl
    (fun st index =>
      let st := unit_heuristics level st (row_unit grid.size index)
      let st := unit_heuristics level st (column_unit grid.size index)
      unit_heuristics level st (block_unit grid.size index))
    (false, grid)

/-- The loop `while (level < 2)` of `grid_heuristics`. -/
def heuristics_loop : Nat → Nat → grid_t → Option grid_t
  | fuel, level, grid =>
    if level < 2 then
      match fuel with
      | 0 => none
      | fuel + 1 =>
        let r := heuristics_pass grid level
        if r.1 then
          if level == 1 then heuristics_loop fuel (level - 1) r.2
          else heuristics_loop fuel level r.2
        else heuristics_loop fuel (level + 1) r.2
    else some grid

/-- Returns the status together with the grid as the call leaves it. -/
def grid_heuristics (fuel : Nat) (grid : grid_t) : Option (Nat × grid_t) :=
  if grid.size == 1 then some (SOLVED, grid)
  else if !grid_is_consistent grid then some (NOT_CONSISTENT, grid)
  else
    match heuristics_loop fuel 0 grid with
    | none => none
    | some grid =>
      if grid_is_solved grid then some (SOLVED, grid)
      else if grid_is_consistent grid then some (CONSISTENT_NOT_SOLVED, grid)
      else some (NOT_CONSISTENT, grid)

def grid_choice_is_empty (choice : choice_t) : Bool := choice.color == 0

def grid_choice_apply (grid : grid_t) (choice : choice_t) : grid_t :=
  grid_put grid choice.row choice.column choice.color

def grid_choice_blank (grid : grid_t) (choice : choice_t) : grid_t :=
  grid_put grid choice.row choice.column (colors_full grid.size)

def grid_choice_discard (grid : grid_t) (choice : choice_t) : grid_t :=
  let cell := grid_cell grid choice.row choice.column
  let cell := colors_subtract cell choice.color
  grid_put grid choice.row choice.column cell

/-- The static counter `solutions` of `sudoku.c` and the number of calls made
to `rand()` so far. -/
structure world where
  solutions : Nat
  rand_calls : Nat
  deriving DecidableEq

/-- The scan of `grid_choice`: the flag is set once the loop indices were
forced to `grid->size`, which ends both loops. -/
def grid_choice_scan (grid : grid_t) : Bool × choice_t :=
  (List.range grid.size).foldl
    (fun st i =>
      (List.range grid.size).foldl
        (fun (st : Bool × choice_t) j =>
          if st.1 then st
          else if colors_is_singleton (grid_cell grid i j) then st
          else (true, { row := i, column := j, color := grid_cell grid i j }))
        st)
    (false, { row := 0, column := 0, color := 0 })

/-- The function `rand` gives the successive values returned by `rand()`. -/
def grid_choice (rand : Nat → Nat) (grid : grid_t) (random : Bool) (w : world) :
    choice_t × world :=
  let choice := (grid_choice_scan grid).2
  if random then
    if choice.color == 0 then ({ choice with color := 0 }, w)
    else
      ({ choice with color := colors_random choice.color (rand w.rand_calls) },
        { w with rand_calls := w.rand_calls + 1 })
  else ({ choice with color := colors_leftmost choice.color }, w)

/-- The Fisher-Yates style loop shared by grid_initialize and
`grid_generator`: `for (i = n - 1; i > 0; --i) swap(a[i], a[rand() % i])`. -/
def shuffle_loop (rand : Nat → Nat) (n : Nat) (a : List Nat) (w : world) : List Nat × world :=
  ((List.range' 1 (n - 1)).reverse).foldl
    (fun (st : List Nat × world) i =>
      let j := rand st.2.rand_calls % i
      let temp := st.1.getD i 0
      let a := st.1.set i (st.1.getD j 0)
      (a.set j temp, { st.2 with rand_calls := st.2.rand_calls + 1 }))
    (a, w)

def grid_initialize (rand : Nat → Nat) (grid : grid_t) (w : world) : grid_t × world :=
  let grid := (List.range grid.size).foldl (fun g i => grid_put g 0 i (colors_set i)) grid
  let r := shuffle_loop rand grid.size (grid.cells.getD 0 []) w
  ({ grid with cells := grid.cells.set 0 r.1 }, r.2)

/-! ## sudoku.c -/

/-- The C `enum mode_t`. -/
inductive mode_t where
  | mode_first
  | mode_all
  | mode_unique
  deriving DecidableEq

open mode_t

/-- The `while (!grid_choice_is_empty(choice))` loop of `grid_solver`; `solve`
is the recursive call `grid_solver(grid_new, mode, stream, random)`.  A result
`some (r, w)` is the value `r` returned by `grid_solver` (`none` for `NULL`)
and the world it leaves. -/
def solver_loop (rand : Nat → Nat) (mode : mode_t) (random : Bool)
    (solve : grid_t → world → Option (Option grid_t × world)) :
    Nat → grid_t → choice_t → Option grid_t → world → Option (Option grid_t × world)
  | fuel, grid, choice, last, w =>
    if grid_choice_is_empty choice then
      some (if mode = mode_all then last else none, w)
    else
      match fuel with
      | 0 => none
      | fuel + 1 =>
        let grid_new := grid_choice_apply (grid_copy grid) choice
        match solve grid_new w with
        | none => none
        | some (some result, w) =>
          if mode = mode_first then some (some result, w)
          else
            let grid := grid_choice_discard grid choice
            if !grid_is_consistent grid then some (some result, w)
            else
              let cw := grid_choice rand grid random w
              solver_loop rand mode random solve fuel grid cw.1 (some result) cw.2
        | some (none, w) =>
          let grid := grid_choice_discard grid choice
          if !grid_is_consistent grid then
            some (if mode = mode_first then none else last, w)
          else
            let cw := grid_choice rand grid random w
            solver_loop rand mode random solve fuel grid cw.1 last cw.2

/-- The function `grid_solver` applied to a grid that is not `NULL`, without
an output stream.  The fuel bounds the recursion depth, the iterations of each
branching loop and the passes of `grid_heuristics`. -/
def grid_solver (rand : Nat → Nat) (mode : mode_t) (random : Bool) :
    Nat → grid_t → world → Option (Option grid_t × world)
  | 0, _, _ => none
  | fuel + 1, grid, w =>
    match grid_heuristics (fuel + 1) grid with
    | none => none
    | some (c, grid) =>
      if c == NOT_CONSISTENT then some (none, w)
      else if c == SOLVED then
        some (some grid, { w with solutions := (w.solutions + 1) % 2 ^ 64 })
      else
        let cw := grid_choice rand grid random w
        solver_loop rand mode random (grid_solver rand mode random fuel)
          (fuel + 1) grid cw.1 none cw.2

/-- The value of `total * EMPTY_RATE` converted to `size_t`, for a rate
`num / den`.  The constant `EMPTY_RATE` is defined in `sudoku.h`. -/
def empty_count (total num den : Nat) : Nat := total * num / den

/-- State of the loop of `grid_generator` in unique mode: whether `break` was
taken, the grid, the remaining `count`, and the world. -/
structure unique_state where
  stop : Bool
  grid : Option grid_t
  count : Nat
  w : world

/-- One iteration of `for (i = 0; i < total; ++i)` in unique mode, for the
position `p = pos[i]`; `none` when the solver ran out of fuel. -/
def generator_unique_step (rand : Nat → Nat) (fuel size : Nat)
    (st : Option unique_state) (p : Nat) : Option unique_state :=
  match st with
  | none => none
  | some st =>
    if st.stop then some st
    else
      let w : world := { st.w with solutions := 0 }
      match st.grid with
      | none =>
        some { stop := st.count == 0, grid := none, count := st.count, w := w }
      | some grid =>
        let copy := grid_set_cell (grid_copy grid) (p / size) (p % size) EMPTY_CELL
        match grid_solver rand mode_all false fuel copy w with
        | none => none
        | some (_, w) =>
          if w.solutions == 1 then
            let count := (st.count + (2 ^ 64 - 1)) % 2 ^ 64
            some { stop := count == 0,
                   grid := some (grid_set_cell grid (p / size) (p % size) EMPTY_CELL),
                   count := count, w := w }
          else some { stop := st.count == 0, grid := some grid, count := st.count, w := w }

/-- The function `grid_generator`; `count` is the value computed for
`total * EMPTY_RATE`.  The outer `none` is lack of fuel, the inner one the
`NULL` result. -/
def grid_generator (rand : Nat → Nat) (count : Nat) (fuel size : Nat) (mode : mode_t)
    (w : world) : Option (Option grid_t × world) :=
  match grid_alloc size with
  | none => some (none, w)
  | some grid =>
    let total := size * size
    let gw := grid_initialize rand grid w
    match grid_solver rand mode_first true fuel gw.1 gw.2 with
    | none => none
    | some (grid, w) =>
      let pw := shuffle_loop rand total (List.range total) w
      let pos := pw.1
      let w := pw.2
      if mode = mode_first then
        some (grid.map (fun grid =>
          (List.range count).foldl
            (fun grid i =>
              grid_set_cell grid (pos.getD i 0 / size) (pos.getD i 0 % size) EMPTY_CELL)
            grid), w)
      else
        match (List.range total).foldl
            (fun st i => generator_unique_step rand fuel size st (pos.getD i 0))
            (some { stop := false, grid := grid, count := count, w := w }) with
        | none => none
        | some st => some (st.grid, st.w)

/-! ## Specification predicates and sample grids -/

/-- The `3 * size` units of a grid: for each index its row, its column and its
block. -/
def grid_units (size : Nat) : List (List (Nat × Nat)) :=
  (List.range size).flatMap fun index =>
    [row_unit size index, column_unit size index, block_unit size index]

/-- A unit of a solved grid: every cell is a singleton, the cells are pairwise
distinct, and their union is the full set. -/
def unit_is_solved (cells : List Nat) (size : Nat) : Bool :=
  cells.all colors_is_singleton && decide cells.Nodup &&
    cells.foldl (fun a c => a ||| c) 0 == colors_full size

/-- Every row, column and block of the grid is a solved unit. -/
def grid_is_valid_solution (grid : grid_t) : Bool :=
  (grid_units grid.size).all fun unit => unit_is_solved (unit_cells grid unit) grid.size

/-- A complete assignment `s` of colors to the cells of `grid` that takes the
color of every cell from its candidate set and repeats no color inside a row,
column or block (each of which has `size` cells, so every color occurs exactly
once). -/
def is_solution (grid : grid_t) (s : Nat → Nat → Nat) : Prop :=
  (∀ i j, i < grid.size → j < grid.size →
    s i j < grid.size ∧ colors_is_in (grid_cell grid i j) (s i j) = true) ∧
  (∀ unit ∈ grid_units grid.size, ∀ p ∈ unit, ∀ q ∈ unit,
    p ≠ q → s p.1 p.2 ≠ s q.1 q.2)

/-- The grid read from the input
```
_ _ 4 _
1 3 _ _
_ _ _ _
_ _ _ _
```
It passes `grid_is_consistent`, but cells (0,0) and (0,1) can only hold `2`. -/
def stuck_grid : grid_t :=
  { size := 4, cells := [[15, 15, 8, 15], [1, 4, 15, 15], [15, 15, 15, 15], [15, 15, 15, 15]] }

/-- The grid in which `grid_heuristics` leaves `stuck_grid`. -/
def stuck_result : grid_t :=
  { size := 4, cells := [[2, 2, 8, 4], [1, 4, 2, 2], [4, 1, 1, 1], [8, 1, 4, 8]] }

/-- A 4×4 grid whose first row holds the color `1` twice. -/
def clash_grid : grid_t :=
  { size := 4, cells := [[1, 1, 15, 15], [15, 15, 15, 15], [15, 15, 15, 15], [15, 15, 15, 15]] }

/-- Every cell of `l` is a subset of the cell of `orig` at the same index. -/
def cells_subset (l orig : List Nat) : Prop :=
  ∀ i, l.getD i 0 &&& orig.getD i 0 = l.getD i 0

/-- A complete unit: its cells are the singletons of a permutation of the
colors `0 .. size - 1`. -/
def unit_complete (cells : List Nat) (size : Nat) : Prop :=
  ∃ ks : List Nat, ks.Perm (List.range size) ∧ cells = ks.map colors_set

/-- A complete grid: every row, column and block is a complete unit. -/
def grid_complete (grid : grid_t) : Prop :=
  ∀ unit ∈ grid_units grid.size, unit_complete (unit_cells grid unit) grid.size

/-- Decidable test for `unit_complete`: the binary logarithms of the cells are
a permutation of the colors and give the cells back. -/
def unit_complete_check (cells : List Nat) (size : Nat) : Bool :=
  decide ((cells.map Nat.log2).Perm (List.range size)) &&
    cells == (cells.map Nat.log2).map colors_set

/-- Decidable test for `grid_complete`. -/
def grid_complete_check (grid : grid_t) : Bool :=
  (grid_units grid.size).all fun unit => unit_complete_check (unit_cells grid unit) grid.size

/-- A solved 4×4 grid:
```
1 2 3 4
3 4 1 2
2 1 4 3
4 3 2 1
``` -/
def solved_grid : grid_t :=
  { size := 4, cells := [[1, 2, 4, 8], [4, 8, 1, 2], [2, 1, 8, 4], [8, 4, 2, 1]] }

/-- The grid has size `n` and holds `n` rows of `n` cells. -/
def grid_shape (n : Nat) (grid : grid_t) : Prop :=
  grid.size = n ∧ grid.cells.length = n ∧ ∀ row ∈ grid.cells, row.length = n

/-- A grid returned by the solver has size `n`, `n` rows of `n` cells, and
only singleton cells. -/
def solver_result_ok (n : Nat) (r : Option grid_t) : Prop :=
  ∀ g, r = some g → grid_shape n g ∧ grid_is_solved g = true

/-- The grid returned by `grid_generator` in first mode for size 4, eight
cells to empty, and a random source that always returns 0. -/
def generated_grid : grid_t :=
  { size := 4, cells := [[2, 15, 15, 15], [15, 15, 15, 15], [15, 2, 1, 8], [8, 1, 4, 2]] }

/-- A unit of a 9×9 grid that passes `subgrid_consistency` and that neither
`cross_hatching` nor `lone_number` changes. -/
def pair_unit : List Nat := [9, 4, 40, 80, 288, 288, 81, 2, 128]

/-- The unit `pair_unit` after `naked_subset`. -/
def pair_unit_naked : List Nat := [9, 4, 8, 80, 288, 288, 81, 2, 128]

/-- The unit `pair_unit_naked` after `hidden_subset`. -/
def pair_unit_hidden : List Nat := [9, 4, 8, 80, 288, 288, 80, 2, 128]

/-- The function `grid_get_cell` for a grid that is not `NULL`; `none` is the
`NULL` result.  The buffer `content` holds `size + 1` bytes zeroed by `calloc`;
the result is the C string it holds, the characters before the first NUL. -/
def grid_get_cell (grid : grid_t) (row column : Nat) : Option (List Char) :=
  if row ≥ grid.size || column ≥ grid.size then none
  else
    let cell := grid_cell grid row column
    let content := (List.replicate (grid.size + 1) (Char.ofNat 0)).set 0 EMPTY_CELL
    if cell == colors_full grid.size && grid.size != 1 then
      some (content.takeWhile fun c => c != Char.ofNat 0)
    else
      let r := (List.range grid.size).foldl
        (fun (st : Nat × List Char) i =>
          if colors_is_in cell i then
            (st.1 + 1, st.2.set st.1 (color_table.getD i (Char.ofNat 0)))
          else st)
        (0, content)
      some (r.2.takeWhile fun c => c != Char.ofNat 0)

/-- The concatenation, in ascending color index order, of the alphabet
characters of the colors of `cell` below `size`. -/
def cell_characters (cell size : Nat) : List Char :=
  ((List.range size).filter fun i => colors_is_in cell i).map
    fun i => color_table.getD i (Char.ofNat 0)

/-- A 4×4 grid whose cell (0,0) is the empty set. -/
def empty_cell_grid : grid_t :=
  { size := 4, cells := [[0, 15, 15, 15], [15, 15, 15, 15], [15, 15, 15, 15], [15, 15, 15, 15]] }

/-- One step of a loop that replaces cell `i` by `g` of its value and records
whether the value changed. -/
def pointwise_step (g : Nat → Nat) (st : Bool × List Nat) (i : Nat) : Bool × List Nat :=
  if g (st.2.getD i 0) != st.2.getD i 0 then (true, st.2.set i (g (st.2.getD i 0))) else st

/-- The union of the singleton cells of a unit. -/
def singleton_union (subgrid : List Nat) : Nat :=
  (subgrid.filter colors_is_singleton).foldl (fun a c => a ||| c) 0

/-- Value given to a cell `c` by `cross_hatching` when the singletons of the
unit have union `s`. -/
def cross_hatching_cell (s c : Nat) : Nat :=
  if colors_is_singleton c then c else colors_subtract c s

/-- The value of `lone` computed by the first loop of `lone_number`:
`appeared \ repeated`. -/
def lone_number_lone (subgrid : List Nat) (size : Nat) : Nat :=
  let ar := ((List.range size).tail).foldl
    (fun (ar : Nat × Nat) i => (ar.1 ||| subgrid.getD i 0, ar.2 ||| (ar.1 &&& subgrid.getD i 0)))
    (subgrid.getD 0 0, 0)
  colors_subtract ar.1 ar.2

/-- The set of the colors that are contained in exactly one cell of the
unit. -/
def lone_colors (subgrid : List Nat) : Nat :=
  (List.range 64).foldl
    (fun a k =>
      if (subgrid.filter fun c => colors_is_in c k).length = 1 then a ||| colors_set k else a)
    0

/-- One step of the first loop of `lone_number` on the cell `c`. -/
def lone_step (ar : Nat × Nat) (c : Nat) : Nat × Nat :=
  (ar.1 ||| c, ar.2 ||| (ar.1 &&& c))

/-- Value given to a cell `c` by the second loop of `lone_number`. -/
def lone_number_cell (lone c : Nat) : Nat :=
  if colors_is_singleton c then c
  else if colors_is_singleton (c &&& lone) then c &&& lone else c

/-- The counting loop of `naked_subset` for the cell at index `i`: the number of
non-singleton cells that are subsets of that cell. -/
def naked_subset_count (cells : List Nat) (size i : Nat) : Nat :=
  (List.range size).foldl
    (fun count j =>
      if colors_is_singleton (cells.getD j 0) then count
      else if colors_is_subset (cells.getD j 0) (cells.getD i 0) then count + 1
      else count) 0

/-- The elision loop of `naked_subset` for the cell at index `i`. -/
def naked_subset_elide (size i : Nat) (st : Bool × List Nat) : Bool × List Nat :=
  (List.range size).foldl
    (fun (st : Bool × List Nat) j =>
      if colors_is_subset (st.2.getD j 0) (st.2.getD i 0) then st
      else
        let new := colors_subtract (st.2.getD j 0) (st.2.getD i 0)
        if st.2.getD j 0 != new then (true, st.2.set j new) else st)
    st

/-- One iteration of the outer loop of `naked_subset`. -/
def naked_subset_step (size : Nat) (st : Bool × List Nat) (i : Nat) : Bool × List Nat :=
  if colors_is_singleton (st.2.getD i 0) then st
  else if naked_subset_count st.2 size i != colors_count (st.2.getD i 0) then st
  else naked_subset_elide size i st

/-- The flag and the unit as they stand when the outer loop of `naked_subset`
reaches the index `n`. -/
def naked_subset_upto (subgrid : List Nat) (size n : Nat) : Bool × List Nat :=
  (List.range n).foldl (naked_subset_step size) (false, subgrid)

/-- The unit invariant of the specification: no cell is empty, the determined
(singleton) cells are pairwise distinct, and the union of the cells is the full set. -/
def unit_invariant (cells : List Nat) (size : Nat) : Prop :=
  (∀ c ∈ cells, c ≠ colors_empty) ∧
  (cells.filter colors_is_singleton).Nodup ∧
  cells.foldl (fun a c => a ||| c) 0 = colors_full size

/-- Condition under which the loop of `subgrid_consistency`, entered with the
accumulator `singleton = s`, runs to its end on the cells `cells`. -/
def consistency_ok (cells : List Nat) (s : Nat) : Prop :=
  (∀ c ∈ cells, c ≠ 0) ∧ (cells.filter colors_is_singleton).Nodup ∧
    ∀ c ∈ cells.filter colors_is_singleton, c &&& s ≠ c

/-- The population count of a 64-bit color set: the number of colors `k < 64`
that belong to the set. -/
def popcount (colors : Nat) : Nat :=
  ((List.range 64).filter fun k => colors_is_in colors k).length

/-- The number of bits set among the `w` lowest bits of `a`. -/
def bit_count : Nat → Nat → Nat
  | 0, _ => 0
  | w + 1, a => a % 2 + bit_count w (a / 2)

/-- The word whose `n` fields of `w` bits hold the bit counts of the `n` lowest
fields of `w` bits of `a`. -/
def packed_counts (w : Nat) : Nat → Nat → Nat
  | 0, _ => 0
  | n + 1, a => bit_count w a + 2 ^ w * packed_counts w n (a / 2 ^ w)

/-- The mask of `n` fields of `2 * w` bits whose `w` lowest bits are set. -/
def swar_mask (w : Nat) : Nat → Nat
  | 0 => 0
  | n + 1 => (2 ^ w - 1) + 2 ^ w * (0 + 2 ^ w * swar_mask w n)

/-- The colors of a 64-bit set, in ascending order. -/
def colors_list (colors : Nat) : List Nat :=
  (List.range 64).filter fun k => colors_is_in colors k

/-- The inner loop of the scan of `grid_choice` over the columns of row `i`. -/
def grid_choice_scan_row (grid : grid_t) (st : Bool × choice_t) (i : Nat) : Bool × choice_t :=
  (List.range grid.size).foldl
    (fun (st : Bool × choice_t) j =>
      if st.1 then st
      else if colors_is_singleton (grid_cell grid i j) then st
      else (true, { row := i, column := j, color := grid_cell grid i j }))
    st

/-- The set of the indices of the cells of the unit whose candidate set contains the
color `j`. -/
def position_set (subgrid : List Nat) (j : Nat) : Nat :=
  (List.range subgrid.length).foldl
    (fun a k => if colors_is_in (subgrid.getD k 0) j then a ||| colors_set k else a) 0

/-- The counting loop of `hidden_subset` for the color `i`: the number and the set of the
colors `j` whose entry of `position` is not a singleton and is a subset of the entry
of `i`. -/
def hidden_subset_cs (position : List Nat) (size i : Nat) : Nat × Nat :=
  (List.range size).foldl
    (fun (cs : Nat × Nat) j =>
      if colors_is_singleton (position.getD j 0) ||
          !colors_is_subset (position.getD j 0) (position.getD i 0) then cs
      else (cs.1 + 1, (cs.2 + colors_set j) % 2 ^ 64))
    (0, 0)

/-- The last loop of `hidden_subset`: every cell is intersected with `set`, unless the
intersection is empty. -/
def hidden_subset_elide (size set : Nat) (st : Bool × List Nat) : Bool × List Nat :=
  (List.range size).foldl
    (fun (st : Bool × List Nat) j =>
      let new := st.2.getD j 0 &&& set
      if new != 0 && new != st.2.getD j 0 then (true, st.2.set j new) else st)
    st

/-- One iteration of the main loop of `hidden_subset`. -/
def hidden_subset_step (position : List Nat) (size : Nat) (st : Bool × List Nat) (i : Nat) :
    Bool × List Nat :=
  if colors_is_singleton (position.getD i 0) then st
  else if (hidden_subset_cs position size i).1 != colors_count (position.getD i 0) then st
  else hidden_subset_elide size (hidden_subset_cs position size i).2 st

/-- The color `j` belongs to the subset of the color `i`: its position set is not a
singleton and is a subset of the position set of `i`. -/
def hidden_member (subgrid : List Nat) (i j : Nat) : Bool :=
  !colors_is_singleton (position_set subgrid j) &&
    colors_is_subset (position_set subgrid j) (position_set subgrid i)

/-- The color subset of the color `i`. -/
def hidden_colors (subgrid : List Nat) (i : Nat) : Nat :=
  (List.range subgrid.length).foldl
    (fun a j => if hidden_member subgrid i j then a ||| colors_set j else a) 0

/-- The number of colors in the color subset of the color `i`. -/
def hidden_count (subgrid : List Nat) (i : Nat) : Nat :=
  ((List.range subgrid.length).filter (hidden_member subgrid i)).length

/-- Value given to a cell by the last loop of `hidden_subset`. -/
def hidden_subset_cell (set c : Nat) : Nat :=
  if (c &&& set != 0 && c &&& set != c) = true then c &&& set else c

/-- A consistent unit of length 9 with two overlapping hidden pairs: the colors 1 and 2
occur only in the cells 0 and 1, the colors 3 and 4 only in the cells 1 and 2. -/
def hidden_unit : List Nat := [6, 30, 24, 33, 33, 33, 448, 448, 448]

/-- The assignment `σ` is a solution of the unit: it gives every cell one of its colors and
gives distinct cells distinct colors. -/
def unit_solution (subgrid : List Nat) (size : Nat) (σ : Nat → Nat) : Prop :=
  (∀ i, i < size → colors_is_in (subgrid.getD i 0) (σ i) = true) ∧
  (∀ i, i < size → ∀ j, j < size → σ i = σ j → i = j)

/-- Relation between the state `st` of a heuristic and the unit `l` it started from: the
length is kept, every cell is a subset of the cell it was, singleton cells are untouched, and
the flag is set only if some cell among the first `size` differs from what it was. -/
def unit_progress (l : List Nat) (size : Nat) (st : Bool × List Nat) : Prop :=
  st.2.length = l.length ∧ cells_subset st.2 l ∧
  (∀ k, colors_is_singleton (l.getD k 0) = true → st.2.getD k 0 = l.getD k 0) ∧
  (st.1 = true → ∃ k, k < size ∧ st.2.getD k 0 ≠ l.getD k 0)

/-- A unit of a grid of size `n`: `n` pairwise distinct coordinates inside the grid. -/
def unit_ok (n : Nat) (unit : List (Nat × Nat)) : Prop :=
  unit.length = n ∧ unit.Nodup ∧ ∀ p ∈ unit, p.1 < n ∧ p.2 < n

/-- The grid `g'` has the shape of a grid of size `n`, each of its cells is a subset of the
cell of `g` at the same place, and the singleton cells of `g` are untouched. -/
def grid_below (n : Nat) (g' g : grid_t) : Prop :=
  grid_shape n g' ∧
  (∀ i j, i < n → j < n → grid_cell g' i j &&& grid_cell g i j = grid_cell g' i j) ∧
  (∀ i j, i < n → j < n → colors_is_singleton (grid_cell g i j) = true →
    grid_cell g' i j = grid_cell g i j)

/-- Relation between the state `st` of a pass and the grid `g` it started from: the grid of
the state is below `g`, and the flag is set only if some cell differs from what it was. -/
def grid_progress (n : Nat) (g : grid_t) (st : Bool × grid_t) : Prop :=
  grid_below n st.2 g ∧
  (st.1 = true → ∃ i j, i < n ∧ j < n ∧ grid_cell st.2 i j ≠ grid_cell g i j)

/-- The total number of candidate colors in the cells of the grid. -/
def grid_bits (grid : grid_t) : Nat :=
  ((List.range grid.size).map fun i =>
    ((List.range grid.size).map fun j => popcount (grid_cell grid i j)).sum).sum

/-- The number of cells of the grid that are not singletons. -/
def non_singleton_count (grid : grid_t) : Nat :=
  ((List.range grid.size).map fun i =>
    ((List.range grid.size).map fun j =>
      if colors_is_singleton (grid_cell grid i j) then 0 else 1).sum).sum

/-- What the scan of `grid_choice` leaves in the choice: nothing when the flag is down, a
cell of the grid that is not a singleton when it is up. -/
def scan_ok (grid : grid_t) (st : Bool × choice_t) : Prop :=
  (st.1 = false → st.2 = { row := 0, column := 0, color := 0 }) ∧
  (st.1 = true → st.2.row < grid.size ∧ st.2.column < grid.size ∧
    st.2.color = grid_cell grid st.2.row st.2.column ∧
    colors_is_singleton (grid_cell grid st.2.row st.2.column) = false)

/-- The body of `grid_solver`, with the recursive call `solve` as a parameter. -/
def solver_frame (rand : Nat → Nat) (mode : mode_t) (random : Bool)
    (solve : grid_t → world → Option (Option grid_t × world)) (fuel : Nat) (grid : grid_t)
    (w : world) : Option (Option grid_t × world) :=
  match grid_heuristics fuel grid with
  | none => none
  | some (c, grid) =>
    if c == NOT_CONSISTENT then some (none, w)
    else if c == SOLVED then
      some (some grid, { w with solutions := (w.solutions + 1) % 2 ^ 64 })
    else
      let cw := grid_choice rand grid random w
      solver_loop rand mode random solve fuel grid cw.1 none cw.2

/-- The function `grid_solver` with a limit on the depth of the recursion: the frame at
depth `depth` below the limit makes recursive calls only if `depth` is positive; a call
beyond the limit does not return.  The fuel bounds the iterations of each branching loop
and the passes of `grid_heuristics`. -/
def grid_solver_depth (rand : Nat → Nat) (mode : mode_t) (random : Bool) (fuel : Nat) :
    Nat → grid_t → world → Option (Option grid_t × world)
  | 0 => solver_frame rand mode random (fun _ _ => none) fuel
  | depth + 1 =>
    solver_frame rand mode random (grid_solver_depth rand mode random fuel depth) fuel

/-! ## Theorems -/

/-- Evaluation of `grid_heuristics` on `stuck_grid`. -/
theorem grid_heuristics_stuck_grid :
    grid_heuristics 8 stuck_grid = some (SOLVED, stuck_result) := by
  decide!

/-- The grid `stuck_result` is not a valid solution. -/
theorem stuck_result_not_valid : grid_is_valid_solution stuck_result = false := by
  decide!

/-- C1 (code bug): on the consistent grid `stuck_grid`, `grid_heuristics`
returns `SOLVED` although row 0 of the grid it leaves holds the singleton `2`
twice, so that grid is not made of solved units. -/
theorem grid_heuristics_solved_not_valid :
    grid_is_consistent stuck_grid = true ∧
    grid_heuristics 8 stuck_grid = some (SOLVED, stuck_result) ∧
    grid_cell stuck_result 0 0 = grid_cell stuck_result 0 1 ∧
    grid_is_valid_solution stuck_result = false :=
  ⟨by decide!, grid_heuristics_stuck_grid, by decide!, stuck_result_not_valid⟩

/-- C2 (code bug): every cell of `stuck_grid` is the full set or a singleton,
and `grid_solver` in first mode returns for it a grid that is not a valid
solution, under either choice rule. -/
theorem grid_solver_first_not_valid (rand : Nat → Nat) (random : Bool) :
    (∀ i, i < 4 → ∀ j, j < 4 → grid_cell stuck_grid i j = colors_full 4 ∨
      colors_is_singleton (grid_cell stuck_grid i j) = true) ∧
    grid_solver rand mode_first random 8 stuck_grid ⟨0, 0⟩ = some (some stuck_result, ⟨1, 0⟩) ∧
    grid_is_valid_solution stuck_result = false := by
  refine ⟨by decide!, ?_, stuck_result_not_valid⟩
  simp [grid_solver, grid_heuristics_stuck_grid, SOLVED, NOT_CONSISTENT]

/-- The grid `stuck_grid` has no solution: cells (0,0) and (0,1) would both
have to hold the color of index 1. -/
theorem stuck_grid_no_solution : ¬ ∃ s, is_solution stuck_grid s := by
  rintro ⟨s, hcell, hunit⟩
  have hrow : row_unit 4 0 ∈ grid_units stuck_grid.size := by decide!
  have hblock : block_unit 4 0 ∈ grid_units stuck_grid.size := by decide!
  have h00 := hcell 0 0 (by decide) (by decide)
  have h01 := hcell 0 1 (by decide) (by decide)
  have h02 := hcell 0 2 (by decide) (by decide)
  have h10 := hcell 1 0 (by decide) (by decide)
  have h11 := hcell 1 1 (by decide) (by decide)
  have e02 : s 0 2 = 3 := by
    obtain ⟨hlt, hin⟩ := h02
    have hlt4 : s 0 2 < 4 := hlt
    have hin8 : colors_is_in 8 (s 0 2) = true := hin
    interval_cases s 0 2 <;> first | rfl | (exact absurd hin8 (by decide))
  have e10 : s 1 0 = 0 := by
    obtain ⟨hlt, hin⟩ := h10
    have hlt4 : s 1 0 < 4 := hlt
    have hin1 : colors_is_in 1 (s 1 0) = true := hin
    interval_cases s 1 0 <;> first | rfl | (exact absurd hin1 (by decide))
  have e11 : s 1 1 = 2 := by
    obtain ⟨hlt, hin⟩ := h11
    have hlt4 : s 1 1 < 4 := hlt
    have hin4 : colors_is_in 4 (s 1 1) = true := hin
    interval_cases s 1 1 <;> first | rfl | (exact absurd hin4 (by decide))
  have a1 := hunit _ hrow (0, 0) (by decide!) (0, 2) (by decide!) (by decide)
  have a2 := hunit _ hblock (0, 0) (by decide!) (1, 0) (by decide!) (by decide)
  have a3 := hunit _ hblock (0, 0) (by decide!) (1, 1) (by decide!) (by decide)
  have b1 := hunit _ hrow (0, 1) (by decide!) (0, 2) (by decide!) (by decide)
  have b2 := hunit _ hblock (0, 1) (by decide!) (1, 0) (by decide!) (by decide)
  have b3 := hunit _ hblock (0, 1) (by decide!) (1, 1) (by decide!) (by decide)
  have c1 := hunit _ hrow (0, 0) (by decide!) (0, 1) (by decide!) (by decide)
  have l00 : s 0 0 < 4 := h00.1
  have l01 : s 0 1 < 4 := h01.1
  simp only at a1 a2 a3 b1 b2 b3 c1
  omega

/-- C3 (code bug): for `stuck_grid`, which has no solution at all,
`grid_solver` in all mode with the deterministic choice rule ends with the
solution counter equal to 1. -/
theorem grid_solver_all_counts_invalid (rand : Nat → Nat) :
    grid_solver rand mode_all false 8 stuck_grid ⟨0, 0⟩ = some (some stuck_result, ⟨1, 0⟩) ∧
    ¬ ∃ s, is_solution stuck_grid s := by
  refine ⟨?_, stuck_grid_no_solution⟩
  simp [grid_solver, grid_heuristics_stuck_grid, SOLVED, NOT_CONSISTENT]

/-- C4 (code bug): the first call of `grid_heuristics` on `stuck_grid` returns
`SOLVED` and leaves `stuck_result`; a second call on `stuck_result` returns
`NOT_CONSISTENT`, whatever the fuel. -/
theorem grid_heuristics_second_call_differs :
    grid_heuristics 8 stuck_grid = some (SOLVED, stuck_result) ∧
    (∀ fuel, grid_heuristics fuel stuck_result = some (NOT_CONSISTENT, stuck_result)) ∧
    SOLVED ≠ NOT_CONSISTENT := by
  refine ⟨grid_heuristics_stuck_grid, fun fuel => ?_, by decide⟩
  have h1 : (stuck_result.size == 1) = false := by decide
  have h2 : grid_is_consistent stuck_result = false := by decide!
  simp [grid_heuristics, h1, h2]

/-- C6: a grid of size `N > 1` that fails `grid_is_consistent` makes
`grid_solver` return `NULL` in every mode and under either choice rule, and
the solution counter keeps its value. -/
theorem grid_solver_inconsistent (rand : Nat → Nat) (mode : mode_t) (random : Bool)
    (fuel : Nat) (grid : grid_t) (w : world)
    (hsize : 1 < grid.size) (h : grid_is_consistent grid = false) :
    grid_solver rand mode random (fuel + 1) grid w = some (none, w) := by
  have h1 : (grid.size == 1) = false := by
    simp only [beq_eq_false_iff_ne, ne_eq]
    omega
  simp [grid_solver, grid_heuristics, h1, h, NOT_CONSISTENT]

/-- Witness for C6 on `clash_grid`, with the counter reset to 0. -/
theorem grid_solver_inconsistent_witness :
    1 < clash_grid.size ∧ grid_is_consistent clash_grid = false ∧
    grid_solver (fun _ => 0) mode_all false 1 clash_grid ⟨0, 0⟩ = some (none, ⟨0, 0⟩) :=
  ⟨by decide, by decide!,
    grid_solver_inconsistent (fun _ => 0) mode_all false 0 clash_grid ⟨0, 0⟩
      (by decide) (by decide!)⟩

/-- A property that holds initially and is kept by every step holds after a
left fold. -/
theorem foldl_invariant {α β : Type} (P : α → Prop) (f : α → β → α) (l : List β) (a : α)
    (h0 : P a) (hstep : ∀ a b, b ∈ l → P a → P (f a b)) : P (l.foldl f a) := by
  induction l generalizing a with
  | nil => exact h0
  | cons b l ih =>
    exact ih (f a b) (hstep a b (List.mem_cons_self b l) h0)
      (fun a c hc ha => hstep a c (List.mem_cons_of_mem b hc) ha)

theorem colors_is_subset_iff (a b : Nat) : colors_is_subset a b = true ↔ a &&& b = a := by
  unfold colors_is_subset
  rw [beq_iff_eq]
  exact eq_comm

theorem land_subset_left (a m : Nat) : (a &&& m) &&& a = a &&& m := by
  apply Nat.eq_of_testBit_eq
  intro i
  simp only [Nat.testBit_and]
  cases a.testBit i <;> cases m.testBit i <;> rfl

theorem subset_trans {a b c : Nat} (h1 : a &&& b = a) (h2 : b &&& c = b) : a &&& c = a := by
  rw [← h1, Nat.and_assoc, h2]

/-- Bits of `a - (a &&& b)`: the bits of `a` that are not in `b`. -/
theorem testBit_colors_subtract (a b i : Nat) :
    (colors_subtract a b).testBit i = (a.testBit i && !b.testBit i) := by
  unfold colors_subtract
  induction i generalizing a b with
  | zero =>
    have h := @Nat.and_mod_two_eq_one a b
    have hle : a &&& b ≤ a := Nat.and_le_left
    simp only [Nat.testBit_zero]
    rcases Nat.mod_two_eq_zero_or_one a with ha | ha <;>
      rcases Nat.mod_two_eq_zero_or_one b with hb | hb <;>
      rcases Nat.mod_two_eq_zero_or_one (a &&& b) with hc | hc <;>
      simp [ha, hb, hc] at h ⊢ <;> omega
  | succ i ih =>
    have h := @Nat.and_mod_two_eq_one a b
    have hle : a &&& b ≤ a := Nat.and_le_left
    have hdiv : (a &&& b) / 2 = a / 2 &&& b / 2 := Nat.and_div_two
    have hle2 : a / 2 &&& b / 2 ≤ a / 2 := Nat.and_le_left
    have key : (a - (a &&& b)) / 2 = a / 2 - (a / 2 &&& b / 2) := by
      rcases Nat.mod_two_eq_zero_or_one a with ha | ha <;>
        rcases Nat.mod_two_eq_zero_or_one (a &&& b) with hc | hc <;>
        simp [ha, hc] at h <;> omega
    rw [Nat.testBit_succ, Nat.testBit_succ, Nat.testBit_succ, key, ih]

theorem colors_subtract_subset (a b : Nat) : colors_subtract a b &&& a = colors_subtract a b := by
  apply Nat.eq_of_testBit_eq
  intro i
  simp only [Nat.testBit_and, testBit_colors_subtract]
  cases a.testBit i <;> cases b.testBit i <;> rfl

theorem getD_set (l : List Nat) (j v i : Nat) :
    (l.set j v).getD i 0 = if i = j ∧ j < l.length then v else l.getD i 0 := by
  simp only [List.getD_eq_getElem?_getD, List.getElem?_set]
  by_cases h : j = i
  · subst h
    by_cases hl : j < l.length
    · simp [hl]
    · simp [hl, List.getElem?_eq_none (Nat.le_of_not_lt hl)]
  · have h' : ¬ i = j := fun e => h e.symm
    simp [h, h']


theorem cells_subset_refl (l : List Nat) : cells_subset l l := fun _ => Nat.and_self _

theorem cells_subset_set {l orig : List Nat} (h : cells_subset l orig) (j v : Nat)
    (hv : v &&& l.getD j 0 = v) : cells_subset (l.set j v) orig := by
  intro i
  rw [getD_set]
  split
  · rename_i hc
    obtain ⟨rfl, _⟩ := hc
    exact subset_trans hv (h i)
  · exact h i

theorem cross_hatching_subset (subgrid : List Nat) (size : Nat) :
    cells_subset (cross_hatching subgrid size).2 subgrid := by
  unfold cross_hatching
  dsimp only
  refine foldl_invariant (fun st : Bool × List Nat => cells_subset st.2 subgrid) _ _ _ ?_ ?_
  · exact cells_subset_refl _
  · intro st i _ h
    dsimp only
    split
    · exact h
    · split
      · exact cells_subset_set h _ _ (colors_subtract_subset _ _)
      · exact h

theorem lone_number_subset (subgrid : List Nat) (size : Nat) :
    cells_subset (lone_number subgrid size).2 subgrid := by
  unfold lone_number
  dsimp only
  split
  · exact cells_subset_refl _
  · refine foldl_invariant (fun st : Bool × List Nat => cells_subset st.2 subgrid) _ _ _ ?_ ?_
    · exact cells_subset_refl _
    · intro st i _ h
      dsimp only
      split
      · exact h
      · split
        · exact cells_subset_set h _ _ (land_subset_left _ _)
        · exact h

theorem naked_subset_subset (subgrid : List Nat) (size : Nat) :
    cells_subset (naked_subset subgrid size).2 subgrid := by
  unfold naked_subset
  refine foldl_invariant (fun st : Bool × List Nat => cells_subset st.2 subgrid) _ _ _ ?_ ?_
  · exact cells_subset_refl _
  · intro st i _ h
    dsimp only
    split
    · exact h
    · split
      · exact h
      · refine foldl_invariant (fun st : Bool × List Nat => cells_subset st.2 subgrid) _ _ _ ?_ ?_
        · exact h
        · intro st j _ h
          dsimp only
          split
          · exact h
          · split
            · exact cells_subset_set h _ _ (colors_subtract_subset _ _)
            · exact h

theorem hidden_subset_subset (subgrid : List Nat) (size : Nat) :
    cells_subset (hidden_subset subgrid size).2 subgrid := by
  unfold hidden_subset
  dsimp only
  refine foldl_invariant (fun st : Bool × List Nat => cells_subset st.2 subgrid) _ _ _ ?_ ?_
  · exact cells_subset_refl _
  · intro st i _ h
    dsimp only
    split
    · exact h
    · split
      · exact h
      · refine foldl_invariant (fun st : Bool × List Nat => cells_subset st.2 subgrid) _ _ _ ?_ ?_
        · exact h
        · intro st j _ h
          dsimp only
          split
          · exact cells_subset_set h _ _ (land_subset_left _ _)
          · exact h

/-- C5: none of the four unit heuristics adds a color to a cell: after
`cross_hatching`, `lone_number`, `naked_subset` or `hidden_subset`, the cell at
every index `i` is a subset of the cell that was at index `i` before. -/
theorem heuristics_never_add_color (subgrid : List Nat) (size i : Nat) :
    colors_is_subset ((cross_hatching subgrid size).2.getD i 0) (subgrid.getD i 0) = true ∧
    colors_is_subset ((lone_number subgrid size).2.getD i 0) (subgrid.getD i 0) = true ∧
    colors_is_subset ((naked_subset subgrid size).2.getD i 0) (subgrid.getD i 0) = true ∧
    colors_is_subset ((hidden_subset subgrid size).2.getD i 0) (subgrid.getD i 0) = true := by
  simp only [colors_is_subset_iff]
  exact ⟨cross_hatching_subset subgrid size i, lone_number_subset subgrid size i,
    naked_subset_subset subgrid size i, hidden_subset_subset subgrid size i⟩

theorem colors_set_eq_two_pow {k : Nat} (hk : k < 64) : colors_set k = 2 ^ k := by
  unfold colors_set MAX_COLORS
  rw [if_neg (by omega), Nat.one_shiftLeft]

theorem two_pow_land (k n : Nat) : 2 ^ k &&& n = if n.testBit k then 2 ^ k else 0 := by
  rw [Nat.two_pow_and]
  cases n.testBit k <;> simp

theorem two_pow_land_two_pow_sub_one (k : Nat) : 2 ^ k &&& (2 ^ k - 1) = 0 := by
  rw [two_pow_land, Nat.testBit_two_pow_sub_one]
  simp

theorem colors_is_singleton_two_pow (k : Nat) : colors_is_singleton (2 ^ k) = true := by
  unfold colors_is_singleton colors_empty
  have h : (2 ^ k == 0) = false := by
    rw [beq_eq_false_iff_ne]
    exact Nat.pos_iff_ne_zero.mp (Nat.two_pow_pos k)
  rw [h, two_pow_land_two_pow_sub_one]
  rfl

theorem colors_full_eq {size : Nat} (h : size ≤ 64) : colors_full size = 2 ^ size - 1 := by
  unfold colors_full MAX_COLORS UINT64_MAX
  split
  · have : size = 64 := by omega
    rw [this]
  · rw [Nat.one_shiftLeft]

theorem grid_check_size_le {size : Nat} (h : grid_check_size size = true) : size ≤ 64 := by
  unfold grid_check_size at h
  simp only [Bool.or_eq_true, beq_iff_eq] at h
  omega

theorem grid_check_size_pos {size : Nat} (h : grid_check_size size = true) : 0 < size := by
  unfold grid_check_size at h
  simp only [Bool.or_eq_true, beq_iff_eq] at h
  omega

theorem map_range_getD (l : List Nat) :
    (List.range l.length).map (fun i => l.getD i 0) = l := by
  induction l with
  | nil => rfl
  | cons x xs ih =>
    rw [List.length_cons, List.range_succ_eq_map, List.map_cons, List.map_map]
    simp only [List.getD_cons_zero]
    congr 1

theorem foldl_range_getD {σ : Type} (f : σ → Nat → σ) (l : List Nat) (a : σ) :
    (List.range l.length).foldl (fun st i => f st (l.getD i 0)) a = l.foldl f a := by
  have h := List.foldl_map (fun i => l.getD i 0) f (List.range l.length) a
  rw [map_range_getD] at h
  exact h.symm

theorem subgrid_consistency_step_getD (subgrid : List Nat) (st : Option (Nat × Nat)) (i : Nat) :
    subgrid_consistency_step subgrid st i = subgrid_consistency_step [subgrid.getD i 0] st 0 := by
  unfold subgrid_consistency_step
  simp only [List.getD_cons_zero]

theorem consistency_fold (ks : List Nat) (s a : Nat) (hlt : ∀ k ∈ ks, k < 64)
    (hnd : ks.Nodup) (hs : ∀ k ∈ ks, s.testBit k = false) :
    (ks.map colors_set).foldl (fun st c => subgrid_consistency_step [c] st 0) (some (s, a)) =
      some (ks.foldl (fun acc k => acc ||| 2 ^ k) s, ks.foldl (fun acc k => acc ||| 2 ^ k) a) := by
  induction ks generalizing s a with
  | nil => rfl
  | cons k ks ih =>
    have hk : k < 64 := hlt k (List.mem_cons_self k ks)
    have hsk : s.testBit k = false := hs k (List.mem_cons_self k ks)
    rw [List.nodup_cons] at hnd
    have hstep : subgrid_consistency_step [colors_set k] (some (s, a)) 0 =
        some (s ||| 2 ^ k, a ||| 2 ^ k) := by
      rw [colors_set_eq_two_pow hk]
      unfold subgrid_consistency_step
      have h0 : (2 ^ k == 0) = false := by
        rw [beq_eq_false_iff_ne]
        exact Nat.pos_iff_ne_zero.mp (Nat.two_pow_pos k)
      have h1 : (2 ^ k &&& s == 2 ^ k) = false := by
        rw [beq_eq_false_iff_ne, two_pow_land, hsk]
        have := Nat.two_pow_pos k
        simp only [Bool.false_eq_true, if_false]
        omega
      simp [colors_is_singleton_two_pow, h0, h1]
    rw [List.map_cons, List.foldl_cons, hstep, List.foldl_cons, List.foldl_cons]
    apply ih
    · exact fun k' hk' => hlt k' (List.mem_cons_of_mem k hk')
    · exact hnd.2
    · intro k' hk'
      rw [Nat.testBit_or, hs k' (List.mem_cons_of_mem k hk'), Nat.testBit_two_pow]
      have : k ≠ k' := fun e => hnd.1 (e ▸ hk')
      simp [this]

theorem testBit_foldl_or (ks : List Nat) (a i : Nat) :
    (ks.foldl (fun acc k => acc ||| 2 ^ k) a).testBit i = (a.testBit i || decide (i ∈ ks)) := by
  induction ks generalizing a with
  | nil => simp
  | cons k ks ih =>
    rw [List.foldl_cons, ih, Nat.testBit_or, Nat.testBit_two_pow]
    by_cases h : k = i
    · subst h
      simp
    · have h' : ¬ i = k := fun e => h e.symm
      simp [h, h']

theorem subgrid_consistency_complete {cells : List Nat} {size : Nat} (hsize : size ≤ 64)
    (h : unit_complete cells size) : subgrid_consistency cells size = true := by
  obtain ⟨ks, hperm, rfl⟩ := h
  have hlen : (ks.map colors_set).length = size := by
    rw [List.length_map, hperm.length_eq, List.length_range]
  have hmem : ∀ k, k ∈ ks ↔ k < size := fun k => by rw [hperm.mem_iff, List.mem_range]
  unfold subgrid_consistency
  have hfold : (List.range size).foldl (subgrid_consistency_step (ks.map colors_set)) (some (0, 0)) =
      (ks.map colors_set).foldl (fun st c => subgrid_consistency_step [c] st 0) (some (0, 0)) := by
    rw [← foldl_range_getD (fun st c => subgrid_consistency_step [c] st 0), hlen]
    congr 1
  rw [hfold, consistency_fold ks 0 0 (fun k hk => by have := (hmem k).1 hk; omega)
    (hperm.nodup_iff.2 (List.nodup_range size)) (fun k _ => Nat.zero_testBit k)]
  simp only [beq_iff_eq]
  rw [colors_full_eq hsize]
  apply Nat.eq_of_testBit_eq
  intro i
  rw [testBit_foldl_or, Nat.testBit_two_pow_sub_one, Nat.zero_testBit, Bool.false_or]
  simp only [hmem]

theorem cross_hatching_singletons (l : List Nat) (size : Nat)
    (hs : ∀ j, j < size → colors_is_singleton (l.getD j 0) = true) :
    cross_hatching l size = (false, l) := by
  unfold cross_hatching
  dsimp only
  refine foldl_invariant (fun st : Bool × List Nat => st = (false, l)) _ _ _ rfl ?_
  intro st i hi h
  subst h
  dsimp only
  rw [if_pos (hs i (List.mem_range.1 hi))]

theorem lone_number_singletons (l : List Nat) (size : Nat)
    (hs : ∀ j, j < size → colors_is_singleton (l.getD j 0) = true) :
    lone_number l size = (false, l) := by
  unfold lone_number
  dsimp only
  split
  · rfl
  · refine foldl_invariant (fun st : Bool × List Nat => st = (false, l)) _ _ _ rfl ?_
    intro st i hi h
    subst h
    dsimp only
    rw [if_pos (hs i (List.mem_range.1 hi))]

theorem naked_subset_singletons (l : List Nat) (size : Nat)
    (hs : ∀ j, j < size → colors_is_singleton (l.getD j 0) = true) :
    naked_subset l size = (false, l) := by
  unfold naked_subset
  refine foldl_invariant (fun st : Bool × List Nat => st = (false, l)) _ _ _ rfl ?_
  intro st i hi h
  subst h
  dsimp only
  rw [if_pos (hs i (List.mem_range.1 hi))]

theorem hidden_subset_singletons (l : List Nat) (size : Nat)
    (hs : ∀ j, j < size → ∃ k, l.getD j 0 = 2 ^ k) :
    hidden_subset l size = (false, l) := by
  unfold hidden_subset
  dsimp only
  refine foldl_invariant (fun st : Bool × List Nat => st = (false, l)) _ _ _ rfl ?_
  intro st i _ h
  subst h
  split
  · rfl
  · split
    · rfl
    · refine foldl_invariant (fun st : Bool × List Nat => st = (false, l)) _ _ _ rfl ?_
      intro st j hj h
      subst h
      dsimp only
      obtain ⟨k, hk⟩ := hs j (List.mem_range.1 hj)
      rw [hk, two_pow_land]
      split <;> simp

theorem subgrid_heuristics_singletons (l : List Nat) (size level : Nat)
    (hs : ∀ j, j < size → ∃ k, l.getD j 0 = 2 ^ k) :
    subgrid_heuristics l size level = (false, l) := by
  have hs' : ∀ j, j < size → colors_is_singleton (l.getD j 0) = true := by
    intro j hj
    obtain ⟨k, hk⟩ := hs j hj
    rw [hk]
    exact colors_is_singleton_two_pow k
  unfold subgrid_heuristics
  split
  · simp [naked_subset_singletons l size hs', hidden_subset_singletons l size hs]
  · simp [cross_hatching_singletons l size hs', lone_number_singletons l size hs']

theorem set_getD_self {α : Type} (l : List α) (j : Nat) (d : α) : l.set j (l.getD j d) = l := by
  induction l generalizing j with
  | nil => rfl
  | cons x xs ih =>
    cases j with
    | zero => rfl
    | succ j =>
      rw [List.set_cons_succ, List.getD_cons_succ, ih]

theorem grid_put_self (grid : grid_t) (i j : Nat) : grid_put grid i j (grid_cell grid i j) = grid := by
  unfold grid_put grid_cell
  rw [set_getD_self, set_getD_self]

theorem unit_store_cells (grid : grid_t) (unit : List (Nat × Nat)) :
    unit_store grid unit (unit_cells grid unit) = grid := by
  unfold unit_store unit_cells
  induction unit with
  | nil => rfl
  | cons p u ih =>
    rw [List.map_cons, List.zip_cons_cons, List.foldl_cons]
    dsimp only
    rw [grid_put_self]
    exact ih

theorem row_unit_mem {size index : Nat} (h : index < size) : row_unit size index ∈ grid_units size := by
  unfold grid_units
  rw [List.mem_flatMap]
  exact ⟨index, List.mem_range.2 h, by simp⟩

theorem column_unit_mem {size index : Nat} (h : index < size) :
    column_unit size index ∈ grid_units size := by
  unfold grid_units
  rw [List.mem_flatMap]
  exact ⟨index, List.mem_range.2 h, by simp⟩

theorem block_unit_mem {size index : Nat} (h : index < size) :
    block_unit size index ∈ grid_units size := by
  unfold grid_units
  rw [List.mem_flatMap]
  exact ⟨index, List.mem_range.2 h, by simp⟩

theorem getD_map_range (f : Nat → Nat) {n j : Nat} (h : j < n) :
    ((List.range n).map f).getD j 0 = f j := by
  rw [List.getD_eq_getElem?_getD, List.getElem?_map, List.getElem?_range h]
  rfl

theorem unit_complete_getD {cells : List Nat} {size : Nat} (hsize : size ≤ 64)
    (h : unit_complete cells size) (j : Nat) (hj : j < size) : ∃ k, cells.getD j 0 = 2 ^ k := by
  obtain ⟨ks, hperm, rfl⟩ := h
  have hlen : ks.length = size := by rw [hperm.length_eq, List.length_range]
  have hj' : j < ks.length := by omega
  refine ⟨ks[j], ?_⟩
  have hmem : ks[j] ∈ List.range size := hperm.mem_iff.1 (List.getElem_mem hj')
  rw [List.getD_eq_getElem?_getD, List.getElem?_map, List.getElem?_eq_getElem hj']
  simp only [Option.map_some', Option.getD_some]
  exact colors_set_eq_two_pow (by have := List.mem_range.1 hmem; omega)

theorem unit_heuristics_complete {grid : grid_t} (hsize : grid.size ≤ 64) (hc : grid_complete grid)
    (level : Nat) {unit : List (Nat × Nat)} (hu : unit ∈ grid_units grid.size) :
    unit_heuristics level (false, grid) unit = (false, grid) := by
  unfold unit_heuristics
  dsimp only
  rw [subgrid_heuristics_singletons _ _ _ (unit_complete_getD hsize (hc unit hu))]
  dsimp only
  rw [unit_store_cells]
  rfl

theorem heuristics_pass_complete {grid : grid_t} (hsize : grid.size ≤ 64) (hc : grid_complete grid)
    (level : Nat) : heuristics_pass grid level = (false, grid) := by
  unfold heuristics_pass
  refine foldl_invariant (fun st : Bool × grid_t => st = (false, grid)) _ _ _ rfl ?_
  intro st index hi h
  subst h
  have hlt := List.mem_range.1 hi
  dsimp only
  rw [unit_heuristics_complete hsize hc level (row_unit_mem hlt),
    unit_heuristics_complete hsize hc level (column_unit_mem hlt),
    unit_heuristics_complete hsize hc level (block_unit_mem hlt)]

theorem grid_is_solved_complete {grid : grid_t} (hsize : grid.size ≤ 64) (hc : grid_complete grid) :
    grid_is_solved grid = true := by
  unfold grid_is_solved
  rw [List.all_eq_true]
  intro i hi
  rw [List.all_eq_true]
  intro j hj
  have hi' := List.mem_range.1 hi
  have hj' := List.mem_range.1 hj
  obtain ⟨k, hk⟩ := unit_complete_getD hsize (hc _ (row_unit_mem hi')) j hj'
  have hcell : (unit_cells grid (row_unit grid.size i)).getD j 0 = grid_cell grid i j := by
    unfold unit_cells row_unit
    rw [List.map_map]
    exact getD_map_range (fun j => grid_cell grid i j) hj'
  rw [← hcell, hk]
  exact colors_is_singleton_two_pow k

theorem grid_is_consistent_complete {grid : grid_t} (hsize : grid.size ≤ 64)
    (hc : grid_complete grid) : grid_is_consistent grid = true := by
  unfold grid_is_consistent
  split
  · rfl
  · rw [List.all_eq_true]
    intro index hi
    have hlt := List.mem_range.1 hi
    rw [subgrid_consistency_complete hsize (hc _ (row_unit_mem hlt)),
      subgrid_consistency_complete hsize (hc _ (column_unit_mem hlt)),
      subgrid_consistency_complete hsize (hc _ (block_unit_mem hlt))]
    rfl

theorem grid_heuristics_complete {grid : grid_t} (hsize : grid.size ≤ 64) (hc : grid_complete grid)
    (fuel : Nat) : grid_heuristics (fuel + 2) grid = some (SOLVED, grid) := by
  unfold grid_heuristics
  split
  · rfl
  · have e1 : heuristics_loop (fuel + 2) 0 grid = heuristics_loop (fuel + 1) 1 grid := by
      rw [heuristics_loop]
      simp [heuristics_pass_complete hsize hc]
    have e2 : heuristics_loop (fuel + 1) 1 grid = heuristics_loop fuel 2 grid := by
      rw [heuristics_loop]
      simp [heuristics_pass_complete hsize hc]
    have e3 : heuristics_loop fuel 2 grid = some grid := by
      rw [heuristics_loop.eq_def]
      simp
    have hloop : heuristics_loop (fuel + 2) 0 grid = some grid := by rw [e1, e2, e3]
    simp [grid_is_consistent_complete hsize hc, hloop, grid_is_solved_complete hsize hc]

/-- C7: for a grid of supported size that is a complete valid solution,
`grid_solver` in first mode with the counter reset to 0 returns the grid
itself and leaves the counter at 1, under either choice rule and for every
fuel of at least 2. -/
theorem grid_solver_complete (rand : Nat → Nat) (random : Bool) (fuel : Nat) (grid : grid_t)
    (calls : Nat) (hsize : grid_check_size grid.size = true) (hc : grid_complete grid) :
    grid_solver rand mode_first random (fuel + 2) grid ⟨0, calls⟩ =
      some (some grid, ⟨1, calls⟩) := by
  rw [grid_solver, grid_heuristics_complete (grid_check_size_le hsize) hc]
  simp [SOLVED, NOT_CONSISTENT]

theorem grid_complete_of_check {grid : grid_t} (h : grid_complete_check grid = true) :
    grid_complete grid := by
  intro unit hu
  unfold grid_complete_check at h
  rw [List.all_eq_true] at h
  have hc := h unit hu
  unfold unit_complete_check at hc
  rw [Bool.and_eq_true, decide_eq_true_eq, beq_iff_eq] at hc
  exact ⟨_, hc.1, hc.2⟩

theorem solved_grid_complete : grid_complete solved_grid :=
  grid_complete_of_check (by decide!)

/-- Witness for C7 on `solved_grid`. -/
theorem grid_solver_complete_witness :
    grid_check_size solved_grid.size = true ∧ grid_complete solved_grid ∧
    grid_solver (fun _ => 0) mode_first false 2 solved_grid ⟨0, 0⟩ =
      some (some solved_grid, ⟨1, 0⟩) :=
  ⟨by decide, solved_grid_complete,
    grid_solver_complete (fun _ => 0) false 0 solved_grid 0 (by decide) solved_grid_complete⟩

theorem grid_put_shape {n : Nat} {grid : grid_t} (h : grid_shape n grid) (i j v : Nat) :
    grid_shape n (grid_put grid i j v) := by
  obtain ⟨h1, h2, h3⟩ := h
  refine ⟨h1, ?_, ?_⟩
  · simp only [grid_put, List.length_set]
    exact h2
  · intro row hrow
    simp only [grid_put] at hrow
    rcases List.mem_or_eq_of_mem_set hrow with hm | rfl
    · exact h3 row hm
    · by_cases hi : i < grid.cells.length
      · rw [List.length_set, List.getD_eq_getElem?_getD, List.getElem?_eq_getElem hi]
        exact h3 _ (List.getElem_mem hi)
      · rw [List.set_eq_of_length_le (Nat.le_of_not_lt hi)] at hrow
        exact h3 _ hrow

theorem grid_cell_put {n : Nat} {grid : grid_t} (h : grid_shape n grid) {i j : Nat} (v : Nat)
    (hi : i < n) (hj : j < n) (i' j' : Nat) :
    grid_cell (grid_put grid i j v) i' j' =
      if i' = i ∧ j' = j then v else grid_cell grid i' j' := by
  obtain ⟨_, h2, h3⟩ := h
  have hil : i < grid.cells.length := by omega
  have hrow : (grid.cells.getD i []).length = n := by
    rw [List.getD_eq_getElem?_getD, List.getElem?_eq_getElem hil]
    exact h3 _ (List.getElem_mem hil)
  unfold grid_cell grid_put
  simp only [List.getD_eq_getElem?_getD, List.getElem?_set]
  by_cases e1 : i = i'
  · subst e1
    simp only [hil, if_true, Option.getD_some, true_and]
    rw [List.getElem?_set]
    by_cases e2 : j = j'
    · subst e2
      have hjl : j < (grid.cells[i]?.getD []).length := by
        rw [← List.getD_eq_getElem?_getD, hrow]
        exact hj
      simp [hjl]
    · have e2' : ¬ j' = j := fun e => e2 e.symm
      simp [e2, e2']
  · have e1' : ¬ i' = i := fun e => e1 e.symm
    simp [e1, e1']

theorem unit_store_shape {n : Nat} (unit : List (Nat × Nat)) (subgrid : List Nat) {grid : grid_t}
    (h : grid_shape n grid) : grid_shape n (unit_store grid unit subgrid) := by
  unfold unit_store
  refine foldl_invariant (grid_shape n) _ _ _ h ?_
  intro g pv _ hg
  exact grid_put_shape hg _ _ _

theorem unit_heuristics_shape {n : Nat} (level : Nat) (st : Bool × grid_t)
    (unit : List (Nat × Nat)) (h : grid_shape n st.2) :
    grid_shape n (unit_heuristics level st unit).2 := by
  unfold unit_heuristics
  exact unit_store_shape _ _ h

theorem heuristics_pass_shape {n : Nat} {grid : grid_t} (level : Nat) (h : grid_shape n grid) :
    grid_shape n (heuristics_pass grid level).2 := by
  unfold heuristics_pass
  refine foldl_invariant (fun st : Bool × grid_t => grid_shape n st.2) _ _ _ h ?_
  intro st index _ hst
  exact unit_heuristics_shape _ _ _ (unit_heuristics_shape _ _ _ (unit_heuristics_shape _ _ _ hst))

theorem heuristics_loop_zero (level : Nat) (grid : grid_t) :
    heuristics_loop 0 level grid = if level < 2 then none else some grid := by
  rw [heuristics_loop]

theorem heuristics_loop_succ (fuel level : Nat) (grid : grid_t) :
    heuristics_loop (fuel + 1) level grid =
      if level < 2 then
        if (heuristics_pass grid level).1 then
          if level == 1 then heuristics_loop fuel (level - 1) (heuristics_pass grid level).2
          else heuristics_loop fuel level (heuristics_pass grid level).2
        else heuristics_loop fuel (level + 1) (heuristics_pass grid level).2
      else some grid := by
  rw [heuristics_loop]

theorem heuristics_loop_shape {n : Nat} (fuel level : Nat) {grid result : grid_t}
    (h : grid_shape n grid) (hr : heuristics_loop fuel level grid = some result) :
    grid_shape n result := by
  induction fuel generalizing level grid with
  | zero =>
    rw [heuristics_loop_zero] at hr
    split at hr
    · simp at hr
    · simp only [Option.some.injEq] at hr
      exact hr ▸ h
  | succ fuel ih =>
    rw [heuristics_loop_succ] at hr
    split at hr
    · split at hr
      · split at hr
        · exact ih _ (heuristics_pass_shape level h) hr
        · exact ih _ (heuristics_pass_shape level h) hr
      · exact ih _ (heuristics_pass_shape level h) hr
    · simp only [Option.some.injEq] at hr
      exact hr ▸ h

theorem grid_heuristics_shape {n : Nat} (fuel : Nat) {grid result : grid_t} {c : Nat}
    (h : grid_shape n grid) (hr : grid_heuristics fuel grid = some (c, result)) :
    grid_shape n result := by
  unfold grid_heuristics at hr
  split at hr
  · simp only [Option.some.injEq, Prod.mk.injEq] at hr
    exact hr.2 ▸ h
  · split at hr
    · simp only [Option.some.injEq, Prod.mk.injEq] at hr
      exact hr.2 ▸ h
    · split at hr
      · simp at hr
      · rename_i g hg
        have hs := heuristics_loop_shape fuel 0 h hg
        split at hr
        · simp only [Option.some.injEq, Prod.mk.injEq] at hr
          exact hr.2 ▸ hs
        · split at hr <;>
          · simp only [Option.some.injEq, Prod.mk.injEq] at hr
            exact hr.2 ▸ hs

/-- When `grid_heuristics` returns `SOLVED` on a grid of size other than 1,
every cell of the grid it leaves is a singleton. -/
theorem grid_heuristics_solved {fuel : Nat} {grid result : grid_t} (hsize : grid.size ≠ 1)
    (hr : grid_heuristics fuel grid = some (SOLVED, result)) : grid_is_solved result = true := by
  unfold grid_heuristics at hr
  split at hr
  · rename_i h1
    exact absurd (beq_iff_eq.1 h1) hsize
  · split at hr
    · simp [SOLVED, NOT_CONSISTENT] at hr
    · split at hr
      · simp at hr
      · split at hr
        · rename_i hs
          simp only [Option.some.injEq, Prod.mk.injEq, true_and] at hr
          exact hr ▸ hs
        · split at hr <;> simp [SOLVED, NOT_CONSISTENT, CONSISTENT_NOT_SOLVED] at hr

theorem solver_loop_zero (rand : Nat → Nat) (mode : mode_t) (random : Bool)
    (solve : grid_t → world → Option (Option grid_t × world))
    (grid : grid_t) (choice : choice_t) (last : Option grid_t) (w : world) :
    solver_loop rand mode random solve 0 grid choice last w =
      if grid_choice_is_empty choice then some (if mode = mode_all then last else none, w)
      else none := by
  rw [solver_loop]

theorem solver_loop_succ (rand : Nat → Nat) (mode : mode_t) (random : Bool)
    (solve : grid_t → world → Option (Option grid_t × world)) (fuel : Nat)
    (grid : grid_t) (choice : choice_t) (last : Option grid_t) (w : world) :
    solver_loop rand mode random solve (fuel + 1) grid choice last w =
      if grid_choice_is_empty choice then some (if mode = mode_all then last else none, w)
      else
        match solve (grid_choice_apply (grid_copy grid) choice) w with
        | none => none
        | some (some result, w) =>
          if mode = mode_first then some (some result, w)
          else
            if !grid_is_consistent (grid_choice_discard grid choice) then some (some result, w)
            else
              solver_loop rand mode random solve fuel (grid_choice_discard grid choice)
                (grid_choice rand (grid_choice_discard grid choice) random w).1 (some result)
                (grid_choice rand (grid_choice_discard grid choice) random w).2
        | some (none, w) =>
          if !grid_is_consistent (grid_choice_discard grid choice) then
            some (if mode = mode_first then none else last, w)
          else
            solver_loop rand mode random solve fuel (grid_choice_discard grid choice)
              (grid_choice rand (grid_choice_discard grid choice) random w).1 last
              (grid_choice rand (grid_choice_discard grid choice) random w).2 := by
  rw [solver_loop]
  try rfl

theorem solver_result_ok_none (n : Nat) : solver_result_ok n none := by
  intro g hg
  simp at hg

theorem solver_result_ok_ite (n : Nat) (c : Prop) [Decidable c] {a b : Option grid_t}
    (ha : solver_result_ok n a) (hb : solver_result_ok n b) :
    solver_result_ok n (if c then a else b) := by
  split
  · exact ha
  · exact hb

theorem solver_loop_ok (rand : Nat → Nat) (mode : mode_t) (random : Bool)
    (solve : grid_t → world → Option (Option grid_t × world)) (n : Nat)
    (hsolve : ∀ g w r w', grid_shape n g → solve g w = some (r, w') → solver_result_ok n r)
    (fuel : Nat) (grid : grid_t) (choice : choice_t) (last : Option grid_t) (w : world)
    (r : Option grid_t) (w' : world) (hg : grid_shape n grid) (hl : solver_result_ok n last)
    (hr : solver_loop rand mode random solve fuel grid choice last w = some (r, w')) :
    solver_result_ok n r := by
  induction fuel generalizing grid choice last w with
  | zero =>
    rw [solver_loop_zero] at hr
    split at hr
    · simp only [Option.some.injEq, Prod.mk.injEq] at hr
      rw [← hr.1]
      exact solver_result_ok_ite n _ hl (solver_result_ok_none n)
    · simp at hr
  | succ fuel ih =>
    rw [solver_loop_succ] at hr
    have hd : grid_shape n (grid_choice_discard grid choice) := grid_put_shape hg _ _ _
    have ha : grid_shape n (grid_choice_apply (grid_copy grid) choice) :=
      @grid_put_shape n (grid_copy grid) hg _ _ _
    split at hr
    · simp only [Option.some.injEq, Prod.mk.injEq] at hr
      rw [← hr.1]
      exact solver_result_ok_ite n _ hl (solver_result_ok_none n)
    · split at hr
      · simp at hr
      · rename_i result w1 hs
        have hres := hsolve _ _ _ _ ha hs
        split at hr
        · simp only [Option.some.injEq, Prod.mk.injEq] at hr
          rw [← hr.1]
          exact hres
        · split at hr
          · simp only [Option.some.injEq, Prod.mk.injEq] at hr
            rw [← hr.1]
            exact hres
          · exact ih _ _ _ _ hd hres hr
      · rename_i w1 hs
        split at hr
        · simp only [Option.some.injEq, Prod.mk.injEq] at hr
          rw [← hr.1]
          exact solver_result_ok_ite n _ (solver_result_ok_none n) hl
        · exact ih _ _ _ _ hd hl hr

theorem grid_solver_zero (rand : Nat → Nat) (mode : mode_t) (random : Bool)
    (grid : grid_t) (w : world) : grid_solver rand mode random 0 grid w = none := by
  rw [grid_solver]

theorem grid_solver_succ (rand : Nat → Nat) (mode : mode_t) (random : Bool) (fuel : Nat)
    (grid : grid_t) (w : world) :
    grid_solver rand mode random (fuel + 1) grid w =
      match grid_heuristics (fuel + 1) grid with
      | none => none
      | some (c, grid) =>
        if c == NOT_CONSISTENT then some (none, w)
        else if c == SOLVED then
          some (some grid, { w with solutions := (w.solutions + 1) % 2 ^ 64 })
        else
          solver_loop rand mode random (grid_solver rand mode random fuel)
            (fuel + 1) grid (grid_choice rand grid random w).1 none
            (grid_choice rand grid random w).2 := by
  rw [grid_solver]
  try rfl

theorem grid_solver_ok (rand : Nat → Nat) (mode : mode_t) (random : Bool) (n : Nat)
    (hn : n ≠ 1) (fuel : Nat) (grid : grid_t) (w : world) (r : Option grid_t) (w' : world)
    (hg : grid_shape n grid) (hr : grid_solver rand mode random fuel grid w = some (r, w')) :
    solver_result_ok n r := by
  induction fuel generalizing grid w r w' with
  | zero =>
    rw [grid_solver_zero] at hr
    simp at hr
  | succ fuel ih =>
    rw [grid_solver_succ] at hr
    split at hr
    · simp at hr
    · rename_i c g' hh
      have hs := grid_heuristics_shape _ hg hh
      split at hr
      · simp only [Option.some.injEq, Prod.mk.injEq] at hr
        rw [← hr.1]
        exact solver_result_ok_none n
      · split at hr
        · rename_i hc
          simp only [Option.some.injEq, Prod.mk.injEq] at hr
          rw [← hr.1]
          intro g hgeq
          simp only [Option.some.injEq] at hgeq
          subst hgeq
          rw [beq_iff_eq] at hc
          subst hc
          exact ⟨hs, grid_heuristics_solved (by rw [hg.1]; exact hn) hh⟩
        · exact solver_loop_ok rand mode random _ n
            (fun g w r w' hgs hsol => ih g w r w' hgs hsol) _ _ _ _ _ _ _ hs
            (solver_result_ok_none n) hr

theorem swap_perm (l : List Nat) {i j : Nat} (hi : i < l.length) (hj : j < l.length)
    (hne : j ≠ i) : ((l.set i (l.getD j 0)).set j (l.getD i 0)).Perm l := by
  rw [List.perm_iff_count]
  intro b
  have hj' : j < (l.set i (l.getD j 0)).length := by rw [List.length_set]; exact hj
  rw [List.count_set _ _ _ _ hj', List.count_set _ _ _ _ hi]
  have e1 : (l.set i (l.getD j 0))[j] = l[j] := by
    rw [List.getElem_set_ne (fun e => hne e.symm)]
  have e2 : l.getD j 0 = l[j] := by
    rw [List.getD_eq_getElem?_getD, List.getElem?_eq_getElem hj]; rfl
  have e3 : l.getD i 0 = l[i] := by
    rw [List.getD_eq_getElem?_getD, List.getElem?_eq_getElem hi]; rfl
  rw [e1, e2, e3]
  have hle : (if l[i] == b then 1 else 0) ≤ l.count b := by
    have := List.boole_getElem_le_countP (fun x => x == b) l i hi
    simpa [List.count_eq_countP] using this
  generalize (if (l[i] == b) = true then 1 else 0) = x at hle ⊢
  generalize (if (l[j] == b) = true then 1 else 0) = y
  omega

theorem shuffle_loop_perm (rand : Nat → Nat) (n : Nat) (a : List Nat) (w : world)
    (hn : n ≤ a.length) : (shuffle_loop rand n a w).1.Perm a := by
  unfold shuffle_loop
  refine foldl_invariant (fun st : List Nat × world => st.1.Perm a) _ _ _ (List.Perm.refl a) ?_
  intro st i hi hst
  rw [List.mem_reverse, List.mem_range'_1] at hi
  have hlen : st.1.length = a.length := hst.length_eq
  have hpos : 0 < i := by omega
  have hj : rand st.2.rand_calls % i < i := Nat.mod_lt _ hpos
  exact (swap_perm st.1 (by omega) (by omega) (by omega)).trans hst

theorem grid_set_cell_empty {n : Nat} {grid : grid_t} (h : grid_shape n grid) {p : Nat}
    (hp : p < n * n) :
    grid_set_cell grid (p / n) (p % n) EMPTY_CELL = grid_put grid (p / n) (p % n) (colors_full n) := by
  have hn : 0 < n := Nat.pos_of_ne_zero (fun e => by subst e; simp at hp)
  have h1 : p / n < n := Nat.div_lt_of_lt_mul hp
  have h2 : p % n < n := Nat.mod_lt _ hn
  unfold grid_set_cell
  rw [h.1]
  have hc : (decide (p / n ≥ n) || decide (p % n ≥ n)) = false := by
    simp only [ge_iff_le, Bool.or_eq_false_iff, decide_eq_false_iff_not, not_le]
    exact ⟨h1, h2⟩
  simp [hc]

theorem div_mod_inj {n p q : Nat} (h1 : q / n = p / n) (h2 : q % n = p % n) : q = p := by
  rw [← Nat.div_add_mod q n, ← Nat.div_add_mod p n, h1, h2]

theorem blank_fold_cell {n : Nat} (B : List Nat) (grid : grid_t) (hg : grid_shape n grid)
    (hB : ∀ p ∈ B, p < n * n) (q : Nat) :
    grid_shape n (B.foldl (fun g p => grid_set_cell g (p / n) (p % n) EMPTY_CELL) grid) ∧
    grid_cell (B.foldl (fun g p => grid_set_cell g (p / n) (p % n) EMPTY_CELL) grid) (q / n) (q % n) =
      if q ∈ B then colors_full n else grid_cell grid (q / n) (q % n) := by
  induction B generalizing grid with
  | nil => exact ⟨hg, by simp⟩
  | cons p B ih =>
    have hp : p < n * n := hB p (List.mem_cons_self p B)
    have hn : 0 < n := Nat.pos_of_ne_zero (fun e => by subst e; simp at hp)
    rw [List.foldl_cons, grid_set_cell_empty hg hp]
    obtain ⟨hs, hc⟩ := ih (grid_put grid (p / n) (p % n) (colors_full n))
      (grid_put_shape hg _ _ _) (fun p' hp' => hB p' (List.mem_cons_of_mem p hp'))
    refine ⟨hs, ?_⟩
    rw [hc, grid_cell_put hg _ (Nat.div_lt_of_lt_mul hp) (Nat.mod_lt _ hn)]
    by_cases hqB : q ∈ B
    · simp [hqB]
    · by_cases hqp : q = p
      · subst hqp
        simp
      · have hne : ¬ (q / n = p / n ∧ q % n = p % n) := fun h => hqp (div_mod_inj h.1 h.2)
        simp [hqB, hqp, hne]

theorem map_range_getD_take (l : List Nat) (count : Nat) (h : count ≤ l.length) :
    (List.range count).map (fun i => l.getD i 0) = l.take count := by
  apply List.ext_getElem
  · simp [Nat.min_eq_left h]
  · intro i h1 h2
    simp only [List.length_map, List.length_range] at h1
    rw [List.getElem_map, List.getElem_range, List.getElem_take, List.getD_eq_getElem?_getD,
      List.getElem?_eq_getElem (by omega)]
    rfl

theorem length_filter_mem {total : Nat} {B : List Nat} (hnd : B.Nodup)
    (hB : ∀ p ∈ B, p < total) :
    ((List.range total).filter (fun q => decide (q ∈ B))).length = B.length := by
  apply List.Perm.length_eq
  rw [List.perm_ext_iff_of_nodup ((List.nodup_range total).filter _) hnd]
  intro a
  simp only [List.mem_filter, List.mem_range, decide_eq_true_eq]
  exact ⟨fun h => h.2, fun h => ⟨hB a h, h⟩⟩

theorem length_filter_not_mem {total : Nat} {B : List Nat} (hnd : B.Nodup)
    (hB : ∀ p ∈ B, p < total) :
    ((List.range total).filter (fun q => !decide (q ∈ B))).length = total - B.length := by
  have h : (List.range total).length =
      ((List.range total).filter (fun q => decide (q ∈ B))).length +
      ((List.range total).filter (fun q => !decide (q ∈ B))).length :=
    List.length_eq_length_filter_add _
  rw [length_filter_mem hnd hB, List.length_range] at h
  omega

theorem colors_full_not_singleton {size : Nat} (hsize : grid_check_size size = true)
    (h1 : 1 < size) : colors_is_singleton (colors_full size) = false := by
  unfold grid_check_size at hsize
  simp only [Bool.or_eq_true, beq_iff_eq] at hsize
  rcases hsize with ((((((h | h) | h) | h) | h) | h) | h) | h <;> subst h <;>
    first | omega | decide!

theorem grid_alloc_shape {size : Nat} {grid : grid_t} (h : grid_alloc size = some grid) :
    grid_shape size grid := by
  unfold grid_alloc at h
  split at h
  · simp at h
  · simp only [Option.some.injEq] at h
    subst h
    refine ⟨rfl, List.length_replicate _ _, ?_⟩
    intro row hrow
    rw [List.eq_of_mem_replicate hrow, List.length_replicate]

theorem grid_initialize_shape (rand : Nat → Nat) {n : Nat} {grid : grid_t} (w : world)
    (h : grid_shape n grid) : grid_shape n ( grid_initialize rand grid w).1 := by
  unfold grid_initialize
  dsimp only
  have hfold : grid_shape n
      ((List.range grid.size).foldl (fun g i => grid_put g 0 i (colors_set i)) grid) := by
    refine foldl_invariant (grid_shape n) _ _ _ h ?_
    intro g i _ hg
    exact grid_put_shape hg _ _ _
  generalize (List.range grid.size).foldl (fun g i => grid_put g 0 i (colors_set i)) grid = g1
    at hfold ⊢
  obtain ⟨h1, h2, h3⟩ := hfold
  refine ⟨h1, ?_, ?_⟩
  · simp only [List.length_set]
    exact h2
  · intro row hrow
    simp only at hrow
    rcases List.mem_or_eq_of_mem_set hrow with hm | rfl
    · exact h3 row hm
    · by_cases h0 : 0 < g1.cells.length
      · have hrow0 : (g1.cells.getD 0 []).length = n := by
          rw [List.getD_eq_getElem?_getD, List.getElem?_eq_getElem h0]
          exact h3 _ (List.getElem_mem h0)
        have hp := shuffle_loop_perm rand g1.size (g1.cells.getD 0 []) w (by rw [hrow0, h1])
        rw [hp.length_eq, hrow0]
      · rw [List.set_eq_of_length_le (Nat.le_of_not_lt h0)] at hrow
        exact h3 _ hrow

theorem empty_count_lt {total num den : Nat} (ht : 0 < total) (hlt : num < den) :
    empty_count total num den < total := by
  unfold empty_count
  rw [Nat.div_lt_iff_lt_mul (by omega)]
  exact Nat.mul_lt_mul_of_pos_left hlt ht

/-- A grid returned by `grid_generator` in first mode, whatever the fuel, has exactly
`t = ⌊N² · num / den⌋` cells equal to the full set and `N² - t` singleton cells; the
shuffled position array is a permutation of `0 .. N² - 1`. -/
theorem grid_generator_first_counts (rand : Nat → Nat) (num den fuel size : Nat)
    (w w' : world) (g : grid_t)
    (hsize : grid_check_size size = true) (h1 : 1 < size) (_hnum : 0 < num) (hden : num < den)
    (hgen : grid_generator rand (empty_count (size * size) num den) fuel size mode_first w =
      some (some g, w')) :
    ((List.range (size * size)).filter
      (fun p => grid_cell g (p / size) (p % size) == colors_full size)).length =
        empty_count (size * size) num den ∧
    ((List.range (size * size)).filter
      (fun p => colors_is_singleton (grid_cell g (p / size) (p % size)))).length =
        size * size - empty_count (size * size) num den ∧
    ∀ w0, (shuffle_loop rand (size * size) (List.range (size * size)) w0).1.Perm
      (List.range (size * size)) := by
  have hperm : ∀ w0, (shuffle_loop rand (size * size) (List.range (size * size)) w0).1.Perm
      (List.range (size * size)) :=
    fun w0 => shuffle_loop_perm rand _ _ w0 (by rw [List.length_range])
  refine ⟨?_, ?_, hperm⟩ <;>
  · unfold grid_generator at hgen
    split at hgen
    · simp at hgen
    · rename_i g0 halloc
      dsimp only at hgen
      split at hgen
      · simp at hgen
      · rename_i res w2 hsolve
        simp only [if_true, Option.some.injEq, Prod.mk.injEq] at hgen
        obtain ⟨hg, _⟩ := hgen
        cases res with
        | none => simp at hg
        | some gs =>
          simp only [Option.map_some', Option.some.injEq] at hg
          have hok := grid_solver_ok rand mode_first true size (by omega) fuel _ _ _ _
            (grid_initialize_shape rand w (grid_alloc_shape halloc)) hsolve gs rfl
          obtain ⟨hshape, hsolved⟩ := hok
          have htotal : 0 < size * size := Nat.mul_pos (by omega) (by omega)
          have hcount := @empty_count_lt (size * size) num den htotal hden
          have hp := hperm w2
          generalize (shuffle_loop rand (size * size) (List.range (size * size)) w2).1 = pos
            at hp hg
          have hlen : pos.length = size * size := by rw [hp.length_eq, List.length_range]
          have hnd : (pos.take (empty_count (size * size) num den)).Nodup :=
            (hp.nodup_iff.2 (List.nodup_range _)).sublist (List.take_sublist _ _)
          have hB : ∀ p ∈ pos.take (empty_count (size * size) num den), p < size * size :=
            fun p hp' => List.mem_range.1 (hp.mem_iff.1 (List.mem_of_mem_take hp'))
          have hfold : g = (pos.take (empty_count (size * size) num den)).foldl
              (fun g p => grid_set_cell g (p / size) (p % size) EMPTY_CELL) gs := by
            rw [← hg, ← map_range_getD_take pos _ (by omega), List.foldl_map]
          have hcell := fun q => (blank_fold_cell _ gs hshape hB q).2
          rw [← hfold] at hcell
          have hsing : ∀ q, q < size * size →
              colors_is_singleton (grid_cell gs (q / size) (q % size)) = true := by
            intro q hq
            unfold grid_is_solved at hsolved
            rw [List.all_eq_true] at hsolved
            have := hsolved (q / size) (List.mem_range.2 (by rw [hshape.1]; exact Nat.div_lt_of_lt_mul hq))
            rw [List.all_eq_true] at this
            exact this (q % size) (List.mem_range.2 (by rw [hshape.1]; exact Nat.mod_lt _ (by omega)))
          have hfns := colors_full_not_singleton hsize h1
          have htake : (pos.take (empty_count (size * size) num den)).length =
              empty_count (size * size) num den :=
            List.length_take_of_le (by omega)
          first
          | (refine Eq.trans ?_ ((length_filter_mem hnd hB).trans htake)
             congr 1
             apply List.filter_congr
             intro q hq
             rw [hcell q]
             by_cases hqB : q ∈ List.take (empty_count (size * size) num den) pos
             · simp [hqB]
             · have hs := hsing q (List.mem_range.1 hq)
               have hne : grid_cell gs (q / size) (q % size) ≠ colors_full size := by
                 intro e
                 rw [e, hfns] at hs
                 exact Bool.noConfusion hs
               simp [hqB, hne])
          | (have h2 := length_filter_not_mem hnd hB
             rw [htake] at h2
             refine Eq.trans ?_ h2
             congr 1
             apply List.filter_congr
             intro q hq
             rw [hcell q]
             by_cases hqB : q ∈ List.take (empty_count (size * size) num den) pos
             · simp [hqB, hfns]
             · simp [hqB, hsing q (List.mem_range.1 hq)])

theorem grid_generator_first_run :
    grid_generator (fun _ => 0) (empty_count (4 * 4) 1 2) 8 4 mode_first ⟨0, 0⟩ =
      some (some generated_grid, ⟨1, 21⟩) := by
  decide!

theorem testBit_colors_negate (b i : Nat) (hb : b < 2 ^ 64) :
    (colors_negate b).testBit i = (decide (i < 64) && !b.testBit i) := by
  unfold colors_negate UINT64_MAX
  rw [Nat.mod_eq_of_lt hb]
  have h := @Nat.testBit_two_pow_sub_succ b 64 hb i
  have e : 2 ^ 64 - 1 - b = 2 ^ 64 - (b + 1) := by omega
  rw [e]
  exact h

/-- C13: for 64-bit color sets `A` and `B`, the machine subtraction
`A - (A & B)` modulo `2 ^ 64` never wraps, it is the value of
`colors_subtract`, and that value is the set difference `A & ~B`. -/
theorem colors_subtract_is_difference (a b : Nat) (ha : a < 2 ^ 64) (hb : b < 2 ^ 64) :
    (a + 2 ^ 64 - (a &&& b)) % 2 ^ 64 = colors_subtract a b ∧
    colors_subtract a b = a &&& colors_negate b := by
  constructor
  · unfold colors_subtract
    have hle : a &&& b ≤ a := Nat.and_le_left
    have e : a + 2 ^ 64 - (a &&& b) = (a - (a &&& b)) + 2 ^ 64 := by omega
    rw [e, Nat.add_mod_right, Nat.mod_eq_of_lt (by omega)]
  · apply Nat.eq_of_testBit_eq
    intro i
    rw [testBit_colors_subtract, Nat.testBit_and, testBit_colors_negate b i hb]
    by_cases hi : i < 64
    · simp [hi]
    · have : a.testBit i = false :=
        Nat.testBit_lt_two_pow (Nat.lt_of_lt_of_le ha (Nat.pow_le_pow_right (by decide) (by omega)))
      simp [this]

/-- Witness for C13 at `A = 13`, `B = 6`. -/
theorem colors_subtract_is_difference_witness :
    13 < 2 ^ 64 ∧ 6 < 2 ^ 64 ∧
    (13 + 2 ^ 64 - (13 &&& 6)) % 2 ^ 64 = colors_subtract 13 6 ∧
    colors_subtract 13 6 = 13 &&& colors_negate 6 :=
  ⟨by decide, by decide, colors_subtract_is_difference 13 6 (by decide) (by decide)⟩

/-- C15: a color id of 64 or more behaves as the empty set: `colors_set` is
empty, `colors_is_in` is false, and `colors_add` and `colors_discard` return
the 64-bit set unchanged. -/
theorem colors_out_of_range (a color_id : Nat) (ha : a < 2 ^ 64) (hid : 64 ≤ color_id) :
    colors_set color_id = colors_empty ∧ colors_is_in a color_id = false ∧
    colors_add a color_id = a ∧ colors_discard a color_id = a := by
  have hs : colors_set color_id = 0 := by
    unfold colors_set MAX_COLORS
    rw [if_pos hid]
  refine ⟨hs, ?_, ?_, ?_⟩
  · unfold colors_is_in MAX_COLORS
    rw [if_pos hid]
  · unfold colors_add
    rw [hs, Nat.or_zero]
  · unfold colors_discard
    rw [hs]
    have e : colors_negate 0 = 2 ^ 64 - 1 := by decide
    rw [e, Nat.and_pow_two_sub_one_eq_mod, Nat.mod_eq_of_lt ha]

/-- Witness for C15 at the set `13` and the color id `64`. -/
theorem colors_out_of_range_witness :
    13 < 2 ^ 64 ∧ 64 ≤ 64 ∧
    colors_set 64 = colors_empty ∧ colors_is_in 13 64 = false ∧
    colors_add 13 64 = 13 ∧ colors_discard 13 64 = 13 :=
  ⟨by decide, by decide, colors_out_of_range 13 64 (by decide) (by decide)⟩

/-- C16 (code bug): for the empty cell (0,0) of `empty_cell_grid`, which is not
the full set, `grid_get_cell` returns the string "_" while the concatenation of
the characters of its colors is the empty string; a cell with colors is
rendered by its characters. -/
theorem grid_get_cell_empty_cell :
    grid_cell empty_cell_grid 0 0 = colors_empty ∧
    grid_cell empty_cell_grid 0 0 ≠ colors_full 4 ∧
    cell_characters (grid_cell empty_cell_grid 0 0) 4 = [] ∧
    grid_get_cell empty_cell_grid 0 0 = some ['_'] ∧
    grid_get_cell (grid_put empty_cell_grid 0 0 10) 0 0 = some ['2', '4'] := by
  decide!

/-- C17 (code bug): at level 1 `subgrid_heuristics` returns the result of
`naked_subset` alone when that heuristic changed the unit; on `pair_unit` the
skipped `hidden_subset` would still have changed the cell of index 6. -/
theorem subgrid_heuristics_skips_hidden_subset :
    subgrid_consistency pair_unit 9 = true ∧
    naked_subset pair_unit 9 = (true, pair_unit_naked) ∧
    hidden_subset pair_unit_naked 9 = (true, pair_unit_hidden) ∧
    subgrid_heuristics pair_unit 9 1 = (true, pair_unit_naked) ∧
    pair_unit_naked ≠ pair_unit_hidden := by
  decide!

/-- A number below `2 ^ n` and its complement within `n` bits share no bit. -/
theorem land_complement (n x : Nat) (hx : x < 2 ^ n) : x &&& (2 ^ n - 1 - x) = 0 := by
  apply Nat.eq_of_testBit_eq
  intro i
  have e : 2 ^ n - 1 - x = 2 ^ n - (x + 1) := by omega
  rw [e, Nat.testBit_and, Nat.testBit_two_pow_sub_succ hx, Nat.zero_testBit]
  cases x.testBit i <;> simp

/-- The lowest bit of a nonzero `a < 2 ^ n` is isolated by `a & (2 ^ n - a)`. -/
theorem land_neg_lowest (n a : Nat) (h0 : a ≠ 0) (ha : a < 2 ^ n) :
    ∃ k, k < n ∧ a.testBit k = true ∧ (∀ j, j < k → a.testBit j = false) ∧
      a &&& (2 ^ n - a) = 2 ^ k := by
  induction n generalizing a with
  | zero =>
    simp at ha
    exact absurd ha h0
  | succ n ih =>
    have hpow : 2 ^ (n + 1) = 2 * 2 ^ n := by rw [Nat.pow_succ, Nat.mul_comm]
    rcases Nat.mod_two_eq_zero_or_one a with hpar | hpar
    · -- even
      have ha2 : a / 2 < 2 ^ n := by omega
      have h02 : a / 2 ≠ 0 := by omega
      obtain ⟨k, hk, hbit, hlow, heq⟩ := ih (a / 2) h02 ha2
      refine ⟨k + 1, by omega, ?_, ?_, ?_⟩
      · rw [Nat.testBit_succ]
        exact hbit
      · intro j hj
        cases j with
        | zero => rw [Nat.testBit_zero]; simp [hpar]
        | succ j => rw [Nat.testBit_succ]; exact hlow j (by omega)
      · have e1 : a = 2 * (a / 2) := by omega
        have e2 : 2 ^ (n + 1) - a = 2 * (2 ^ n - a / 2) := by omega
        have hdiv : (a &&& (2 ^ (n + 1) - a)) / 2 = a / 2 &&& (2 ^ n - a / 2) := by
          rw [Nat.and_div_two]
          congr 1
          omega
        have hmod : (a &&& (2 ^ (n + 1) - a)) % 2 = 0 := by
          have h := @Nat.and_mod_two_eq_one a (2 ^ (n + 1) - a)
          rcases Nat.mod_two_eq_zero_or_one (a &&& (2 ^ (n + 1) - a)) with hc | hc
          · exact hc
          · rw [h] at hc
            omega
        rw [heq] at hdiv
        have hk2 : 2 ^ (k + 1) = 2 * 2 ^ k := by rw [Nat.pow_succ, Nat.mul_comm]
        rw [hk2]
        generalize a &&& (2 ^ (n + 1) - a) = X at hdiv hmod ⊢
        omega
    · -- odd
      refine ⟨0, by omega, ?_, ?_, ?_⟩
      · rw [Nat.testBit_zero]; simp [hpar]
      · intro j hj
        omega
      · have ha2 : a / 2 < 2 ^ n := by omega
        have hdiv : (a &&& (2 ^ (n + 1) - a)) / 2 = 0 := by
          rw [Nat.and_div_two]
          have e : (2 ^ (n + 1) - a) / 2 = 2 ^ n - 1 - a / 2 := by omega
          rw [e]
          exact land_complement n (a / 2) ha2
        have hmod : (a &&& (2 ^ (n + 1) - a)) % 2 = 1 := by
          rw [Nat.and_mod_two_eq_one]
          omega
        simp only [Nat.pow_zero]
        generalize a &&& (2 ^ (n + 1) - a) = X at hdiv hmod ⊢
        omega

/-- The loop of `colors_leftmost` adds the bit length of `x` to `count`. -/
theorem colors_leftmost_loop_spec (fuel x count : Nat) (hx : x < 2 ^ fuel) :
    ∃ d, colors_leftmost_loop fuel x count = count + d ∧ x < 2 ^ d ∧
      (d = 0 ∨ 2 ^ (d - 1) ≤ x) := by
  induction fuel generalizing x count with
  | zero =>
    refine ⟨0, ?_, hx, Or.inl rfl⟩
    rw [colors_leftmost_loop]
    rfl
  | succ fuel ih =>
    rw [colors_leftmost_loop]
    by_cases h0 : x = 0
    · subst h0
      exact ⟨0, by simp, by simp, Or.inl rfl⟩
    · have hne : (x != 0) = true := by simp [h0]
      rw [if_pos hne]
      have hx2 : x >>> 1 < 2 ^ fuel := by
        rw [Nat.shiftRight_eq_div_pow, Nat.pow_one]
        rw [Nat.pow_succ] at hx
        omega
      obtain ⟨d, hd, hlt, hge⟩ := ih (x >>> 1) (count + 1) hx2
      rw [Nat.shiftRight_eq_div_pow, Nat.pow_one] at hd hlt hge
      refine ⟨d + 1, by rw [Nat.shiftRight_eq_div_pow, Nat.pow_one, hd]; omega, ?_, Or.inr ?_⟩
      · rw [Nat.pow_succ]
        omega
      · rw [Nat.add_sub_cancel]
        rcases hge with hd0 | hge
        · subst hd0
          simp only [Nat.pow_zero]
          omega
        · have : 2 ^ d = 2 ^ (d - 1) * 2 := by
            rw [← Nat.pow_succ]
            congr 1
            rcases Nat.eq_zero_or_pos d with h | h
            · subst h
              simp at hlt
              simp at hge
              omega
            · omega
          omega

/-- For a 64-bit set, `colors_is_in` reads the bit of the color. -/
theorem colors_is_in_eq_testBit (a k : Nat) (ha : a < 2 ^ 64) :
    colors_is_in a k = a.testBit k := by
  unfold colors_is_in MAX_COLORS
  split
  · rename_i h
    exact (Nat.testBit_lt_two_pow
      (Nat.lt_of_lt_of_le ha (Nat.pow_le_pow_right (by decide) h))).symm
  · rw [Nat.testBit_to_div_mod, Nat.shiftRight_eq_div_pow]
    by_cases h : a / 2 ^ k % 2 = 1 <;> simp [h]

theorem two_pow_subset_of_testBit {a k : Nat} (h : a.testBit k = true) :
    colors_is_subset (2 ^ k) a = true := by
  rw [colors_is_subset_iff, two_pow_land, h]
  rfl

/-- The shift loop of `colors_leftmost` finds the highest bit of a non-empty
64-bit word. -/
theorem colors_leftmost_two_pow (a : Nat) (h0 : a ≠ 0) (ha : a < 2 ^ 64) :
    ∃ k, k < 64 ∧ a.testBit k = true ∧ (∀ j, k < j → a.testBit j = false) ∧
      colors_leftmost a = 2 ^ k := by
  have hx : a >>> 1 < 2 ^ 64 := by
    rw [Nat.shiftRight_eq_div_pow]
    omega
  obtain ⟨d, hd, hlt, hge⟩ := colors_leftmost_loop_spec 64 (a >>> 1) 0 hx
  rw [Nat.shiftRight_eq_div_pow, Nat.pow_one] at hd hlt hge
  rw [Nat.zero_add] at hd
  have hupper : a < 2 ^ (d + 1) := by
    rw [Nat.pow_succ]
    omega
  have hlower : 2 ^ d ≤ a := by
    rcases hge with hd0 | hge
    · subst hd0
      simp only [Nat.pow_zero]
      omega
    · have hdpos : 0 < d := by
        rcases Nat.eq_zero_or_pos d with h | h
        · subst h
          simp at hlt
          simp at hge
          omega
        · exact h
      have : 2 ^ d = 2 ^ (d - 1) * 2 := by
        rw [← Nat.pow_succ]
        congr 1
        omega
      omega
  have hd64 : d < 64 := by
    by_contra hcon
    have : 2 ^ 64 ≤ 2 ^ d := Nat.pow_le_pow_right (by decide) (by omega)
    omega
  refine ⟨d, hd64, ?_, ?_, ?_⟩
  · rw [Nat.testBit_to_div_mod]
    have hdiv : a / 2 ^ d = 1 := by
      apply Nat.div_eq_of_lt_le
      · simpa using hlower
      · rw [Nat.pow_succ] at hupper
        omega
    simp [hdiv]
  · intro j hj
    exact Nat.testBit_lt_two_pow
      (Nat.lt_of_lt_of_le hupper (Nat.pow_le_pow_right (by decide) (by omega)))
  · unfold colors_leftmost colors_empty
    have hne : (a == 0) = false := by simp [h0]
    rw [hne]
    simp only [Bool.false_eq_true, if_false]
    rw [Nat.shiftRight_eq_div_pow, Nat.pow_one, hd, colors_set_eq_two_pow hd64]

/-- C14: for a 64-bit color set `A`: if `A` is empty, `colors_rightmost` and
`colors_leftmost` return the empty set; otherwise `colors_rightmost A` is the
singleton of the lowest color of `A`, `colors_leftmost A` is the singleton of
the highest color of `A`, and both are singletons and subsets of `A`. -/
theorem colors_rightmost_leftmost (a : Nat) (ha : a < 2 ^ 64) :
    (a = 0 → colors_rightmost a = colors_empty ∧ colors_leftmost a = colors_empty) ∧
    (a ≠ 0 →
      (∃ k, k < 64 ∧ colors_is_in a k = true ∧ (∀ j, j < k → colors_is_in a j = false) ∧
        colors_rightmost a = colors_set k) ∧
      (∃ k, k < 64 ∧ colors_is_in a k = true ∧ (∀ j, k < j → colors_is_in a j = false) ∧
        colors_leftmost a = colors_set k) ∧
      colors_is_singleton (colors_rightmost a) = true ∧
      colors_is_subset (colors_rightmost a) a = true ∧
      colors_is_singleton (colors_leftmost a) = true ∧
      colors_is_subset (colors_leftmost a) a = true) := by
  constructor
  · intro h
    subst h
    exact ⟨by decide, by decide⟩
  · intro h0
    have hr : ∃ k, k < 64 ∧ a.testBit k = true ∧ (∀ j, j < k → a.testBit j = false) ∧
        colors_rightmost a = 2 ^ k := by
      obtain ⟨k, hk, hbit, hlow, heq⟩ := land_neg_lowest 64 a h0 ha
      refine ⟨k, hk, hbit, hlow, ?_⟩
      unfold colors_rightmost colors_negate UINT64_MAX
      rw [Nat.mod_eq_of_lt ha]
      have e : (2 ^ 64 - 1 - a + 1) % 2 ^ 64 = 2 ^ 64 - a := by omega
      rw [e, heq]
    have hl : ∃ k, k < 64 ∧ a.testBit k = true ∧ (∀ j, k < j → a.testBit j = false) ∧
        colors_leftmost a = 2 ^ k := colors_leftmost_two_pow a h0 ha
    obtain ⟨kr, hkr, hbr, hlr, her⟩ := hr
    obtain ⟨kl, hkl, hbl, hll, hel⟩ := hl
    refine ⟨⟨kr, hkr, ?_, ?_, ?_⟩, ⟨kl, hkl, ?_, ?_, ?_⟩, ?_, ?_, ?_, ?_⟩
    · rw [colors_is_in_eq_testBit a kr ha]; exact hbr
    · intro j hj; rw [colors_is_in_eq_testBit a j ha]; exact hlr j hj
    · rw [her, colors_set_eq_two_pow hkr]
    · rw [colors_is_in_eq_testBit a kl ha]; exact hbl
    · intro j hj; rw [colors_is_in_eq_testBit a j ha]; exact hll j hj
    · rw [hel, colors_set_eq_two_pow hkl]
    · rw [her]; exact colors_is_singleton_two_pow kr
    · rw [her]; exact two_pow_subset_of_testBit hbr
    · rw [hel]; exact colors_is_singleton_two_pow kl
    · rw [hel]; exact two_pow_subset_of_testBit hbl

/-- Witness for C14 at the set `44` (colors 2, 3 and 5). -/
theorem colors_rightmost_leftmost_witness :
    44 < 2 ^ 64 ∧ colors_rightmost 44 = colors_set 2 ∧ colors_leftmost 44 = colors_set 5 ∧
    colors_is_singleton (colors_rightmost 44) = true ∧
    colors_is_subset (colors_leftmost 44) 44 = true :=
  have h := (colors_rightmost_leftmost 44 (by decide)).2 (by decide)
  ⟨by decide, by decide, by decide, h.2.2.1, h.2.2.2.2.2⟩

theorem foldl_pointwise (g : Nat → Nat) (l : List Nat) (n : Nat) (hnl : n ≤ l.length) :
    ((List.range n).foldl (pointwise_step g) (false, l)).2.length = l.length ∧
    (∀ i, ((List.range n).foldl (pointwise_step g) (false, l)).2.getD i 0 =
      if i < n then g (l.getD i 0) else l.getD i 0) ∧
    (((List.range n).foldl (pointwise_step g) (false, l)).1 = true ↔
      ∃ i, i < n ∧ g (l.getD i 0) ≠ l.getD i 0) := by
  induction n with
  | zero =>
    refine ⟨rfl, fun i => ?_, ?_⟩
    · rw [if_neg (Nat.not_lt_zero i)]
      rfl
    · constructor
      · intro h
        exact absurd h Bool.false_ne_true
      · rintro ⟨i, hi, _⟩
        exact absurd hi (Nat.not_lt_zero i)
  | succ n ih =>
    rw [List.range_succ, List.foldl_append, List.foldl_cons, List.foldl_nil]
    have ih' := ih (by omega)
    generalize (List.range n).foldl (pointwise_step g) (false, l) = st at ih' ⊢
    obtain ⟨hlen, hget, hflag⟩ := ih'
    have hn : st.2.getD n 0 = l.getD n 0 := by
      rw [hget n, if_neg (Nat.lt_irrefl n)]
    unfold pointwise_step
    rw [hn]
    by_cases hc : g (l.getD n 0) = l.getD n 0
    · have hb : (g (l.getD n 0) != l.getD n 0) = false := bne_eq_false_iff_eq.2 hc
      rw [hb, if_neg (by decide)]
      refine ⟨hlen, ?_, ?_⟩
      · intro i
        rw [hget i]
        by_cases hin : i = n
        · subst hin
          rw [if_neg (Nat.lt_irrefl i), if_pos (Nat.lt_succ_self i), hc]
        · by_cases h1 : i < n
          · rw [if_pos h1, if_pos (by omega)]
          · rw [if_neg h1, if_neg (by omega)]
      · rw [hflag]
        constructor
        · rintro ⟨i, hi, hne⟩
          exact ⟨i, by omega, hne⟩
        · rintro ⟨i, hi, hne⟩
          have : i ≠ n := fun e => hne (e ▸ hc)
          exact ⟨i, by omega, hne⟩
    · have hb : (g (l.getD n 0) != l.getD n 0) = true := bne_iff_ne.2 hc
      rw [hb, if_pos rfl]
      refine ⟨by rw [List.length_set]; exact hlen, ?_, ?_⟩
      · intro i
        rw [getD_set, hlen, hget i]
        by_cases hin : i = n
        · subst hin
          rw [if_pos ⟨rfl, by omega⟩, if_pos (Nat.lt_succ_self i)]
        · rw [if_neg (fun h => hin h.1)]
          by_cases h1 : i < n
          · rw [if_pos h1, if_pos (by omega)]
          · rw [if_neg h1, if_neg (by omega)]
      · constructor
        · intro _
          exact ⟨n, Nat.lt_succ_self n, hc⟩
        · intro _
          rfl

theorem foldl_filter_or (l : List Nat) (a : Nat) :
    l.foldl (fun colors c => if colors_is_singleton c then colors ||| c else colors) a =
      (l.filter colors_is_singleton).foldl (fun a c => a ||| c) a := by
  induction l generalizing a with
  | nil => rfl
  | cons c l ih =>
    rw [List.foldl_cons, List.filter_cons]
    by_cases h : colors_is_singleton c = true
    · rw [if_pos h, if_pos h, List.foldl_cons]
      exact ih _
    · rw [if_neg h, if_neg h]
      exact ih _

theorem cross_hatching_eq (subgrid : List Nat) :
    cross_hatching subgrid subgrid.length =
      (List.range subgrid.length).foldl
        (pointwise_step (cross_hatching_cell (singleton_union subgrid))) (false, subgrid) := by
  unfold cross_hatching
  dsimp only
  have hS : (List.range subgrid.length).foldl
      (fun colors i =>
        if colors_is_singleton (subgrid.getD i 0) then colors ||| subgrid.getD i 0 else colors) 0 =
      singleton_union subgrid := by
    rw [foldl_range_getD (fun colors c => if colors_is_singleton c then colors ||| c else colors),
      foldl_filter_or]
    rfl
  rw [hS]
  congr 1
  funext st i
  unfold pointwise_step cross_hatching_cell
  by_cases h : colors_is_singleton (st.2.getD i 0) = true
  · simp only [h, if_true, bne_self_eq_false, Bool.false_eq_true, if_false]
  · simp only [h, Bool.false_eq_true, if_false]
    have e : (st.2.getD i 0 != colors_subtract (st.2.getD i 0) (singleton_union subgrid)) =
        (colors_subtract (st.2.getD i 0) (singleton_union subgrid) != st.2.getD i 0) := by
      generalize st.2.getD i 0 = x
      generalize colors_subtract x (singleton_union subgrid) = y
      by_cases hxy : x = y
      · subst hxy
        rfl
      · have h1 : (x != y) = true := bne_iff_ne.2 hxy
        have h2 : (y != x) = true := bne_iff_ne.2 (fun e => hxy e.symm)
        rw [h1, h2]
    rw [e]

/-- C18: on a unit of length `N`, with `S` the union of the singleton cells of
the input: after `cross_hatching` a cell that was a singleton is unchanged and
a cell `c` that was not equals `c \ S`; the function returns `true` exactly
when some cell differs from its input value. -/
theorem cross_hatching_spec (subgrid : List Nat) (size : Nat) (hlen : subgrid.length = size) :
    (∀ i, i < size →
      (cross_hatching subgrid size).2.getD i 0 =
        if colors_is_singleton (subgrid.getD i 0) then subgrid.getD i 0
        else colors_subtract (subgrid.getD i 0) (singleton_union subgrid)) ∧
    ((cross_hatching subgrid size).1 = true ↔
      ∃ i, i < size ∧ (cross_hatching subgrid size).2.getD i 0 ≠ subgrid.getD i 0) := by
  subst hlen
  rw [cross_hatching_eq]
  obtain ⟨_, hget, hflag⟩ :=
    foldl_pointwise (cross_hatching_cell (singleton_union subgrid)) subgrid subgrid.length
      (Nat.le_refl _)
  constructor
  · intro i hi
    rw [hget i, if_pos hi]
    rfl
  · rw [hflag]
    constructor
    · rintro ⟨i, hi, hne⟩
      exact ⟨i, hi, by rw [hget i, if_pos hi]; exact hne⟩
    · rintro ⟨i, hi, hne⟩
      rw [hget i, if_pos hi] at hne
      exact ⟨i, hi, hne⟩

/-- Witness for C18 on the unit `{1} {1,2} {3} {1,2,3,4}`. -/
theorem cross_hatching_spec_witness :
    [1, 3, 4, 15].length = 4 ∧ singleton_union [1, 3, 4, 15] = 5 ∧
    cross_hatching [1, 3, 4, 15] 4 = (true, [1, 2, 4, 10]) ∧
    (cross_hatching [1, 3, 4, 15] 4).2.getD 3 0 = colors_subtract 15 5 :=
  ⟨rfl, by decide, by decide!,
    ((cross_hatching_spec [1, 3, 4, 15] 4 rfl).1 3 (by decide)).trans (by decide!)⟩

theorem lone_fold_eq (subgrid : List Nat) (hpos : 0 < subgrid.length) :
    ((List.range subgrid.length).tail).foldl
      (fun (ar : Nat × Nat) i =>
        (ar.1 ||| subgrid.getD i 0, ar.2 ||| (ar.1 &&& subgrid.getD i 0)))
      (subgrid.getD 0 0, 0) = subgrid.foldl lone_step (0, 0) := by
  cases subgrid with
  | nil => simp at hpos
  | cons c rest =>
    rw [List.length_cons, List.range_succ_eq_map, List.tail_cons, List.foldl_map,
      List.foldl_cons]
    have h0 : lone_step (0, 0) c = (c, 0) := by
      unfold lone_step
      simp
    rw [h0, List.getD_cons_zero]
    simp only [List.getD_cons_succ]
    exact foldl_range_getD lone_step rest (c, 0)

theorem lone_fold_bits (l : List Nat) (u r k : Nat) :
    (l.foldl lone_step (u, r)).1.testBit k =
      (u.testBit k || decide (0 < l.countP fun c => c.testBit k)) ∧
    (l.foldl lone_step (u, r)).2.testBit k =
      (r.testBit k || (u.testBit k && decide (0 < l.countP fun c => c.testBit k)) ||
        decide (2 ≤ l.countP fun c => c.testBit k)) := by
  induction l generalizing u r with
  | nil => simp
  | cons c l ih =>
    rw [List.foldl_cons]
    have hs : lone_step (u, r) c = (u ||| c, r ||| (u &&& c)) := rfl
    rw [hs]
    obtain ⟨h1, h2⟩ := ih (u ||| c) (r ||| (u &&& c))
    rw [h1, h2, List.countP_cons]
    simp only [Nat.testBit_or, Nat.testBit_and]
    generalize List.countP (fun c => c.testBit k) l = n
    rcases n with _ | _ | n <;>
      cases hu : u.testBit k <;> cases hc : c.testBit k <;> cases hr : r.testBit k <;> simp

theorem testBit_foldl_cond (p : Nat → Prop) [DecidablePred p] (n j : Nat) :
    ((List.range n).foldl (fun a k => if p k then a ||| 2 ^ k else a) 0).testBit j =
      decide (j < n ∧ p j) := by
  induction n with
  | zero => simp
  | succ n ih =>
    rw [List.range_succ, List.foldl_append, List.foldl_cons, List.foldl_nil]
    by_cases hp : p n
    · rw [if_pos hp, Nat.testBit_or, ih, Nat.testBit_two_pow]
      by_cases hj : n = j
      · subst hj
        simp [hp]
      · have : j < n + 1 ↔ j < n := by omega
        simp [hj, this]
    · rw [if_neg hp, ih]
      by_cases hj : n = j
      · subst hj
        simp [hp]
      · have : j < n + 1 ↔ j < n := by omega
        simp [this]

theorem foldl_congr_mem {α β : Type} (f g : α → β → α) (l : List β) (a : α)
    (h : ∀ a b, b ∈ l → f a b = g a b) : l.foldl f a = l.foldl g a := by
  induction l generalizing a with
  | nil => rfl
  | cons b l ih =>
    rw [List.foldl_cons, List.foldl_cons, h a b (List.mem_cons_self b l)]
    exact ih _ (fun a c hc => h a c (List.mem_cons_of_mem b hc))

theorem testBit_lone_colors (subgrid : List Nat) (hcells : ∀ c ∈ subgrid, c < 2 ^ 64) (j : Nat) :
    (lone_colors subgrid).testBit j = decide ((subgrid.countP fun c => c.testBit j) = 1) := by
  have hcnt : ∀ k, (subgrid.filter fun c => colors_is_in c k).length =
      subgrid.countP fun c => c.testBit k := by
    intro k
    rw [List.countP_eq_length_filter]
    congr 1
    apply List.filter_congr
    intro c hc
    exact colors_is_in_eq_testBit c k (hcells c hc)
  unfold lone_colors
  rw [foldl_congr_mem _
    (fun a k => if (subgrid.countP fun c => c.testBit k) = 1 then a ||| 2 ^ k else a)]
  · rw [testBit_foldl_cond (fun k => (subgrid.countP fun c => c.testBit k) = 1)]
    by_cases hj : j < 64
    · simp [hj]
    · have hz : (subgrid.countP fun c => c.testBit j) = 0 := by
        rw [List.countP_eq_zero]
        intro c hc
        have : c.testBit j = false := Nat.testBit_lt_two_pow
          (Nat.lt_of_lt_of_le (hcells c hc) (Nat.pow_le_pow_right (by decide) (by omega)))
        simp [this]
      simp [hj, hz]
  · intro a k hk
    rw [hcnt k, colors_set_eq_two_pow (List.mem_range.1 hk)]

theorem lone_number_lone_eq (subgrid : List Nat) (hpos : 0 < subgrid.length)
    (hcells : ∀ c ∈ subgrid, c < 2 ^ 64) :
    lone_number_lone subgrid subgrid.length = lone_colors subgrid := by
  unfold lone_number_lone
  dsimp only
  rw [lone_fold_eq subgrid hpos]
  apply Nat.eq_of_testBit_eq
  intro j
  obtain ⟨h1, h2⟩ := lone_fold_bits subgrid 0 0 j
  rw [testBit_colors_subtract, h1, h2, testBit_lone_colors subgrid hcells]
  generalize (subgrid.countP fun c => c.testBit j) = n
  rcases n with _ | _ | n <;> simp

theorem lone_number_eq (subgrid : List Nat) (size : Nat) :
    lone_number subgrid size =
      if lone_number_lone subgrid size == 0 then (false, subgrid)
      else (List.range size).foldl
        (pointwise_step (lone_number_cell (lone_number_lone subgrid size))) (false, subgrid) := by
  unfold lone_number lone_number_lone
  dsimp only
  split
  · rfl
  · congr 1
    funext st i
    unfold pointwise_step lone_number_cell
    by_cases h : colors_is_singleton (st.2.getD i 0) = true
    · simp only [h, if_true, bne_self_eq_false, Bool.false_eq_true, if_false]
    · simp only [h, Bool.false_eq_true, if_false]
      split
      · rename_i hs
        have hne : (st.2.getD i 0 &&& _) ≠ st.2.getD i 0 := fun e => h (e ▸ hs)
        rw [if_pos (bne_iff_ne.2 hne)]
      · simp only [bne_self_eq_false, Bool.false_eq_true, if_false]

/-- C19: for a unit of length `size ≥ 1` with 64-bit cells, the set `U \ R` computed by the
incremental pass of `lone_number` is the set of colors contained in exactly one cell; afterwards
every non-singleton cell whose intersection with that set is a singleton equals the
intersection, every other cell is unchanged, and the returned flag is true exactly when some
cell changed. -/
theorem lone_number_spec (subgrid : List Nat) (size : Nat) (hlen : subgrid.length = size)
    (hpos : 0 < size) (hcells : ∀ c ∈ subgrid, c < 2 ^ 64) :
    lone_number_lone subgrid size = lone_colors subgrid ∧
    (lone_number subgrid size).2.length = size ∧
    (∀ i, (lone_number subgrid size).2.getD i 0 =
      if colors_is_singleton (subgrid.getD i 0) = false ∧
          colors_is_singleton (subgrid.getD i 0 &&& lone_colors subgrid) = true
      then subgrid.getD i 0 &&& lone_colors subgrid else subgrid.getD i 0) ∧
    ((lone_number subgrid size).1 = true ↔
      ∃ i, i < size ∧ (lone_number subgrid size).2.getD i 0 ≠ subgrid.getD i 0) := by
  subst hlen
  have hL := lone_number_lone_eq subgrid hpos hcells
  have hcell : ∀ c, lone_number_cell (lone_colors subgrid) c =
      if colors_is_singleton c = false ∧ colors_is_singleton (c &&& lone_colors subgrid) = true
      then c &&& lone_colors subgrid else c := by
    intro c
    unfold lone_number_cell
    cases h1 : colors_is_singleton c <;>
      cases h2 : colors_is_singleton (c &&& lone_colors subgrid) <;> simp
  refine ⟨hL, ?_⟩
  rw [lone_number_eq, hL]
  by_cases hz : (lone_colors subgrid == 0) = true
  · rw [if_pos hz]
    have hz0 : lone_colors subgrid = 0 := beq_iff_eq.1 hz
    have hs0 : colors_is_singleton 0 = false := by decide
    refine ⟨rfl, ?_, ?_⟩
    · intro i
      rw [hz0, Nat.and_zero, hs0]
      simp
    · constructor
      · intro h
        exact absurd h Bool.false_ne_true
      · rintro ⟨i, _, hi⟩
        exact absurd rfl hi
  · rw [if_neg hz]
    obtain ⟨h1, h2, h3⟩ :=
      foldl_pointwise (lone_number_cell (lone_colors subgrid)) subgrid subgrid.length le_rfl
    refine ⟨h1, ?_, ?_⟩
    · intro i
      rw [h2 i, ← hcell]
      by_cases hi : i < subgrid.length
      · rw [if_pos hi]
      · rw [if_neg hi]
        have hd : subgrid.getD i 0 = 0 := by
          rw [List.getD_eq_default]
          omega
        rw [hd]
        unfold lone_number_cell
        have hs0 : colors_is_singleton 0 = false := by decide
        rw [Nat.zero_and, hs0]
        simp
    · rw [h3]
      constructor
      · rintro ⟨i, hi, hne⟩
        refine ⟨i, hi, ?_⟩
        rw [h2 i, if_pos hi]
        exact hne
      · rintro ⟨i, hi, hne⟩
        refine ⟨i, hi, ?_⟩
        rw [h2 i, if_pos hi] at hne
        exact hne

theorem lone_number_spec_witness :
    lone_colors [3, 6, 12, 4] = 9 ∧ lone_number [3, 6, 12, 4] 4 = (true, [1, 6, 8, 4]) ∧
    (lone_number_lone [3, 6, 12, 4] 4 = lone_colors [3, 6, 12, 4] ∧
    (lone_number [3, 6, 12, 4] 4).2.length = 4 ∧
    (∀ i, (lone_number [3, 6, 12, 4] 4).2.getD i 0 =
      if colors_is_singleton (([3, 6, 12, 4] : List Nat).getD i 0) = false ∧
          colors_is_singleton (([3, 6, 12, 4] : List Nat).getD i 0 &&&
            lone_colors [3, 6, 12, 4]) = true
      then ([3, 6, 12, 4] : List Nat).getD i 0 &&& lone_colors [3, 6, 12, 4]
      else ([3, 6, 12, 4] : List Nat).getD i 0) ∧
    ((lone_number [3, 6, 12, 4] 4).1 = true ↔
      ∃ i, i < 4 ∧ (lone_number [3, 6, 12, 4] 4).2.getD i 0 ≠
        ([3, 6, 12, 4] : List Nat).getD i 0)) :=
  ⟨by decide!, by decide!, lone_number_spec [3, 6, 12, 4] 4 rfl (by decide) (by decide)⟩

theorem naked_subset_eq_upto (subgrid : List Nat) (size : Nat) :
    naked_subset subgrid size = naked_subset_upto subgrid size size := rfl

theorem naked_subset_elide_getD (i : Nat) (st : Bool × List Nat) (n j : Nat) :
    ((List.range n).foldl
      (fun (st : Bool × List Nat) j =>
        if colors_is_subset (st.2.getD j 0) (st.2.getD i 0) then st
        else
          let new := colors_subtract (st.2.getD j 0) (st.2.getD i 0)
          if st.2.getD j 0 != new then (true, st.2.set j new) else st)
      st).2.getD j 0 =
      if j < n ∧ colors_is_subset (st.2.getD j 0) (st.2.getD i 0) = false
      then colors_subtract (st.2.getD j 0) (st.2.getD i 0) else st.2.getD j 0 := by
  induction n generalizing j with
  | zero => simp
  | succ n ih =>
    rw [List.range_succ, List.foldl_append, List.foldl_cons, List.foldl_nil]
    generalize hR : (List.range n).foldl _ st = R at ih
    have hself : colors_is_subset (st.2.getD i 0) (st.2.getD i 0) = true :=
      (colors_is_subset_iff _ _).2 (Nat.and_self _)
    have hi : R.2.getD i 0 = st.2.getD i 0 := by
      rw [ih i, hself]
      simp
    have hn : R.2.getD n 0 = st.2.getD n 0 := by
      rw [ih n, if_neg (fun h => Nat.lt_irrefl n h.1)]
    dsimp only
    rw [hi, hn]
    by_cases hsub : colors_is_subset (st.2.getD n 0) (st.2.getD i 0) = true
    · rw [if_pos hsub, ih j]
      by_cases hjn : j = n
      · subst hjn
        rw [if_neg (fun h => Nat.lt_irrefl j h.1), if_neg]
        rintro ⟨_, h⟩
        rw [hsub] at h
        exact Bool.noConfusion h
      · by_cases hc : j < n ∧ colors_is_subset (st.2.getD j 0) (st.2.getD i 0) = false
        · rw [if_pos hc, if_pos ⟨by omega, hc.2⟩]
        · rw [if_neg hc, if_neg]
          rintro ⟨h1, h2⟩
          exact hc ⟨by omega, h2⟩
    · rw [if_neg hsub]
      have hsub' : colors_is_subset (st.2.getD n 0) (st.2.getD i 0) = false := by
        cases h : colors_is_subset (st.2.getD n 0) (st.2.getD i 0)
        · rfl
        · exact absurd h hsub
      have hlen : n < R.2.length := by
        by_contra hge
        have h0 : R.2.getD n 0 = 0 := by
          rw [List.getD_eq_default]
          omega
        rw [hn] at h0
        rw [h0] at hsub
        exact hsub ((colors_is_subset_iff _ _).2 (Nat.zero_and _))
      by_cases hne : (st.2.getD n 0 != colors_subtract (st.2.getD n 0) (st.2.getD i 0)) = true
      · rw [if_pos hne]
        dsimp only
        rw [getD_set]
        by_cases hjn : j = n
        · subst hjn
          rw [if_pos ⟨rfl, hlen⟩, if_pos ⟨Nat.lt_succ_self j, hsub'⟩]
        · rw [if_neg (fun h => hjn h.1), ih j]
          by_cases hc : j < n ∧ colors_is_subset (st.2.getD j 0) (st.2.getD i 0) = false
          · rw [if_pos hc, if_pos ⟨by omega, hc.2⟩]
          · rw [if_neg hc, if_neg]
            rintro ⟨h1, h2⟩
            exact hc ⟨by omega, h2⟩
      · rw [if_neg hne]
        have heq : st.2.getD n 0 = colors_subtract (st.2.getD n 0) (st.2.getD i 0) := by
          by_contra h
          exact hne (bne_iff_ne.2 h)
        rw [ih j]
        by_cases hjn : j = n
        · subst hjn
          rw [if_neg (fun h => Nat.lt_irrefl j h.1), if_pos ⟨Nat.lt_succ_self j, hsub'⟩]
          exact heq
        · by_cases hc : j < n ∧ colors_is_subset (st.2.getD j 0) (st.2.getD i 0) = false
          · rw [if_pos hc, if_pos ⟨by omega, hc.2⟩]
          · rw [if_neg hc, if_neg]
            rintro ⟨h1, h2⟩
            exact hc ⟨by omega, h2⟩

theorem colors_subtract_land (a b : Nat) : colors_subtract a b &&& b = 0 := by
  apply Nat.eq_of_testBit_eq
  intro k
  simp only [Nat.testBit_and, testBit_colors_subtract, Nat.zero_testBit]
  cases a.testBit k <;> cases b.testBit k <;> rfl

theorem naked_subset_step_subset (size : Nat) (st : Bool × List Nat) (i : Nat) :
    cells_subset (naked_subset_step size st i).2 st.2 := by
  unfold naked_subset_step
  split
  · exact cells_subset_refl _
  · split
    · exact cells_subset_refl _
    · intro j
      unfold naked_subset_elide
      rw [naked_subset_elide_getD]
      split
      · exact colors_subtract_subset _ _
      · exact Nat.and_self _

theorem naked_subset_steps_subset (size : Nat) (l : List Nat) (st : Bool × List Nat) :
    cells_subset (l.foldl (naked_subset_step size) st).2 st.2 := by
  induction l generalizing st with
  | nil => exact cells_subset_refl _
  | cons i l ih =>
    rw [List.foldl_cons]
    intro j
    exact subset_trans (ih _ j) (naked_subset_step_subset size st i j)

theorem range_split {i size : Nat} (hi : i < size) :
    ∃ rest, List.range size = List.range i ++ i :: rest := by
  obtain ⟨k, rfl⟩ : ∃ k, size = (i + 1) + k := ⟨size - (i + 1), by omega⟩
  refine ⟨(List.range k).map (fun x => (i + 1) + x), ?_⟩
  rw [List.range_add, List.range_succ, List.append_assoc]
  rfl

/-- C20 (amended): let `c` be the cell at index `i` of the unit as it stands when the
outer loop of `naked_subset` reaches `i`. If `c` is not a singleton and the number of
non-singleton cells of that unit that are subsets of `c` equals `|c|`, then after the call
every cell `j < size` that was not a subset of `c` at that moment contains no color of `c`. -/
theorem naked_subset_elides (subgrid : List Nat) (size i j : Nat) (hi : i < size)
    (hj : j < size)
    (hns : colors_is_singleton ((naked_subset_upto subgrid size i).2.getD i 0) = false)
    (hcount : naked_subset_count (naked_subset_upto subgrid size i).2 size i =
      colors_count ((naked_subset_upto subgrid size i).2.getD i 0))
    (hnot : colors_is_subset ((naked_subset_upto subgrid size i).2.getD j 0)
      ((naked_subset_upto subgrid size i).2.getD i 0) = false) :
    colors_and ((naked_subset subgrid size).2.getD j 0)
      ((naked_subset_upto subgrid size i).2.getD i 0) = colors_empty := by
  obtain ⟨rest, hrest⟩ := range_split hi
  rw [naked_subset_eq_upto]
  have hfin : naked_subset_upto subgrid size size =
      rest.foldl (naked_subset_step size)
        (naked_subset_elide size i (naked_subset_upto subgrid size i)) := by
    have hstep : naked_subset_step size (naked_subset_upto subgrid size i) i =
        naked_subset_elide size i (naked_subset_upto subgrid size i) := by
      unfold naked_subset_step
      rw [hns, hcount]
      simp
    unfold naked_subset_upto at hstep ⊢
    rw [hrest, List.foldl_append, List.foldl_cons, hstep]
  rw [hfin]
  have h1 := naked_subset_steps_subset size rest
    (naked_subset_elide size i (naked_subset_upto subgrid size i)) j
  have h2 : (naked_subset_elide size i (naked_subset_upto subgrid size i)).2.getD j 0 =
      colors_subtract ((naked_subset_upto subgrid size i).2.getD j 0)
        ((naked_subset_upto subgrid size i).2.getD i 0) := by
    unfold naked_subset_elide
    rw [naked_subset_elide_getD, if_pos ⟨hj, hnot⟩]
  unfold colors_and colors_empty
  rw [← h1, Nat.and_assoc, h2, colors_subtract_land, Nat.and_zero]

/-- Witness for the amended C20 on the unit `{1,2} {1,2} {1,2,3} {3,4}` with `i = 0`
and `j = 2`. -/
theorem naked_subset_elides_witness :
    (naked_subset_upto [3, 3, 7, 12] 4 0).2 = [3, 3, 7, 12] ∧
    (naked_subset [3, 3, 7, 12] 4).2.getD 2 0 = 4 ∧
    colors_and ((naked_subset [3, 3, 7, 12] 4).2.getD 2 0)
      ((naked_subset_upto [3, 3, 7, 12] 4 0).2.getD 0 0) = colors_empty :=
  ⟨by decide!, by decide!,
    naked_subset_elides [3, 3, 7, 12] 4 0 2 (by decide) (by decide) (by decide!) (by decide!)
      (by decide!)⟩

/-- C20 (counterexample): in the consistent unit `{1,2} {1,2} {1,2,3} {3,4}` the input cell
`c = {1,2,3}` at index 2 is not a singleton and exactly `|c| = 3` non-singleton input cells
are subsets of it, yet after one call of `naked_subset` the cell at index 3, which was not
a subset of `c`, still contains the color 3 of `c`. -/
theorem naked_subset_input_subset_not_elided :
    subgrid_consistency [3, 3, 7, 12] 4 = true ∧
    colors_is_singleton (([3, 3, 7, 12] : List Nat).getD 2 0) = false ∧
    naked_subset_count [3, 3, 7, 12] 4 2 = colors_count (([3, 3, 7, 12] : List Nat).getD 2 0) ∧
    colors_is_subset (([3, 3, 7, 12] : List Nat).getD 3 0)
      (([3, 3, 7, 12] : List Nat).getD 2 0) = false ∧
    naked_subset [3, 3, 7, 12] 4 = (true, [3, 3, 4, 12]) ∧
    colors_and ((naked_subset [3, 3, 7, 12] 4).2.getD 3 0)
      (([3, 3, 7, 12] : List Nat).getD 2 0) = colors_set 2 ∧
    colors_and ((naked_subset [3, 3, 7, 12] 4).2.getD 3 0)
      (([3, 3, 7, 12] : List Nat).getD 2 0) ≠ colors_empty := by
  decide!

theorem colors_is_singleton_iff (c : Nat) :
    colors_is_singleton c = true ↔ c ≠ 0 ∧ c &&& (c - 1) = 0 := by
  unfold colors_is_singleton colors_empty
  by_cases h : c = 0
  · subst h
    simp
  · have hb : (c == 0) = false := beq_eq_false_iff_ne.2 h
    rw [hb]
    simp [h]

theorem singleton_eq_two_pow (c : Nat) (h : colors_is_singleton c = true) : ∃ k, c = 2 ^ k := by
  rw [colors_is_singleton_iff] at h
  induction c using Nat.strong_induction_on with
  | _ c ih =>
    obtain ⟨h0, h1⟩ := h
    have hdiv : c / 2 &&& (c - 1) / 2 = 0 := by
      rw [← Nat.and_div_two, h1]
    rcases Nat.mod_two_eq_zero_or_one c with hc | hc
    · have hm : c / 2 ≠ 0 := by omega
      have e : (c - 1) / 2 = c / 2 - 1 := by omega
      rw [e] at hdiv
      obtain ⟨k, hk⟩ := ih (c / 2) (by omega) ⟨hm, hdiv⟩
      refine ⟨k + 1, ?_⟩
      rw [Nat.pow_succ, ← hk]
      omega
    · have e : (c - 1) / 2 = c / 2 := by omega
      rw [e, Nat.and_self] at hdiv
      refine ⟨0, ?_⟩
      rw [Nat.pow_zero]
      omega

theorem colors_is_singleton_iff_two_pow (c : Nat) :
    colors_is_singleton c = true ↔ ∃ k, c = 2 ^ k := by
  constructor
  · exact singleton_eq_two_pow c
  · rintro ⟨k, rfl⟩
    exact colors_is_singleton_two_pow k

/-- A singleton is a subset of `s ||| c`, for a singleton `c`, exactly when it
is a subset of `s` or equal to `c`. -/
theorem singleton_subset_or {d c : Nat} (s : Nat) (hd : colors_is_singleton d = true)
    (hc : colors_is_singleton c = true) :
    d &&& (s ||| c) = d ↔ d &&& s = d ∨ d = c := by
  obtain ⟨k, rfl⟩ := singleton_eq_two_pow d hd
  obtain ⟨m, rfl⟩ := singleton_eq_two_pow c hc
  have hpos : (2 : Nat) ^ k ≠ 0 := Nat.pos_iff_ne_zero.mp (Nat.two_pow_pos k)
  rw [two_pow_land, two_pow_land, Nat.testBit_or, Nat.testBit_two_pow]
  have hinj : (2 : Nat) ^ k = 2 ^ m ↔ m = k := by
    constructor
    · intro h
      exact (Nat.pow_right_injective (le_refl 2) h).symm
    · intro h
      rw [h]
  rw [hinj]
  cases hs : s.testBit k <;> by_cases hmk : m = k <;> simp [hmk, hpos, Ne.symm hpos]

theorem consistency_fold_none (cells : List Nat) :
    cells.foldl (fun st c => subgrid_consistency_step [c] st 0) none = none := by
  induction cells with
  | nil => rfl
  | cons c cells ih =>
    rw [List.foldl_cons]
    exact ih

theorem consistency_fold_iff (cells : List Nat) (s a r : Nat) :
    (∃ t, cells.foldl (fun st c => subgrid_consistency_step [c] st 0) (some (s, a)) =
        some (t, r)) ↔
      consistency_ok cells s ∧ r = cells.foldl (fun a c => a ||| c) a := by
  induction cells generalizing s a with
  | nil =>
    unfold consistency_ok
    simp only [List.foldl_nil, Option.some.injEq, Prod.mk.injEq]
    constructor
    · rintro ⟨t, _, h⟩
      exact ⟨⟨by simp, by simp, by simp⟩, h.symm⟩
    · rintro ⟨_, h⟩
      exact ⟨s, rfl, h.symm⟩
  | cons c cells ih =>
    rw [List.foldl_cons, List.foldl_cons]
    have hstep : subgrid_consistency_step [c] (some (s, a)) 0 =
        if c == 0 then none
        else if colors_is_singleton c then
          if (c &&& s) == c then none else some (s ||| c, a ||| c)
        else some (s, a ||| c) := rfl
    rw [hstep]
    by_cases h0 : c = 0
    · subst h0
      simp only [beq_self_eq_true, if_true, consistency_fold_none]
      constructor
      · rintro ⟨t, h⟩
        exact Option.noConfusion h
      · rintro ⟨⟨h, _⟩, _⟩
        exact absurd rfl (h 0 (List.mem_cons_self 0 cells))
    · have hb : (c == 0) = false := beq_eq_false_iff_ne.2 h0
      rw [hb]
      simp only [Bool.false_eq_true, if_false]
      by_cases hsing : colors_is_singleton c = true
      · rw [if_pos hsing]
        by_cases hin : c &&& s = c
        · rw [if_pos (beq_iff_eq.2 hin), consistency_fold_none]
          constructor
          · rintro ⟨t, h⟩
            exact Option.noConfusion h
          · rintro ⟨⟨_, _, h⟩, _⟩
            refine absurd hin (h c ?_)
            rw [List.filter_cons_of_pos hsing]
            exact List.mem_cons_self c _
        · have hbne : ((c &&& s) == c) = false := beq_eq_false_iff_ne.2 hin
          rw [hbne]
          simp only [Bool.false_eq_true, if_false]
          rw [ih (s ||| c) (a ||| c)]
          unfold consistency_ok
          rw [List.filter_cons_of_pos hsing, List.nodup_cons]
          constructor
          · rintro ⟨⟨h1, h2, h3⟩, hr⟩
            refine ⟨⟨?_, ⟨?_, h2⟩, ?_⟩, hr⟩
            · intro d hd
              rcases List.mem_cons.1 hd with rfl | hd
              · exact h0
              · exact h1 d hd
            · intro hmem
              exact h3 c hmem ((singleton_subset_or s hsing hsing).2 (Or.inr rfl))
            · intro d hd
              rcases List.mem_cons.1 hd with rfl | hd
              · exact hin
              · intro hds
                have hdsing : colors_is_singleton d = true := (List.mem_filter.1 hd).2
                exact h3 d hd ((singleton_subset_or s hdsing hsing).2 (Or.inl hds))
          · rintro ⟨⟨h1, ⟨hnot, h2⟩, h3⟩, hr⟩
            refine ⟨⟨fun d hd => h1 d (List.mem_cons_of_mem c hd), h2, ?_⟩, hr⟩
            intro d hd hds
            have hdsing : colors_is_singleton d = true := (List.mem_filter.1 hd).2
            rcases (singleton_subset_or s hdsing hsing).1 hds with h | h
            · exact h3 d (List.mem_cons_of_mem c hd) h
            · subst h
              exact hnot hd
      · rw [if_neg hsing, ih s (a ||| c)]
        unfold consistency_ok
        rw [List.filter_cons_of_neg hsing]
        constructor
        · rintro ⟨⟨h1, h2, h3⟩, hr⟩
          refine ⟨⟨?_, h2, h3⟩, hr⟩
          intro d hd
          rcases List.mem_cons.1 hd with rfl | hd
          · exact h0
          · exact h1 d hd
        · rintro ⟨⟨h1, h2, h3⟩, hr⟩
          exact ⟨⟨fun d hd => h1 d (List.mem_cons_of_mem c hd), h2, h3⟩, hr⟩

/-- On a unit of `size` cells, `subgrid_consistency` decides the unit invariant. -/
theorem subgrid_consistency_iff (cells : List Nat) (size : Nat) (hlen : cells.length = size) :
    subgrid_consistency cells size = true ↔ unit_invariant cells size := by
  subst hlen
  unfold subgrid_consistency
  have hfold : (List.range cells.length).foldl (subgrid_consistency_step cells) (some (0, 0)) =
      cells.foldl (fun st c => subgrid_consistency_step [c] st 0) (some (0, 0)) := by
    rw [← foldl_range_getD (fun st c => subgrid_consistency_step [c] st 0) cells]
    exact congrArg (fun f => (List.range cells.length).foldl f (some (0, 0)))
      (funext fun st => funext fun i => subgrid_consistency_step_getD cells st i)
  rw [hfold]
  have hok : consistency_ok cells 0 ↔
      (∀ c ∈ cells, c ≠ colors_empty) ∧ (cells.filter colors_is_singleton).Nodup := by
    unfold consistency_ok colors_empty
    constructor
    · rintro ⟨h1, h2, _⟩
      exact ⟨h1, h2⟩
    · rintro ⟨h1, h2⟩
      refine ⟨h1, h2, ?_⟩
      intro c hc
      rw [Nat.and_zero]
      exact fun e => h1 c (List.mem_of_mem_filter hc) e.symm
  unfold unit_invariant
  rw [← and_assoc, ← hok]
  generalize hres : cells.foldl (fun st c => subgrid_consistency_step [c] st 0) (some (0, 0)) = res
  rcases res with _ | ⟨t, r⟩
  · simp only [Bool.false_eq_true, false_iff]
    rintro ⟨hk, hu⟩
    obtain ⟨t, ht⟩ := (consistency_fold_iff cells 0 0 _).2 ⟨hk, rfl⟩
    rw [hres] at ht
    exact Option.noConfusion ht
  · have h := (consistency_fold_iff cells 0 0 r).1 ⟨t, hres⟩
    dsimp only
    rw [beq_iff_eq]
    constructor
    · intro hr
      exact ⟨h.1, h.2 ▸ hr⟩
    · rintro ⟨_, hu⟩
      exact h.2.trans hu

theorem sqrt_size_sq {size : Nat} (h : grid_check_size size = true) :
    sqrt_size size * sqrt_size size = size := by
  unfold grid_check_size at h
  simp only [Bool.or_eq_true, beq_iff_eq] at h
  rcases h with ((((((h | h) | h) | h) | h) | h) | h) | h <;> subst h <;> decide!

theorem row_unit_length (size index : Nat) : (row_unit size index).length = size := by
  unfold row_unit
  rw [List.length_map, List.length_range]

theorem column_unit_length (size index : Nat) : (column_unit size index).length = size := by
  unfold column_unit
  rw [List.length_map, List.length_range]

theorem length_flatMap_const {α β : Type} (l : List α) (f : α → List β) (n : Nat)
    (h : ∀ a, (f a).length = n) : (l.flatMap f).length = l.length * n := by
  induction l with
  | nil => simp
  | cons a l ih =>
    rw [List.flatMap_cons, List.length_append, ih, h a, List.length_cons]
    rw [Nat.succ_mul, Nat.add_comm]

theorem block_unit_length {size : Nat} (h : grid_check_size size = true) (index : Nat) :
    (block_unit size index).length = size := by
  unfold block_unit
  dsimp only
  rw [length_flatMap_const _ _ (sqrt_size size), List.length_range, sqrt_size_sq h]
  intro a
  rw [List.length_map, List.length_range]

theorem unit_cells_length (grid : grid_t) (unit : List (Nat × Nat)) :
    (unit_cells grid unit).length = unit.length := by
  unfold unit_cells
  rw [List.length_map]

theorem div_eq_of_offset {b q x : Nat} (hb : 0 < b) :
    (∃ a, a < b ∧ x = q * b + a) ↔ x / b = q := by
  constructor
  · rintro ⟨a, ha, rfl⟩
    rw [Nat.mul_comm, Nat.mul_add_div hb, Nat.div_eq_of_lt ha, Nat.add_zero]
  · rintro rfl
    refine ⟨x % b, Nat.mod_lt x hb, ?_⟩
    have := Nat.div_add_mod x b
    rw [Nat.mul_comm] at this
    exact this.symm

/-- The cells of block `index`: the rows `r` with `r / b = index / b` and the columns
`c` with `c / b = index % b`, where `b` is the block size. -/
theorem mem_block_unit {size : Nat} (hb : 0 < sqrt_size size) (index i j : Nat) :
    (i, j) ∈ block_unit size index ↔
      i / sqrt_size size = index / sqrt_size size ∧
      j / sqrt_size size = index % sqrt_size size := by
  unfold block_unit
  dsimp only
  rw [← div_eq_of_offset hb, ← div_eq_of_offset hb]
  simp only [List.mem_flatMap, List.mem_map, List.mem_range, Prod.mk.injEq]
  constructor
  · rintro ⟨a, ha, c, hc, h1, h2⟩
    exact ⟨⟨a, ha, h1.symm⟩, ⟨c, hc, h2.symm⟩⟩
  · rintro ⟨⟨a, ha, h1⟩, ⟨c, hc, h2⟩⟩
    exact ⟨a, ha, c, hc, h1.symm, h2.symm⟩

/-- Every cell of a grid of supported size lies in exactly one enumerated block. -/
theorem block_unit_partition {size : Nat} (h : grid_check_size size = true) (i j : Nat)
    (hi : i < size) (hj : j < size) :
    ∃! index, index < size ∧ (i, j) ∈ block_unit size index := by
  have hsq := sqrt_size_sq h
  have hpos := grid_check_size_pos h
  generalize hbs : sqrt_size size = b at hsq
  have hb : 0 < b := by
    rcases Nat.eq_zero_or_pos b with h0 | h0
    · subst h0
      omega
    · exact h0
  have hib : i / b < b := by
    rw [Nat.div_lt_iff_lt_mul hb, hsq]
    exact hi
  have hjb : j / b < b := by
    rw [Nat.div_lt_iff_lt_mul hb, hsq]
    exact hj
  have hmem : ∀ index, (i, j) ∈ block_unit size index ↔ i / b = index / b ∧ j / b = index % b := by
    intro index
    have := @mem_block_unit size (hbs ▸ hb) index i j
    rw [hbs] at this
    exact this
  refine ⟨b * (i / b) + j / b, ⟨?_, ?_⟩, ?_⟩
  · rw [← hsq, ← Nat.div_lt_iff_lt_mul hb, Nat.mul_add_div hb, Nat.div_eq_of_lt hjb, Nat.add_zero]
    exact hib
  · rw [hmem, Nat.mul_add_div hb, Nat.div_eq_of_lt hjb, Nat.add_zero, Nat.mul_add_mod,
      Nat.mod_eq_of_lt hjb]
    exact ⟨rfl, rfl⟩
  · rintro index ⟨_, hm⟩
    rw [hmem] at hm
    rw [hm.1, hm.2]
    exact (Nat.div_add_mod index b).symm

/-- C11: `grid_is_consistent` returns true on every grid of size 1; on a grid of a
supported size `N > 1` it returns true exactly when each of the `N` rows, `N` columns and
`N` blocks satisfies the unit invariant (no empty cell, pairwise distinct singleton cells,
union of the cells equal to the full set), and every cell of the grid lies in exactly one
of the enumerated blocks. -/
theorem grid_is_consistent_spec (grid : grid_t) (hsize : grid_check_size grid.size = true) :
    (grid.size = 1 → grid_is_consistent grid = true) ∧
    (grid.size ≠ 1 →
      (grid_is_consistent grid = true ↔
        ∀ index, index < grid.size →
          unit_invariant (unit_cells grid (row_unit grid.size index)) grid.size ∧
          unit_invariant (unit_cells grid (column_unit grid.size index)) grid.size ∧
          unit_invariant (unit_cells grid (block_unit grid.size index)) grid.size)) ∧
    (∀ i, i < grid.size → ∀ j, j < grid.size →
      ∃! index, index < grid.size ∧ (i, j) ∈ block_unit grid.size index) := by
  refine ⟨?_, ?_, ?_⟩
  · intro h1
    unfold grid_is_consistent
    rw [if_pos (beq_iff_eq.2 h1)]
  · intro hne
    unfold grid_is_consistent
    rw [if_neg (fun h => hne (beq_iff_eq.1 h)), List.all_eq_true]
    have hrow : ∀ index, subgrid_consistency (unit_cells grid (row_unit grid.size index))
        grid.size = true ↔ unit_invariant (unit_cells grid (row_unit grid.size index))
        grid.size := fun index =>
      subgrid_consistency_iff _ _ (by rw [unit_cells_length, row_unit_length])
    have hcol : ∀ index, subgrid_consistency (unit_cells grid (column_unit grid.size index))
        grid.size = true ↔ unit_invariant (unit_cells grid (column_unit grid.size index))
        grid.size := fun index =>
      subgrid_consistency_iff _ _ (by rw [unit_cells_length, column_unit_length])
    have hblock : ∀ index, subgrid_consistency (unit_cells grid (block_unit grid.size index))
        grid.size = true ↔ unit_invariant (unit_cells grid (block_unit grid.size index))
        grid.size := fun index =>
      subgrid_consistency_iff _ _ (by rw [unit_cells_length, block_unit_length hsize])
    constructor
    · intro h index hidx
      have := h index (List.mem_range.2 hidx)
      rw [Bool.and_eq_true, Bool.and_eq_true, hrow, hcol, hblock] at this
      exact ⟨this.1.1, this.1.2, this.2⟩
    · intro h index hidx
      have := h index (List.mem_range.1 hidx)
      rw [Bool.and_eq_true, Bool.and_eq_true, hrow, hcol, hblock]
      exact ⟨⟨this.1, this.2.1⟩, this.2.2⟩
  · intro i hi j hj
    exact block_unit_partition hsize i j hi hj

/-- Witness for C11 on the consistent 4×4 grid `stuck_grid` and on the grid of size 1
whose only cell is empty. -/
theorem grid_is_consistent_spec_witness :
    grid_check_size stuck_grid.size = true ∧ stuck_grid.size ≠ 1 ∧
    grid_is_consistent stuck_grid = true ∧
    (∀ index, index < stuck_grid.size →
      unit_invariant (unit_cells stuck_grid (row_unit stuck_grid.size index)) stuck_grid.size ∧
      unit_invariant (unit_cells stuck_grid (column_unit stuck_grid.size index))
        stuck_grid.size ∧
      unit_invariant (unit_cells stuck_grid (block_unit stuck_grid.size index))
        stuck_grid.size) ∧
    grid_is_consistent { size := 1, cells := [[0]] } = true :=
  ⟨by decide, by decide, by decide!,
    ((grid_is_consistent_spec stuck_grid (by decide)).2.1 (by decide)).1 (by decide!),
    (grid_is_consistent_spec { size := 1, cells := [[0]] } (by decide)).1 rfl⟩

theorem land_split (w a c x m : Nat) (ha : a < 2 ^ w) (hc : c < 2 ^ w) :
    (a + 2 ^ w * x) &&& (c + 2 ^ w * m) = (a &&& c) + 2 ^ w * (x &&& m) := by
  have hac : a &&& c < 2 ^ w := Nat.and_lt_two_pow a hc
  apply Nat.eq_of_testBit_eq
  intro j
  rw [Nat.add_comm a, Nat.add_comm c, Nat.add_comm (a &&& c), Nat.testBit_and,
    Nat.testBit_mul_pow_two_add x ha, Nat.testBit_mul_pow_two_add m hc,
    Nat.testBit_mul_pow_two_add (x &&& m) hac]
  by_cases hj : j < w
  · simp only [hj, if_true, Nat.testBit_and]
  · simp only [hj, if_false, Nat.testBit_and]

theorem bit_count_le (w a : Nat) : bit_count w a ≤ w := by
  induction w generalizing a with
  | zero => exact Nat.le_refl 0
  | succ w ih =>
    have h1 := ih (a / 2)
    have h2 : a % 2 < 2 := Nat.mod_lt a (by decide)
    show a % 2 + bit_count w (a / 2) ≤ w + 1
    omega

theorem bit_count_add (w v a : Nat) :
    bit_count (w + v) a = bit_count w a + bit_count v (a / 2 ^ w) := by
  induction w generalizing a with
  | zero => simp [bit_count]
  | succ w ih =>
    have e : w + 1 + v = (w + v) + 1 := by omega
    rw [e]
    show a % 2 + bit_count (w + v) (a / 2) = a % 2 + bit_count w (a / 2) + _
    rw [ih (a / 2), Nat.div_div_eq_div_mul, ← Nat.pow_succ', Nat.add_assoc]

theorem lt_two_pow_self_nat (w : Nat) : w < 2 ^ w := Nat.lt_two_pow w

theorem add_mul_mod_lt {a b : Nat} (y : Nat) (h : a < b) : (a + b * y) % b = a := by
  rw [Nat.add_mul_mod_self_left, Nat.mod_eq_of_lt h]

theorem add_mul_div_lt {a b : Nat} (y : Nat) (h : a < b) : (a + b * y) / b = y := by
  have hb : 0 < b := Nat.lt_of_le_of_lt (Nat.zero_le a) h
  rw [Nat.add_mul_div_left _ _ hb, Nat.div_eq_of_lt h, Nat.zero_add]

theorem packed_counts_two_succ (w n a : Nat) :
    packed_counts w (2 * (n + 1)) a =
      bit_count w a + 2 ^ w * (bit_count w (a / 2 ^ w) +
        2 ^ w * packed_counts w (2 * n) (a / 2 ^ w / 2 ^ w)) := rfl

theorem packed_counts_double_succ (w n a : Nat) :
    packed_counts (2 * w) (n + 1) a =
      (bit_count w a + bit_count w (a / 2 ^ w)) +
        2 ^ w * (0 + 2 ^ w * packed_counts (2 * w) n (a / 2 ^ w / 2 ^ w)) := by
  have e : (2 : Nat) ^ (2 * w) = 2 ^ w * 2 ^ w := by rw [Nat.two_mul, Nat.pow_add]
  show bit_count (2 * w) a + 2 ^ (2 * w) * packed_counts (2 * w) n (a / 2 ^ (2 * w)) = _
  rw [e, Nat.two_mul, bit_count_add, Nat.div_div_eq_div_mul, Nat.zero_add, Nat.mul_assoc]

theorem land_mask_high (w x m : Nat) :
    x &&& (0 + 2 ^ w * m) = 2 ^ w * (x / 2 ^ w &&& m) := by
  have hx : x = x % 2 ^ w + 2 ^ w * (x / 2 ^ w) := (Nat.mod_add_div x (2 ^ w)).symm
  have hlt : x % 2 ^ w < 2 ^ w := Nat.mod_lt x (Nat.two_pow_pos w)
  conv => lhs; rw [hx]
  rw [land_split w _ _ _ _ hlt (Nat.two_pow_pos w), Nat.and_zero, Nat.zero_add]

theorem land_low_mask (w a : Nat) (ha : a < 2 ^ w) : a &&& (2 ^ w - 1) = a := by
  rw [Nat.and_pow_two_sub_one_eq_mod, Nat.mod_eq_of_lt ha]

/-- One mask-then-add stage: from fields of `w` bits to fields of `2 * w` bits. -/
theorem stage_mask_add (w n a : Nat) :
    ((packed_counts w (2 * n) a >>> w) &&& swar_mask w n) +
      (packed_counts w (2 * n) a &&& swar_mask w n) = packed_counts (2 * w) n a := by
  induction n generalizing a with
  | zero => simp [packed_counts, swar_mask]
  | succ n ih =>
    have hB : 0 < 2 ^ w := Nat.two_pow_pos w
    have h0 : bit_count w a < 2 ^ w := Nat.lt_of_le_of_lt (bit_count_le w a) (Nat.lt_two_pow w)
    have h1 : bit_count w (a / 2 ^ w) < 2 ^ w :=
      Nat.lt_of_le_of_lt (bit_count_le w _) (Nat.lt_two_pow w)
    have hm : 2 ^ w - 1 < 2 ^ w := by omega
    have ih := ih (a / 2 ^ w / 2 ^ w)
    rw [Nat.shiftRight_eq_div_pow] at ih ⊢
    rw [packed_counts_two_succ, packed_counts_double_succ]
    generalize packed_counts w (2 * n) (a / 2 ^ w / 2 ^ w) = x at ih ⊢
    rw [add_mul_div_lt _ h0]
    show ((bit_count w (a / 2 ^ w) + 2 ^ w * x) &&&
        (2 ^ w - 1 + 2 ^ w * (0 + 2 ^ w * swar_mask w n))) +
      ((bit_count w a + 2 ^ w * (bit_count w (a / 2 ^ w) + 2 ^ w * x)) &&&
        (2 ^ w - 1 + 2 ^ w * (0 + 2 ^ w * swar_mask w n))) = _
    rw [land_split w _ _ _ _ h1 hm, land_split w _ _ _ _ h0 hm, land_mask_high, land_mask_high,
      land_low_mask w _ h0, land_low_mask w _ h1, add_mul_div_lt _ h1, ← ih, Nat.zero_add]
    ring

theorem packed_counts_mod_le (w n a : Nat) : packed_counts w n a % 2 ^ w ≤ w := by
  cases n with
  | zero => exact Nat.zero_le w
  | succ n =>
    have h0 : bit_count w a < 2 ^ w := Nat.lt_of_le_of_lt (bit_count_le w a) (Nat.lt_two_pow w)
    show (bit_count w a + 2 ^ w * packed_counts w n (a / 2 ^ w)) % 2 ^ w ≤ w
    rw [add_mul_mod_lt _ h0]
    exact bit_count_le w a

/-- One add-then-mask stage: from fields of `w` bits to fields of `2 * w` bits, when
the sum of two counts fits in `w` bits. -/
theorem stage_add_mask (w n a : Nat) (hw : 2 * w < 2 ^ w) :
    ((packed_counts w (2 * n) a >>> w) + packed_counts w (2 * n) a) &&& swar_mask w n =
      packed_counts (2 * w) n a := by
  induction n generalizing a with
  | zero => simp [packed_counts, swar_mask]
  | succ n ih =>
    have hB : 0 < 2 ^ w := Nat.two_pow_pos w
    have b0 := bit_count_le w a
    have b1 := bit_count_le w (a / 2 ^ w)
    have b2 := packed_counts_mod_le w (2 * n) (a / 2 ^ w / 2 ^ w)
    have hm : 2 ^ w - 1 < 2 ^ w := by omega
    have ih := ih (a / 2 ^ w / 2 ^ w)
    rw [Nat.shiftRight_eq_div_pow] at ih ⊢
    rw [packed_counts_two_succ, packed_counts_double_succ]
    generalize packed_counts w (2 * n) (a / 2 ^ w / 2 ^ w) = x at ih b2 ⊢
    rw [add_mul_div_lt _ (by omega : bit_count w a < 2 ^ w)]
    have hx : x = x % 2 ^ w + 2 ^ w * (x / 2 ^ w) := (Nat.mod_add_div x (2 ^ w)).symm
    have hy : bit_count w (a / 2 ^ w) + 2 ^ w * x +
        (bit_count w a + 2 ^ w * (bit_count w (a / 2 ^ w) + 2 ^ w * x)) =
        (bit_count w a + bit_count w (a / 2 ^ w)) +
          2 ^ w * ((bit_count w (a / 2 ^ w) + x % 2 ^ w) + 2 ^ w * (x / 2 ^ w + x)) := by
      conv => lhs; arg 1; rw [hx]
      ring
    rw [hy]
    show ((bit_count w a + bit_count w (a / 2 ^ w)) +
          2 ^ w * ((bit_count w (a / 2 ^ w) + x % 2 ^ w) + 2 ^ w * (x / 2 ^ w + x))) &&&
        (2 ^ w - 1 + 2 ^ w * (0 + 2 ^ w * swar_mask w n)) = _
    rw [land_split w _ _ _ _ (by omega) hm, land_split w _ _ _ _ (by omega) hB, Nat.and_zero,
      land_low_mask w _ (by omega), ih]

theorem packed_counts_one (n a : Nat) : packed_counts 1 n a = a % 2 ^ n := by
  induction n generalizing a with
  | zero => simp [packed_counts, Nat.mod_one]
  | succ n ih =>
    show a % 2 + 0 + 2 * packed_counts 1 n (a / 2) = a % 2 ^ (n + 1)
    rw [ih, Nat.pow_succ', Nat.mod_mul, Nat.add_zero]

theorem mod_land_of_lt (y m : Nat) (hm : m < 2 ^ 64) : (y % 2 ^ 64) &&& m = y &&& m := by
  apply Nat.eq_of_testBit_eq
  intro i
  rw [Nat.testBit_and, Nat.testBit_and, Nat.testBit_mod_two_pow]
  by_cases hi : i < 64
  · simp [hi]
  · have : m.testBit i = false :=
      Nat.testBit_lt_two_pow (Nat.lt_of_lt_of_le hm (Nat.pow_le_pow_right (by decide) (by omega)))
    simp [this]

theorem countP_testBit (n a : Nat) :
    (List.range n).countP (fun k => a.testBit k) = bit_count n a := by
  induction n generalizing a with
  | zero => rfl
  | succ n ih =>
    rw [List.range_succ_eq_map, List.countP_cons, List.countP_map]
    have hf : ((fun k => a.testBit k) ∘ Nat.succ) = fun k => (a / 2).testBit k := by
      funext k
      exact Nat.testBit_succ a k
    rw [hf, ih (a / 2)]
    show _ = a % 2 + bit_count n (a / 2)
    rw [Nat.testBit_zero]
    rcases Nat.mod_two_eq_zero_or_one a with h | h <;> simp [h, Nat.add_comm]

theorem popcount_eq_bit_count (a : Nat) (ha : a < 2 ^ 64) : popcount a = bit_count 64 a := by
  unfold popcount
  rw [← countP_testBit, List.countP_eq_length_filter]
  congr 1
  apply List.filter_congr
  intro k _
  exact colors_is_in_eq_testBit a k ha

theorem colors_count_masks (x : Nat) :
    colors_count x =
      let x1 := (((x >>> 1) &&& swar_mask 1 32) + (x &&& swar_mask 1 32)) % 2 ^ 64
      let x2 := (((x1 >>> 2) &&& swar_mask 2 16) + (x1 &&& swar_mask 2 16)) % 2 ^ 64
      let x3 := (((x2 >>> 4) + x2) % 2 ^ 64) &&& swar_mask 4 8
      let x4 := (((x3 >>> 8) + x3) % 2 ^ 64) &&& swar_mask 8 4
      let x5 := (((x4 >>> 16) + x4) % 2 ^ 64) &&& swar_mask 16 2
      (((x5 >>> 32) + x5) % 2 ^ 64) &&& swar_mask 32 1 := by
  have h5 : colors_negate ((UINT64_MAX <<< 32) % 2 ^ 64) = swar_mask 32 1 := by decide!
  have h4 : swar_mask 32 1 ^^^ ((swar_mask 32 1 <<< 16) % 2 ^ 64) = swar_mask 16 2 := by decide!
  have h3 : swar_mask 16 2 ^^^ ((swar_mask 16 2 <<< 8) % 2 ^ 64) = swar_mask 8 4 := by decide!
  have h2 : swar_mask 8 4 ^^^ ((swar_mask 8 4 <<< 4) % 2 ^ 64) = swar_mask 4 8 := by decide!
  have h1 : swar_mask 4 8 ^^^ ((swar_mask 4 8 <<< 2) % 2 ^ 64) = swar_mask 2 16 := by decide!
  have h0 : swar_mask 2 16 ^^^ ((swar_mask 2 16 <<< 1) % 2 ^ 64) = swar_mask 1 32 := by decide!
  unfold colors_count
  dsimp only
  rw [h5, h4, h3, h2, h1, h0]

theorem swar_mask_lt : swar_mask 1 32 < 2 ^ 63 ∧ swar_mask 2 16 < 2 ^ 63 ∧
    swar_mask 4 8 < 2 ^ 64 ∧ swar_mask 8 4 < 2 ^ 64 ∧ swar_mask 16 2 < 2 ^ 64 ∧
    swar_mask 32 1 < 2 ^ 64 := by
  decide!

theorem mask_add_mod (u v m : Nat) (hm : m < 2 ^ 63) :
    ((u &&& m) + (v &&& m)) % 2 ^ 64 = (u &&& m) + (v &&& m) := by
  have h1 : u &&& m ≤ m := Nat.and_le_right
  have h2 : v &&& m ≤ m := Nat.and_le_right
  apply Nat.mod_eq_of_lt
  omega

/-- The mask-and-add reduction of `colors_count` yields the number of bits set
among the 64 lowest bits. -/
theorem colors_count_bit_count (a : Nat) (ha : a < 2 ^ 64) : colors_count a = bit_count 64 a := by
  obtain ⟨m0, m1, m2, m3, m4, m5⟩ := swar_mask_lt
  rw [colors_count_masks]
  dsimp only
  have e0 : a = packed_counts 1 (2 * 32) a := by
    rw [packed_counts_one]
    exact (Nat.mod_eq_of_lt ha).symm
  have s0 := stage_mask_add 1 32 a
  rw [← e0] at s0
  rw [mask_add_mod _ _ _ m0, s0]
  have s1 := stage_mask_add 2 16 a
  rw [mask_add_mod _ _ _ m1, s1]
  have s2 := stage_add_mask 4 8 a (by decide)
  rw [mod_land_of_lt _ _ m2, s2]
  have s3 := stage_add_mask 8 4 a (by decide)
  rw [mod_land_of_lt _ _ m3, s3]
  have s4 := stage_add_mask 16 2 a (by decide)
  rw [mod_land_of_lt _ _ m4, s4]
  have s5 := stage_add_mask 32 1 a (by decide)
  rw [mod_land_of_lt _ _ m5, s5]
  show bit_count 64 a + 2 ^ 64 * 0 = bit_count 64 a
  rw [Nat.mul_zero, Nat.add_zero]

/-- C12: for every 64-bit color set `A`, `colors_count A` is the population count of
`A`, the number of colors `k < 64` that belong to `A`. -/
theorem colors_count_is_popcount (a : Nat) (ha : a < 2 ^ 64) : colors_count a = popcount a := by
  rw [popcount_eq_bit_count a ha]
  exact colors_count_bit_count a ha

/-- Witness for C12 on the color set `{2, 3, 5}`. -/
theorem colors_count_is_popcount_witness :
    44 < 2 ^ 64 ∧ popcount 44 = 3 ∧ colors_count 44 = popcount 44 :=
  ⟨by decide, by decide!, colors_count_is_popcount 44 (by decide)⟩

theorem grid_choice_scan_eq (grid : grid_t) :
    grid_choice_scan grid =
      (List.range grid.size).foldl (grid_choice_scan_row grid)
        (false, { row := 0, column := 0, color := 0 }) := rfl

theorem scan_cols_found (grid : grid_t) (i : Nat) (js : List Nat) (st : Bool × choice_t)
    (h : st.1 = true) :
    js.foldl
      (fun (st : Bool × choice_t) j =>
        if st.1 then st
        else if colors_is_singleton (grid_cell grid i j) then st
        else (true, { row := i, column := j, color := grid_cell grid i j }))
      st = st := by
  induction js with
  | nil => rfl
  | cons j js ih =>
    rw [List.foldl_cons, if_pos h]
    exact ih

theorem scan_cols_singletons (grid : grid_t) (i : Nat) (js : List Nat) (st : Bool × choice_t)
    (hs : ∀ j ∈ js, colors_is_singleton (grid_cell grid i j) = true) :
    js.foldl
      (fun (st : Bool × choice_t) j =>
        if st.1 then st
        else if colors_is_singleton (grid_cell grid i j) then st
        else (true, { row := i, column := j, color := grid_cell grid i j }))
      st = st := by
  induction js with
  | nil => rfl
  | cons j js ih =>
    rw [List.foldl_cons, if_pos (hs j (List.mem_cons_self j js))]
    rw [ite_self]
    exact ih (fun j' hj' => hs j' (List.mem_cons_of_mem j hj'))

theorem scan_rows_found (grid : grid_t) (is : List Nat) (st : Bool × choice_t)
    (h : st.1 = true) : is.foldl (grid_choice_scan_row grid) st = st := by
  induction is with
  | nil => rfl
  | cons i is ih =>
    rw [List.foldl_cons]
    have e : grid_choice_scan_row grid st i = st := scan_cols_found grid i _ st h
    rw [e]
    exact ih

theorem scan_rows_singletons (grid : grid_t) (is : List Nat) (st : Bool × choice_t)
    (hs : ∀ i ∈ is, ∀ j, j < grid.size → colors_is_singleton (grid_cell grid i j) = true) :
    is.foldl (grid_choice_scan_row grid) st = st := by
  induction is with
  | nil => rfl
  | cons i is ih =>
    rw [List.foldl_cons]
    have e : grid_choice_scan_row grid st i = st :=
      scan_cols_singletons grid i _ st
        (fun j hj => hs i (List.mem_cons_self i is) j (List.mem_range.1 hj))
    rw [e]
    exact ih (fun i' hi' => hs i' (List.mem_cons_of_mem i hi'))

theorem range_split_at {i size : Nat} (hi : i < size) :
    List.range size = List.range i ++ i :: (List.range (size - (i + 1))).map (fun x => i + 1 + x) := by
  have e : size = (i + 1) + (size - (i + 1)) := by omega
  conv => lhs; rw [e]
  rw [List.range_add, List.range_succ, List.append_assoc]
  rfl

/-- When every cell is a singleton the scan finds nothing. -/
theorem grid_choice_scan_none (grid : grid_t)
    (hs : ∀ i, i < grid.size → ∀ j, j < grid.size →
      colors_is_singleton (grid_cell grid i j) = true) :
    grid_choice_scan grid = (false, { row := 0, column := 0, color := 0 }) := by
  rw [grid_choice_scan_eq]
  exact scan_rows_singletons grid _ _ (fun i hi => hs i (List.mem_range.1 hi))

/-- The scan stops at the first cell, in row-major order, that is not a singleton. -/
theorem grid_choice_scan_first (grid : grid_t) (i j : Nat) (hi : i < grid.size)
    (hj : j < grid.size) (hns : colors_is_singleton (grid_cell grid i j) = false)
    (hrows : ∀ i', i' < i → ∀ j', j' < grid.size →
      colors_is_singleton (grid_cell grid i' j') = true)
    (hcols : ∀ j', j' < j → colors_is_singleton (grid_cell grid i j') = true) :
    grid_choice_scan grid = (true, { row := i, column := j, color := grid_cell grid i j }) := by
  rw [grid_choice_scan_eq, range_split_at hi, List.foldl_append, List.foldl_cons]
  rw [scan_rows_singletons grid (List.range i) _ (fun i' hi' => hrows i' (List.mem_range.1 hi'))]
  have hrow : grid_choice_scan_row grid (false, { row := 0, column := 0, color := 0 }) i =
      (true, { row := i, column := j, color := grid_cell grid i j }) := by
    unfold grid_choice_scan_row
    rw [range_split_at hj, List.foldl_append, List.foldl_cons]
    rw [scan_cols_singletons grid i (List.range j) _ (fun j' hj' => hcols j' (List.mem_range.1 hj'))]
    rw [if_neg Bool.false_ne_true, hns, if_neg Bool.false_ne_true]
    exact scan_cols_found grid i _ _ rfl
  rw [hrow]
  exact scan_rows_found grid _ _ rfl

theorem colors_random_set_eq (c : Nat) :
    colors_random_set c = (colors_list c).map colors_set := by
  unfold colors_random_set colors_list
  congr 1
  apply List.filter_congr
  intro j hj
  have hj64 : ¬ j ≥ 64 := Nat.not_le.2 (List.mem_range.1 hj)
  unfold colors_is_in MAX_COLORS
  rw [if_neg hj64, Nat.and_one_is_mod]
  rcases Nat.mod_two_eq_zero_or_one (c >>> j) with h | h <;> rw [h] <;> rfl

theorem mem_colors_list {c k : Nat} (hc : c < 2 ^ 64) :
    k ∈ colors_list c ↔ k < 64 ∧ c.testBit k = true := by
  unfold colors_list
  rw [List.mem_filter, List.mem_range, colors_is_in_eq_testBit c k hc]

theorem colors_list_length (c : Nat) (hc : c < 2 ^ 64) :
    (colors_list c).length = colors_count c := by
  rw [colors_count_bit_count c hc, ← popcount_eq_bit_count c hc]
  rfl

theorem colors_list_length_pos {c : Nat} (h0 : c ≠ 0) (hc : c < 2 ^ 64) :
    0 < (colors_list c).length := by
  obtain ⟨k, hk⟩ := Nat.ne_zero_implies_bit_true h0
  have hk64 : k < 64 := by
    by_contra hge
    have : c.testBit k = false :=
      Nat.testBit_lt_two_pow (Nat.lt_of_lt_of_le hc (Nat.pow_le_pow_right (by decide) (by omega)))
    rw [this] at hk
    exact Bool.noConfusion hk
  exact List.length_pos_of_mem ((mem_colors_list hc).2 ⟨hk64, hk⟩)

theorem getD_map_lt (f : Nat → Nat) (l : List Nat) {i : Nat} (hi : i < l.length) :
    (l.map f).getD i 0 = f (l.getD i 0) := by
  rw [List.getD_eq_getElem?_getD, List.getD_eq_getElem?_getD, List.getElem?_map,
    List.getElem?_eq_getElem hi]
  rfl

theorem getD_mem_of_lt (l : List Nat) {i : Nat} (hi : i < l.length) : l.getD i 0 ∈ l := by
  rw [List.getD_eq_getElem?_getD, List.getElem?_eq_getElem hi]
  exact List.getElem_mem hi

/-- For a non-empty 64-bit set of `k` colors, `colors_random` returns the singleton of
the `(r mod k)`-th lowest color, which is a singleton subset of the set. -/
theorem colors_random_eq (c r : Nat) (h0 : c ≠ 0) (hc : c < 2 ^ 64) :
    colors_random c r =
      colors_set ((colors_list c).getD (r % (colors_list c).length) 0) ∧
    colors_is_singleton (colors_random c r) = true ∧
    colors_is_subset (colors_random c r) c = true := by
  have hpos := colors_list_length_pos h0 hc
  have hlt : r % (colors_list c).length < (colors_list c).length := Nat.mod_lt _ hpos
  have heq : colors_random c r =
      colors_set ((colors_list c).getD (r % (colors_list c).length) 0) := by
    unfold colors_random
    have hb : (c == 0) = false := beq_eq_false_iff_ne.2 h0
    rw [hb, colors_random_set_eq, ← colors_list_length c hc]
    simp only [Bool.false_eq_true, if_false]
    exact getD_map_lt colors_set _ hlt
  have hmem := (mem_colors_list hc).1 (getD_mem_of_lt (colors_list c) hlt)
  refine ⟨heq, ?_, ?_⟩
  · rw [heq, colors_set_eq_two_pow hmem.1]
    exact colors_is_singleton_two_pow _
  · rw [heq, colors_set_eq_two_pow hmem.1]
    exact two_pow_subset_of_testBit hmem.2

/-- C22: when every cell of the grid is a singleton, `grid_choice` returns a choice with
the empty color. Otherwise its row and column are those of the first cell, in row-major
order, that is not a singleton; in deterministic mode the color is `colors_leftmost` of
that cell; in random mode, when the cell has `k > 0` colors and the random source returns
`r`, the color is the singleton of the `(r mod k)`-th lowest color of the cell; in both
modes the color is a singleton subset of the cell whenever the cell is not empty. -/
theorem grid_choice_spec (rand : Nat → Nat) (grid : grid_t) (random : Bool) (w : world)
    (hcells : ∀ i, i < grid.size → ∀ j, j < grid.size → grid_cell grid i j < 2 ^ 64) :
    ((∀ i, i < grid.size → ∀ j, j < grid.size →
        colors_is_singleton (grid_cell grid i j) = true) →
      (grid_choice rand grid random w).1.color = colors_empty) ∧
    (∀ i, i < grid.size → ∀ j, j < grid.size →
      colors_is_singleton (grid_cell grid i j) = false →
      (∀ i', i' < i → ∀ j', j' < grid.size →
        colors_is_singleton (grid_cell grid i' j') = true) →
      (∀ j', j' < j → colors_is_singleton (grid_cell grid i j') = true) →
      (grid_choice rand grid random w).1.row = i ∧
      (grid_choice rand grid random w).1.column = j ∧
      (random = false →
        (grid_choice rand grid random w).1.color = colors_leftmost (grid_cell grid i j)) ∧
      (random = true → grid_cell grid i j ≠ colors_empty →
        (colors_list (grid_cell grid i j)).length = colors_count (grid_cell grid i j) ∧
        (grid_choice rand grid random w).1.color =
          colors_set ((colors_list (grid_cell grid i j)).getD
            (rand w.rand_calls % (colors_list (grid_cell grid i j)).length) 0)) ∧
      (grid_cell grid i j ≠ colors_empty →
        colors_is_singleton (grid_choice rand grid random w).1.color = true ∧
        colors_is_subset (grid_choice rand grid random w).1.color (grid_cell grid i j) =
          true)) := by
  constructor
  · intro hs
    unfold grid_choice
    rw [grid_choice_scan_none grid hs]
    cases random
    · rfl
    · rfl
  · intro i hi j hj hns hrows hcols
    have hscan := grid_choice_scan_first grid i j hi hj hns hrows hcols
    have hc := hcells i hi j hj
    unfold colors_empty
    cases random
    · have hch : grid_choice rand grid false w =
          ({ row := i, column := j, color := colors_leftmost (grid_cell grid i j) }, w) := by
        unfold grid_choice
        rw [hscan]
        rfl
      rw [hch]
      refine ⟨rfl, rfl, fun _ => rfl, fun h => Bool.noConfusion h, ?_⟩
      intro h0
      obtain ⟨k, hk, hbit, _, heq⟩ := colors_leftmost_two_pow _ h0 hc
      dsimp only
      rw [heq]
      exact ⟨colors_is_singleton_two_pow k, two_pow_subset_of_testBit hbit⟩
    · by_cases h0 : grid_cell grid i j = 0
      · have hch : grid_choice rand grid true w =
            ({ row := i, column := j, color := 0 }, w) := by
          unfold grid_choice
          rw [hscan]
          dsimp only
          rw [if_pos rfl, if_pos (beq_iff_eq.2 h0)]
        rw [hch]
        exact ⟨rfl, rfl, fun h => Bool.noConfusion h, fun _ h => absurd h0 h,
          fun h => absurd h0 h⟩
      · have hch : grid_choice rand grid true w =
            ({ row := i, column := j,
               color := colors_random (grid_cell grid i j) (rand w.rand_calls) },
             { w with rand_calls := w.rand_calls + 1 }) := by
          unfold grid_choice
          rw [hscan]
          dsimp only
          rw [if_pos rfl, if_neg (fun h => h0 (beq_iff_eq.1 h))]
        rw [hch]
        obtain ⟨h1, h2, h3⟩ := colors_random_eq (grid_cell grid i j) (rand w.rand_calls) h0 hc
        exact ⟨rfl, rfl, fun h => Bool.noConfusion h,
          fun _ _ => ⟨colors_list_length _ hc, h1⟩, fun _ => ⟨h2, h3⟩⟩

/-- Witness for C22 on `stuck_grid`, whose first cell `{1,2,3,4}` is not a singleton,
with a random source that returns 6: the third lowest color is chosen. -/
theorem grid_choice_spec_witness :
    (∀ i, i < stuck_grid.size → ∀ j, j < stuck_grid.size →
      grid_cell stuck_grid i j < 2 ^ 64) ∧
    grid_cell stuck_grid 0 0 = 15 ∧
    (grid_choice (fun _ => 6) stuck_grid true ⟨0, 0⟩).1 = { row := 0, column := 0, color := 4 } ∧
    (grid_choice (fun _ => 6) stuck_grid false ⟨0, 0⟩).1 = { row := 0, column := 0, color := 8 } ∧
    (grid_choice (fun _ => 6) stuck_grid true ⟨0, 0⟩).1.row = 0 ∧
    (grid_choice (fun _ => 6) stuck_grid true ⟨0, 0⟩).1.column = 0 :=
  have h := (grid_choice_spec (fun _ => 6) stuck_grid true ⟨0, 0⟩ (by decide)).2
    0 (by decide) 0 (by decide) (by decide) (fun _ h => absurd h (Nat.not_lt_zero _))
    (fun _ h => absurd h (Nat.not_lt_zero _))
  ⟨by decide, by decide, by decide!, by decide!, h.1, h.2.1⟩

theorem grid_put_row_ne (grid : grid_t) (j v : Nat) {i : Nat} (hi : i ≠ 0) :
    (grid_put grid 0 j v).cells.getD i [] = grid.cells.getD i [] := by
  unfold grid_put
  simp only [List.getD_eq_getElem?_getD]
  rw [List.getElem?_set_ne (fun e => hi e.symm)]

/-- The first loop of grid_initialize stores the singleton of `j` in the cell `j` of
row 0 and leaves the other rows as they are. -/
theorem initialize_fold (n : Nat) (grid : grid_t) (hshape : grid_shape n grid) (hn : 0 < n)
    (m : Nat) (hm : m ≤ n) :
    grid_shape n ((List.range m).foldl (fun g i => grid_put g 0 i (colors_set i)) grid) ∧
    (∀ i, i ≠ 0 →
      ((List.range m).foldl (fun g i => grid_put g 0 i (colors_set i)) grid).cells.getD i [] =
        grid.cells.getD i []) ∧
    (∀ j, grid_cell ((List.range m).foldl (fun g i => grid_put g 0 i (colors_set i)) grid) 0 j =
      if j < m then colors_set j else grid_cell grid 0 j) := by
  induction m with
  | zero =>
    refine ⟨hshape, fun _ _ => rfl, fun j => ?_⟩
    rw [if_neg (Nat.not_lt_zero j)]
    rfl
  | succ m ih =>
    obtain ⟨h1, h2, h3⟩ := ih (by omega)
    rw [List.range_succ, List.foldl_append, List.foldl_cons, List.foldl_nil]
    generalize (List.range m).foldl (fun g i => grid_put g 0 i (colors_set i)) grid = g
      at h1 h2 h3 ⊢
    refine ⟨grid_put_shape h1 _ _ _, ?_, ?_⟩
    · intro i hi
      rw [grid_put_row_ne g m _ hi]
      exact h2 i hi
    · intro j
      rw [grid_cell_put h1 _ hn (by omega : m < n), h3 j]
      by_cases hj : j = m
      · subst hj
        rw [if_pos ⟨rfl, rfl⟩, if_pos (Nat.lt_succ_self j)]
      · rw [if_neg (fun h => hj h.2)]
        by_cases hlt : j < m
        · rw [if_pos hlt, if_pos (by omega)]
        · rw [if_neg hlt, if_neg (by omega)]

theorem row_eq_map_range (row : List Nat) (n : Nat) (f : Nat → Nat) (hlen : row.length = n)
    (h : ∀ j, j < n → row.getD j 0 = f j) : row = (List.range n).map f := by
  have e := map_range_getD row
  rw [hlen] at e
  rw [← e]
  apply List.map_congr_left
  intro j hj
  exact h j (List.mem_range.1 hj)

theorem countP_singleton_range (n k : Nat) (hk : k < n) (hn : n ≤ 64) :
    ((List.range n).map colors_set).countP (fun c => colors_is_in c k) = 1 := by
  rw [List.countP_map]
  have hf : ∀ i ∈ List.range n, ((fun c => colors_is_in c k) ∘ colors_set) i = (i == k) := by
    intro i hi
    have hi64 : i < 64 := Nat.lt_of_lt_of_le (List.mem_range.1 hi) hn
    show colors_is_in (colors_set i) k = (i == k)
    rw [colors_set_eq_two_pow hi64,
      colors_is_in_eq_testBit _ k (Nat.pow_lt_pow_right (by decide) hi64), Nat.testBit_two_pow]
    by_cases h : i = k <;> simp [h]
  rw [List.countP_congr (fun i hi => by rw [hf i hi])]
  have hc : (List.range n).countP (fun i => i == k) = (List.range n).count k := rfl
  rw [hc, List.count_eq_one_of_mem (List.nodup_range n) (List.mem_range.2 hk)]

/-- C23: on a grid of supported size `N`, whatever the random source returns, after
grid_initialize row 0 is a permutation of the `N` singletons: every cell of row 0 is a
singleton, each color below `N` occurs in exactly one cell of row 0, and the other rows
and the size are unchanged. -/
theorem grid_initialize_spec (rand : Nat → Nat) (grid : grid_t) (w : world) (n : Nat)
    (hshape : grid_shape n grid) (hsize : grid_check_size n = true) :
    (( grid_initialize rand grid w).1.cells.getD 0 []).Perm ((List.range n).map colors_set) ∧
    (∀ j, j < n → colors_is_singleton (grid_cell ( grid_initialize rand grid w).1 0 j) = true) ∧
    (∀ k, k < n →
      ((List.range n).filter
        (fun j => colors_is_in (grid_cell ( grid_initialize rand grid w).1 0 j) k)).length = 1) ∧
    (∀ i, i ≠ 0 →
      ( grid_initialize rand grid w).1.cells.getD i [] = grid.cells.getD i []) ∧
    ( grid_initialize rand grid w).1.size = grid.size := by
  have hn := grid_check_size_pos hsize
  have hn64 := grid_check_size_le hsize
  have hgs : grid.size = n := hshape.1
  obtain ⟨f1, f2, f3⟩ := initialize_fold n grid hshape hn n (Nat.le_refl n)
  have hrow0 : ∀ g : grid_t, grid_shape n g → (g.cells.getD 0 []).length = n := by
    intro g hg
    have h0 : 0 < g.cells.length := by rw [hg.2.1]; exact hn
    rw [List.getD_eq_getElem?_getD, List.getElem?_eq_getElem h0]
    exact hg.2.2 _ (List.getElem_mem h0)
  unfold grid_initialize
  dsimp only
  rw [hgs]
  generalize (List.range n).foldl (fun g i => grid_put g 0 i (colors_set i)) grid = g1
    at f1 f2 f3 ⊢
  have hlen1 := hrow0 g1 f1
  have hrow1 : g1.cells.getD 0 [] = (List.range n).map colors_set := by
    apply row_eq_map_range _ n colors_set hlen1
    intro j hj
    have := f3 j
    rw [if_pos hj] at this
    exact this
  have hperm := shuffle_loop_perm rand g1.size (g1.cells.getD 0 []) w (by rw [hlen1, f1.1])
  generalize (shuffle_loop rand g1.size (g1.cells.getD 0 []) w).1 = r at hperm
  have h0 : 0 < g1.cells.length := by rw [f1.2.1]; exact hn
  have hres : (g1.cells.set 0 r).getD 0 [] = r := by
    rw [List.getD_eq_getElem?_getD, List.getElem?_set_self h0]
    rfl
  rw [hrow1] at hperm
  have hrlen : r.length = n := by
    rw [hperm.length_eq, List.length_map, List.length_range]
  have hcell : ∀ j, grid_cell { g1 with cells := g1.cells.set 0 r } 0 j = r.getD j 0 := by
    intro j
    unfold grid_cell
    rw [hres]
  refine ⟨?_, ?_, ?_, ?_, ?_⟩
  · rw [hres]
    exact hperm
  · intro j hj
    rw [hcell j]
    have hmem : r.getD j 0 ∈ (List.range n).map colors_set :=
      hperm.subset (getD_mem_of_lt r (by omega))
    obtain ⟨k, hk, hke⟩ := List.mem_map.1 hmem
    rw [← hke, colors_set_eq_two_pow (Nat.lt_of_lt_of_le (List.mem_range.1 hk) hn64)]
    exact colors_is_singleton_two_pow k
  · intro k hk
    have e : (List.range n).filter
        (fun j => colors_is_in (grid_cell { g1 with cells := g1.cells.set 0 r } 0 j) k) =
        (List.range n).filter (fun j => colors_is_in (r.getD j 0) k) := by
      apply List.filter_congr
      intro j _
      rw [hcell j]
    rw [e, ← List.countP_eq_length_filter]
    have hm : (List.range n).countP (fun j => colors_is_in (r.getD j 0) k) =
        r.countP (fun c => colors_is_in c k) := by
      have := List.countP_map (fun c => colors_is_in c k) (fun j => r.getD j 0) (List.range n)
      rw [← hrlen, map_range_getD] at this
      rw [← hrlen]
      exact this.symm
    rw [hm, hperm.countP_eq]
    exact countP_singleton_range n k hk hn64
  · intro i hi
    show (g1.cells.set 0 r).getD i [] = grid.cells.getD i []
    rw [← f2 i hi]
    simp only [List.getD_eq_getElem?_getD]
    rw [List.getElem?_set_ne (fun e => hi e.symm)]
  · exact f1.1

/-- Witness for C23 on `stuck_grid` with a random source that returns 1, 0, 0, ... -/
theorem grid_initialize_spec_witness :
    grid_shape 4 stuck_grid ∧ grid_check_size 4 = true ∧
    ( grid_initialize (fun i => if i = 0 then 1 else 0) stuck_grid ⟨0, 0⟩).1.cells =
      [[8, 4, 1, 2], [1, 4, 15, 15], [15, 15, 15, 15], [15, 15, 15, 15]] ∧
    (( grid_initialize (fun i => if i = 0 then 1 else 0) stuck_grid ⟨0, 0⟩).1.cells.getD 0 []).Perm
      ((List.range 4).map colors_set) :=
  have hs : grid_shape 4 stuck_grid := ⟨rfl, rfl, by decide⟩
  ⟨hs, by decide, by decide!,
    (grid_initialize_spec (fun i => if i = 0 then 1 else 0) stuck_grid ⟨0, 0⟩ 4 hs
      (by decide)).1⟩

theorem add_two_pow_eq_or {p i : Nat} (hp : p < 2 ^ i) : p + 2 ^ i = p ||| 2 ^ i := by
  apply Nat.eq_of_testBit_eq
  intro j
  have e : p + 2 ^ i = 2 ^ i * 1 + p := by omega
  rw [e, Nat.testBit_mul_pow_two_add 1 hp, Nat.testBit_or, Nat.testBit_two_pow]
  by_cases hj : j < i
  · have hne : ¬ i = j := by omega
    simp [hj, hne]
  · have hpj : p.testBit j = false :=
      Nat.testBit_lt_two_pow (Nat.lt_of_lt_of_le hp (Nat.pow_le_pow_right (by decide) (by omega)))
    rw [if_neg hj, hpj, Bool.false_or]
    by_cases hij : i = j
    · subst hij
      simp
    · have h1 : j - i ≠ 0 := by omega
      have h2 : (1 : Nat).testBit (j - i) = false := by
        apply Nat.testBit_lt_two_pow
        exact Nat.one_lt_two_pow h1
      rw [h2]
      simp [hij]

theorem colors_is_in_lt (c : Nat) {k : Nat} (hk : k < 64) : colors_is_in c k = c.testBit k := by
  unfold colors_is_in MAX_COLORS
  rw [if_neg (by omega), Nat.testBit_to_div_mod, Nat.shiftRight_eq_div_pow]
  by_cases h : c / 2 ^ k % 2 = 1 <;> simp [h]

/-- A loop that replaces each of the first `n` entries by a function of its index and its
value. -/
theorem foldl_set_each (h : Nat → Nat → Nat) (l : List Nat) (n : Nat) :
    ((List.range n).foldl (fun (p : List Nat) j => p.set j (h j (p.getD j 0))) l).length =
      l.length ∧
    ∀ j, j < l.length →
      ((List.range n).foldl (fun (p : List Nat) j => p.set j (h j (p.getD j 0))) l).getD j 0 =
        if j < n then h j (l.getD j 0) else l.getD j 0 := by
  induction n with
  | zero =>
    refine ⟨rfl, fun j _ => ?_⟩
    rw [if_neg (Nat.not_lt_zero j)]
    rfl
  | succ n ih =>
    obtain ⟨h1, h2⟩ := ih
    rw [List.range_succ, List.foldl_append, List.foldl_cons, List.foldl_nil]
    generalize (List.range n).foldl (fun (p : List Nat) j => p.set j (h j (p.getD j 0))) l = q
      at h1 h2 ⊢
    refine ⟨by rw [List.length_set, h1], ?_⟩
    intro j hj
    rw [getD_set]
    by_cases hjn : j = n
    · subst hjn
      rw [if_pos ⟨rfl, by omega⟩, if_pos (Nat.lt_succ_self j), h2 j hj,
        if_neg (Nat.lt_irrefl j)]
    · rw [if_neg (fun e => hjn e.1), h2 j hj]
      by_cases hlt : j < n
      · rw [if_pos hlt, if_pos (by omega)]
      · rw [if_neg hlt, if_neg (by omega)]

theorem testBit_position_set (subgrid : List Nat) (j k : Nat) (hlen : subgrid.length ≤ 64) :
    (position_set subgrid j).testBit k =
      (decide (k < subgrid.length) && colors_is_in (subgrid.getD k 0) j) := by
  unfold position_set
  rw [foldl_congr_mem _
    (fun a k => if colors_is_in (subgrid.getD k 0) j = true then a ||| 2 ^ k else a)]
  · rw [testBit_foldl_cond (fun k => colors_is_in (subgrid.getD k 0) j = true)]
    by_cases h1 : k < subgrid.length <;> cases h2 : colors_is_in (subgrid.getD k 0) j <;>
      simp [h1, h2]
  · intro a i hi
    rw [colors_set_eq_two_pow (Nat.lt_of_lt_of_le (List.mem_range.1 hi) hlen)]

theorem position_fold_lt (subgrid : List Nat) (j m : Nat) :
    (List.range m).foldl
      (fun a k => if colors_is_in (subgrid.getD k 0) j then a ||| 2 ^ k else a) 0 < 2 ^ m := by
  induction m with
  | zero => simp
  | succ m ih =>
    rw [List.range_succ, List.foldl_append, List.foldl_cons, List.foldl_nil]
    have hlt : (List.range m).foldl
        (fun a k => if colors_is_in (subgrid.getD k 0) j then a ||| 2 ^ k else a) 0 < 2 ^ (m + 1) :=
      Nat.lt_of_lt_of_le ih (Nat.pow_le_pow_right (by decide) (Nat.le_succ m))
    split
    · exact Nat.or_lt_two_pow hlt (Nat.pow_lt_pow_right (by decide) (Nat.lt_succ_self m))
    · exact hlt

/-- The table `position` computed by `hidden_subset`: entry `j` is the set of the
indices of the cells that contain the color `j`. -/
theorem hidden_subset_position_spec (subgrid : List Nat) (size : Nat)
    (hlen : subgrid.length = size) (hsize : size ≤ 64) :
    (hidden_subset_position subgrid size).length = size ∧
    ∀ j, j < size → (hidden_subset_position subgrid size).getD j 0 = position_set subgrid j := by
  subst hlen
  have key : ∀ m, m ≤ subgrid.length →
      ((List.range m).foldl
        (fun position i =>
          (List.range subgrid.length).foldl
            (fun position j =>
              if colors_is_in (subgrid.getD i 0) j then
                position.set j ((position.getD j 0 + colors_set i) % 2 ^ 64)
              else position)
            position)
        (List.replicate subgrid.length 0)).length = subgrid.length ∧
      ∀ j, j < subgrid.length →
        ((List.range m).foldl
          (fun position i =>
            (List.range subgrid.length).foldl
              (fun position j =>
                if colors_is_in (subgrid.getD i 0) j then
                  position.set j ((position.getD j 0 + colors_set i) % 2 ^ 64)
                else position)
              position)
          (List.replicate subgrid.length 0)).getD j 0 =
        (List.range m).foldl
          (fun a k => if colors_is_in (subgrid.getD k 0) j then a ||| 2 ^ k else a) 0 := by
    intro m
    induction m with
    | zero =>
      intro _
      refine ⟨List.length_replicate _ _, fun j hj => ?_⟩
      simp [List.getD_eq_getElem?_getD, hj]
    | succ m ih =>
      intro hm
      obtain ⟨h1, h2⟩ := ih (by omega)
      rw [List.range_succ, List.foldl_append, List.foldl_cons, List.foldl_nil]
      generalize (List.range m).foldl
        (fun position i =>
          (List.range subgrid.length).foldl
            (fun position j =>
              if colors_is_in (subgrid.getD i 0) j then
                position.set j ((position.getD j 0 + colors_set i) % 2 ^ 64)
              else position)
            position)
        (List.replicate subgrid.length 0) = q at h1 h2 ⊢
      have hstep : (fun (position : List Nat) j =>
            if colors_is_in (subgrid.getD m 0) j then
              position.set j ((position.getD j 0 + colors_set m) % 2 ^ 64)
            else position) =
          fun (p : List Nat) j => p.set j
            ((fun j v => if colors_is_in (subgrid.getD m 0) j then (v + colors_set m) % 2 ^ 64
              else v) j (p.getD j 0)) := by
        funext p j
        dsimp only
        split
        · rfl
        · rw [set_getD_self]
      rw [hstep]
      obtain ⟨e1, e2⟩ := foldl_set_each
        (fun j v => if colors_is_in (subgrid.getD m 0) j then (v + colors_set m) % 2 ^ 64 else v)
        q subgrid.length
      refine ⟨by rw [e1, h1], ?_⟩
      intro j hj
      rw [e2 j (by omega), if_pos hj, h2 j hj]
      have hm64 : m < 64 := by omega
      have hlt := position_fold_lt subgrid j m
      rw [List.foldl_append, List.foldl_cons, List.foldl_nil]
      by_cases hc : colors_is_in (subgrid.getD m 0) j = true
      · rw [if_pos hc, if_pos hc, colors_set_eq_two_pow hm64, add_two_pow_eq_or hlt]
        apply Nat.mod_eq_of_lt
        have : 2 ^ (m + 1) ≤ 2 ^ 64 := Nat.pow_le_pow_right (by decide) (by omega)
        exact Nat.lt_of_lt_of_le
          (Nat.or_lt_two_pow (Nat.lt_of_lt_of_le hlt (Nat.pow_le_pow_right (by decide) (Nat.le_succ m)))
            (Nat.pow_lt_pow_right (by decide) (Nat.lt_succ_self m))) this
      · rw [if_neg hc, if_neg hc]
  obtain ⟨k1, k2⟩ := key subgrid.length (Nat.le_refl _)
  refine ⟨k1, fun j hj => ?_⟩
  have := k2 j hj
  unfold hidden_subset_position position_set
  rw [this]
  apply foldl_congr_mem
  intro a i hi
  rw [colors_set_eq_two_pow (Nat.lt_of_lt_of_le (List.mem_range.1 hi) hsize)]

theorem hidden_subset_eq_steps (subgrid : List Nat) (size : Nat) :
    hidden_subset subgrid size =
      (List.range size).foldl (hidden_subset_step (hidden_subset_position subgrid size) size)
        (false, subgrid) := rfl

theorem cond_fold_lt (p : Nat → Bool) (m : Nat) :
    (List.range m).foldl (fun a k => if p k then a ||| 2 ^ k else a) 0 < 2 ^ m := by
  induction m with
  | zero => simp
  | succ m ih =>
    rw [List.range_succ, List.foldl_append, List.foldl_cons, List.foldl_nil]
    have hlt : (List.range m).foldl (fun a k => if p k then a ||| 2 ^ k else a) 0 < 2 ^ (m + 1) :=
      Nat.lt_of_lt_of_le ih (Nat.pow_le_pow_right (by decide) (Nat.le_succ m))
    split
    · exact Nat.or_lt_two_pow hlt (Nat.pow_lt_pow_right (by decide) (Nat.lt_succ_self m))
    · exact hlt

theorem count_sum_fold (p : Nat → Bool) (m : Nat) (hm : m ≤ 64) :
    (List.range m).foldl
      (fun (cs : Nat × Nat) j => if p j then (cs.1 + 1, (cs.2 + colors_set j) % 2 ^ 64) else cs)
      (0, 0) =
    (((List.range m).filter p).length,
      (List.range m).foldl (fun a k => if p k then a ||| 2 ^ k else a) 0) := by
  induction m with
  | zero => rfl
  | succ m ih =>
    rw [List.range_succ, List.foldl_append, List.foldl_cons, List.foldl_nil, ih (by omega),
      List.foldl_append, List.foldl_cons, List.foldl_nil, List.filter_append, List.length_append]
    have hlt := cond_fold_lt p m
    cases hp : p m
    · simp [hp]
    · simp only [hp, if_true, List.filter_cons_of_pos, List.filter_nil, List.length_singleton]
      rw [colors_set_eq_two_pow (by omega : m < 64), add_two_pow_eq_or hlt, Nat.mod_eq_of_lt]
      have : 2 ^ (m + 1) ≤ 2 ^ 64 := Nat.pow_le_pow_right (by decide) (by omega)
      exact Nat.lt_of_lt_of_le
        (Nat.or_lt_two_pow (Nat.lt_of_lt_of_le hlt (Nat.pow_le_pow_right (by decide) (Nat.le_succ m)))
          (Nat.pow_lt_pow_right (by decide) (Nat.lt_succ_self m))) this

theorem hidden_colors_eq (subgrid : List Nat) (i : Nat) (hlen : subgrid.length ≤ 64) :
    hidden_colors subgrid i =
      (List.range subgrid.length).foldl
        (fun a k => if hidden_member subgrid i k then a ||| 2 ^ k else a) 0 := by
  unfold hidden_colors
  apply foldl_congr_mem
  intro a j hj
  rw [colors_set_eq_two_pow (Nat.lt_of_lt_of_le (List.mem_range.1 hj) hlen)]

theorem testBit_hidden_colors (subgrid : List Nat) (i j : Nat) (hlen : subgrid.length ≤ 64) :
    (hidden_colors subgrid i).testBit j =
      (decide (j < subgrid.length) && hidden_member subgrid i j) := by
  rw [hidden_colors_eq subgrid i hlen,
    testBit_foldl_cond (fun k => hidden_member subgrid i k = true)]
  by_cases h1 : j < subgrid.length <;> cases h2 : hidden_member subgrid i j <;> simp [h1, h2]

/-- The counting loop of `hidden_subset` computes the number and the set of the colors of
the color subset of `i`. -/
theorem hidden_subset_cs_spec (subgrid : List Nat) (size i : Nat)
    (hlen : subgrid.length = size) (hsize : size ≤ 64) (hi : i < size) :
    hidden_subset_cs (hidden_subset_position subgrid size) size i =
      (hidden_count subgrid i, hidden_colors subgrid i) := by
  obtain ⟨_, hpos⟩ := hidden_subset_position_spec subgrid size hlen hsize
  unfold hidden_subset_cs
  rw [foldl_congr_mem _
    (fun (cs : Nat × Nat) j =>
      if hidden_member subgrid i j then (cs.1 + 1, (cs.2 + colors_set j) % 2 ^ 64) else cs)]
  · rw [count_sum_fold _ size hsize, hidden_colors_eq subgrid i (by omega)]
    unfold hidden_count
    rw [hlen]
  · intro cs j hj
    rw [hpos j (List.mem_range.1 hj), hpos i hi]
    unfold hidden_member
    cases colors_is_singleton (position_set subgrid j) <;>
      cases colors_is_subset (position_set subgrid j) (position_set subgrid i) <;> rfl

theorem pointwise_fold_snd (g : Nat → Nat) (js : List Nat) (b b' : Bool) (l : List Nat) :
    (js.foldl (pointwise_step g) (b, l)).2 = (js.foldl (pointwise_step g) (b', l)).2 := by
  induction js generalizing b b' l with
  | nil => rfl
  | cons j js ih =>
    rw [List.foldl_cons, List.foldl_cons]
    unfold pointwise_step
    dsimp only
    split
    · exact ih _ _ _
    · exact ih _ _ _

theorem hidden_subset_elide_eq (size set : Nat) (st : Bool × List Nat) :
    hidden_subset_elide size set st =
      (List.range size).foldl (pointwise_step (hidden_subset_cell set)) st := by
  unfold hidden_subset_elide
  congr 1
  funext st j
  unfold pointwise_step hidden_subset_cell
  dsimp only
  by_cases h : (st.2.getD j 0 &&& set != 0 && st.2.getD j 0 &&& set != st.2.getD j 0) = true
  · rw [if_pos h, if_pos h]
    have h2 : (st.2.getD j 0 &&& set != st.2.getD j 0) = true := by
      rw [Bool.and_eq_true] at h
      exact h.2
    rw [if_pos h2]
  · rw [if_neg h, if_neg h]
    rw [if_neg]
    simp

/-- The cells after the last loop of `hidden_subset`. -/
theorem hidden_subset_elide_getD (size set : Nat) (st : Bool × List Nat)
    (hsize : size ≤ st.2.length) (k : Nat) :
    (hidden_subset_elide size set st).2.getD k 0 =
      if k < size then hidden_subset_cell set (st.2.getD k 0) else st.2.getD k 0 := by
  rw [hidden_subset_elide_eq]
  have e : st = (st.1, st.2) := rfl
  rw [e, pointwise_fold_snd _ _ st.1 false]
  exact (foldl_pointwise (hidden_subset_cell set) st.2 size hsize).2.1 k

theorem hidden_subset_elide_length (size set : Nat) (st : Bool × List Nat)
    (hsize : size ≤ st.2.length) :
    (hidden_subset_elide size set st).2.length = st.2.length := by
  rw [hidden_subset_elide_eq]
  have e : st = (st.1, st.2) := rfl
  rw [e, pointwise_fold_snd _ _ st.1 false]
  exact (foldl_pointwise (hidden_subset_cell set) st.2 size hsize).1

theorem hidden_subset_cell_subset (set c : Nat) :
    hidden_subset_cell set c &&& c = hidden_subset_cell set c := by
  unfold hidden_subset_cell
  split
  · exact land_subset_left c set
  · exact Nat.and_self c

theorem hidden_subset_elide_subset (size set : Nat) (st : Bool × List Nat) :
    cells_subset (hidden_subset_elide size set st).2 st.2 := by
  unfold hidden_subset_elide
  refine foldl_invariant (fun s : Bool × List Nat => cells_subset s.2 st.2) _ _ _
    (cells_subset_refl _) ?_
  intro s j _ hs
  dsimp only
  split
  · exact cells_subset_set hs j _ (land_subset_left _ _)
  · exact hs

theorem hidden_subset_step_subset (position : List Nat) (size : Nat) (st : Bool × List Nat)
    (i : Nat) : cells_subset (hidden_subset_step position size st i).2 st.2 := by
  unfold hidden_subset_step
  split
  · exact cells_subset_refl _
  · split
    · exact cells_subset_refl _
    · exact hidden_subset_elide_subset _ _ _

theorem hidden_subset_steps_subset (position : List Nat) (size : Nat) (l : List Nat)
    (st : Bool × List Nat) :
    cells_subset (l.foldl (hidden_subset_step position size) st).2 st.2 := by
  induction l generalizing st with
  | nil => exact cells_subset_refl _
  | cons i l ih =>
    rw [List.foldl_cons]
    intro j
    exact subset_trans (ih _ j) (hidden_subset_step_subset position size st i j)

theorem hidden_subset_step_length (position : List Nat) (size : Nat) (st : Bool × List Nat)
    (i : Nat) (h : st.2.length = size) :
    (hidden_subset_step position size st i).2.length = size := by
  unfold hidden_subset_step
  split
  · exact h
  · split
    · exact h
    · rw [hidden_subset_elide_length _ _ _ (by omega)]
      exact h

theorem hidden_subset_steps_length (position : List Nat) (size : Nat) (l : List Nat)
    (st : Bool × List Nat) (h : st.2.length = size) :
    (l.foldl (hidden_subset_step position size) st).2.length = size :=
  foldl_invariant (fun s : Bool × List Nat => s.2.length = size) _ _ _ h
    (fun s i _ hs => hidden_subset_step_length position size s i hs)

/-- A set that is inside `s` or disjoint from `s` keeps this property when it shrinks. -/
theorem inside_or_disjoint_subset {c d s : Nat} (hd : d &&& c = d)
    (hc : c &&& s = c ∨ c &&& s = 0) : d &&& s = d ∨ d &&& s = 0 := by
  rcases hc with h | h
  · left
    rw [← hd, Nat.and_assoc, h]
  · right
    rw [← hd, Nat.and_assoc, h, Nat.and_zero]

theorem hidden_subset_cell_inside (s c : Nat) :
    hidden_subset_cell s c &&& s = hidden_subset_cell s c ∨ hidden_subset_cell s c &&& s = 0 := by
  unfold hidden_subset_cell
  by_cases h : (c &&& s != 0 && c &&& s != c) = true
  · rw [if_pos h]
    left
    rw [Nat.and_assoc, Nat.and_self]
  · rw [if_neg h]
    rw [Bool.and_eq_true, not_and_or] at h
    rcases h with h | h
    · right
      simpa using h
    · left
      simpa using h

/-- A cell whose index lies outside the position set of `i` holds no color of the color
subset of `i`. -/
theorem land_hidden_colors_eq_zero (subgrid : List Nat) (i k : Nat) (hlen : subgrid.length ≤ 64)
    (hk : colors_is_in (position_set subgrid i) k = false) (c : Nat)
    (hc : c &&& subgrid.getD k 0 = c) : c &&& hidden_colors subgrid i = 0 := by
  apply Nat.eq_of_testBit_eq
  intro j
  rw [Nat.zero_testBit, Nat.testBit_and]
  by_contra hne
  have hboth : c.testBit j = true ∧ (hidden_colors subgrid i).testBit j = true := by
    cases h1 : c.testBit j <;> cases h2 : (hidden_colors subgrid i).testBit j <;>
      simp [h1, h2] at hne ⊢
  obtain ⟨hcj, hsj⟩ := hboth
  rw [testBit_hidden_colors subgrid i j hlen, Bool.and_eq_true, decide_eq_true_eq] at hsj
  obtain ⟨hjlen, hmem⟩ := hsj
  unfold hidden_member at hmem
  rw [Bool.and_eq_true, colors_is_subset_iff] at hmem
  have hinput : (subgrid.getD k 0).testBit j = true := by
    have := congrArg (fun x => x.testBit j) hc
    simp only [Nat.testBit_and, hcj, Bool.true_and] at this
    exact this
  have hklen : k < subgrid.length := by
    by_contra hge
    rw [List.getD_eq_default _ _ (Nat.le_of_not_lt hge), Nat.zero_testBit] at hinput
    exact Bool.noConfusion hinput
  have hj64 : j < 64 := by omega
  have hk64 : k < 64 := by omega
  have hpj : (position_set subgrid j).testBit k = true := by
    rw [testBit_position_set subgrid j k hlen, colors_is_in_lt _ hj64, hinput]
    simp [hklen]
  have hpi : (position_set subgrid i).testBit k = true := by
    have := congrArg (fun x => x.testBit k) hmem.2
    simp only [Nat.testBit_and, hpj, Bool.true_and] at this
    exact this
  rw [colors_is_in_lt _ hk64, hpi] at hk
  exact Bool.noConfusion hk

/-- C21 (amended): for a unit of length `N ≤ 64` and every color `i` whose position set is
not a singleton and whose color subset has as many colors as the position set has cells:
after `hidden_subset` every cell is a subset of that color subset or holds none of its
colors; and a cell whose index lies in no such position set is unchanged. -/
theorem hidden_subset_spec (subgrid : List Nat) (size : Nat) (hlen : subgrid.length = size)
    (hsize : size ≤ 64) :
    (∀ i, i < size → colors_is_singleton (position_set subgrid i) = false →
      hidden_count subgrid i = colors_count (position_set subgrid i) →
      ∀ k,
        colors_is_subset ((hidden_subset subgrid size).2.getD k 0) (hidden_colors subgrid i) =
          true ∨
        colors_and ((hidden_subset subgrid size).2.getD k 0) (hidden_colors subgrid i) =
          colors_empty) ∧
    (∀ k,
      (∀ i, i < size → colors_is_singleton (position_set subgrid i) = false →
        hidden_count subgrid i = colors_count (position_set subgrid i) →
        colors_is_in (position_set subgrid i) k = false) →
      (hidden_subset subgrid size).2.getD k 0 = subgrid.getD k 0) := by
  obtain ⟨_, hpos⟩ := hidden_subset_position_spec subgrid size hlen hsize
  have hstep : ∀ (st : Bool × List Nat) (i : Nat), i < size →
      colors_is_singleton (position_set subgrid i) = false →
      hidden_count subgrid i = colors_count (position_set subgrid i) →
      hidden_subset_step (hidden_subset_position subgrid size) size st i =
        hidden_subset_elide size (hidden_colors subgrid i) st := by
    intro st i hi hns hcount
    unfold hidden_subset_step
    rw [hpos i hi, hns, hidden_subset_cs_spec subgrid size i hlen hsize hi, hcount]
    simp
  rw [hidden_subset_eq_steps]
  constructor
  · intro i hi hns hcount k
    obtain ⟨rest, hrest⟩ := range_split hi
    rw [hrest, List.foldl_append, List.foldl_cons]
    have hl := hidden_subset_steps_length (hidden_subset_position subgrid size) size
      (List.range i) (false, subgrid) hlen
    generalize (List.range i).foldl (hidden_subset_step (hidden_subset_position subgrid size) size)
      (false, subgrid) = st at hl ⊢
    rw [hstep st i hi hns hcount]
    have h1 := hidden_subset_steps_subset (hidden_subset_position subgrid size) size rest
      (hidden_subset_elide size (hidden_colors subgrid i) st) k
    have h2 : (hidden_subset_elide size (hidden_colors subgrid i) st).2.getD k 0 &&&
          hidden_colors subgrid i =
          (hidden_subset_elide size (hidden_colors subgrid i) st).2.getD k 0 ∨
        (hidden_subset_elide size (hidden_colors subgrid i) st).2.getD k 0 &&&
          hidden_colors subgrid i = 0 := by
      rw [hidden_subset_elide_getD _ _ _ (by omega)]
      by_cases hk : k < size
      · rw [if_pos hk]
        exact hidden_subset_cell_inside _ _
      · rw [if_neg hk, List.getD_eq_default _ _ (by omega)]
        right
        exact Nat.zero_and _
    rcases inside_or_disjoint_subset h1 h2 with h | h
    · left
      exact (colors_is_subset_iff _ _).2 h
    · right
      exact h
  · intro k hk
    refine foldl_invariant
      (fun st : Bool × List Nat => st.2.length = size ∧ st.2.getD k 0 = subgrid.getD k 0)
      _ _ _ ⟨hlen, rfl⟩ ?_ |>.2
    intro st i hi hst
    obtain ⟨hl, hv⟩ := hst
    have hi' : i < size := List.mem_range.1 hi
    refine ⟨hidden_subset_step_length _ _ _ _ hl, ?_⟩
    by_cases hns : colors_is_singleton (position_set subgrid i) = false
    · by_cases hcount : hidden_count subgrid i = colors_count (position_set subgrid i)
      · rw [hstep st i hi' hns hcount, hidden_subset_elide_getD _ _ _ (by omega)]
        by_cases hks : k < size
        · rw [if_pos hks, hv]
          have hz := land_hidden_colors_eq_zero subgrid i k (by omega)
            (hk i hi' hns hcount) (subgrid.getD k 0) (Nat.and_self _)
          unfold hidden_subset_cell
          rw [hz]
          rfl
        · rw [if_neg hks]
          exact hv
      · unfold hidden_subset_step
        rw [hpos i hi', hns, hidden_subset_cs_spec subgrid size i hlen hsize hi']
        have hb : (hidden_count subgrid i != colors_count (position_set subgrid i)) = true :=
          bne_iff_ne.2 hcount
        simp only [Bool.false_eq_true, if_false]
        rw [if_pos hb]
        exact hv
    · unfold hidden_subset_step
      rw [hpos i hi']
      have : colors_is_singleton (position_set subgrid i) = true := by
        cases h : colors_is_singleton (position_set subgrid i)
        · exact absurd h hns
        · rfl
      rw [if_pos this]
      exact hv

/-- Witness for the amended C21 on `hidden_unit`, for the color 3 and the cell 1. -/
theorem hidden_subset_spec_witness :
    hidden_unit.length = 9 ∧
    colors_is_singleton (position_set hidden_unit 3) = false ∧
    hidden_count hidden_unit 3 = colors_count (position_set hidden_unit 3) ∧
    (colors_is_subset ((hidden_subset hidden_unit 9).2.getD 1 0) (hidden_colors hidden_unit 3) =
        true ∨
      colors_and ((hidden_subset hidden_unit 9).2.getD 1 0) (hidden_colors hidden_unit 3) =
        colors_empty) :=
  ⟨rfl, by decide!, by decide!,
    (hidden_subset_spec hidden_unit 9 rfl (by decide)).1 3 (by decide) (by decide!) (by decide!)
      1⟩

/-- C21 (counterexample): in the consistent unit `hidden_unit` the position set of the
color 3 is the pair of cells `{1, 2}`, and exactly two colors, 3 and 4, have a non-singleton
position set inside it; yet after `hidden_subset` the cell 1, whose index lies in that
position set, is `{1, 2}`, which is not a subset of `{3, 4}`. -/
theorem hidden_subset_cell_not_in_subset :
    subgrid_consistency hidden_unit 9 = true ∧
    position_set hidden_unit 3 = 6 ∧
    colors_is_singleton (position_set hidden_unit 3) = false ∧
    hidden_count hidden_unit 3 = colors_count (position_set hidden_unit 3) ∧
    hidden_colors hidden_unit 3 = 24 ∧
    colors_is_in (position_set hidden_unit 3) 1 = true ∧
    hidden_subset hidden_unit 9 = (true, [6, 6, 24, 33, 33, 33, 448, 448, 448]) ∧
    colors_is_subset ((hidden_subset hidden_unit 9).2.getD 1 0) (hidden_colors hidden_unit 3) =
      false := by
  decide!

theorem exists_preimage_of_card_le {A B : Finset Nat} (f : Nat → Nat)
    (hinj : ∀ a ∈ A, ∀ a' ∈ A, f a = f a' → a = a') (hsub : ∀ a ∈ A, f a ∈ B)
    (hcard : B.card ≤ A.card) : ∀ b ∈ B, ∃ a ∈ A, f a = b := by
  have himg : A.image f = B := by
    apply Finset.eq_of_subset_of_card_le
    · intro b hb
      obtain ⟨a, ha, rfl⟩ := Finset.mem_image.1 hb
      exact hsub a ha
    · rw [Finset.card_image_of_injOn (fun a ha a' ha' h => hinj a ha a' ha' h)]
      exact hcard
  intro b hb
  rw [← himg] at hb
  exact Finset.mem_image.1 hb

theorem image_mem_of_card_le {A B : Finset Nat} (f : Nat → Nat)
    (hsurj : ∀ b ∈ B, ∃ a ∈ A, f a = b) (hcard : A.card ≤ B.card) : ∀ a ∈ A, f a ∈ B := by
  have himg : B = A.image f := by
    apply Finset.eq_of_subset_of_card_le
    · intro b hb
      obtain ⟨a, ha, h⟩ := hsurj b hb
      exact Finset.mem_image.2 ⟨a, ha, h⟩
    · exact Nat.le_trans Finset.card_image_le hcard
  intro a ha
  rw [himg]
  exact Finset.mem_image.2 ⟨a, ha, rfl⟩

theorem card_filter_range (p : Nat → Bool) (n : Nat) :
    ((Finset.range n).filter (fun j => p j = true)).card = ((List.range n).filter p).length := by
  induction n with
  | zero => rfl
  | succ n ih =>
    rw [Finset.range_succ, Finset.filter_insert, List.range_succ, List.filter_append,
      List.length_append, ← ih]
    cases hp : p n
    · simp [hp]
    · simp only [if_true, List.filter_cons_of_pos, hp, List.filter_nil, List.length_singleton]
      rw [Finset.card_insert_of_not_mem]
      intro hm
      have := (Finset.mem_filter.1 hm).1
      simp at this

theorem count_fold (p : Nat → Bool) (m : Nat) :
    (List.range m).foldl (fun count j => if p j then count + 1 else count) 0 =
      ((List.range m).filter p).length := by
  induction m with
  | zero => rfl
  | succ m ih =>
    rw [List.range_succ, List.foldl_append, List.foldl_cons, List.foldl_nil, ih,
      List.filter_append, List.length_append]
    cases hp : p m <;> simp [hp]

/-- For a 64-bit set, `colors_count` is the number of indices of set bits. -/
theorem colors_count_card (c : Nat) (hc : c < 2 ^ 64) :
    colors_count c = ((Finset.range 64).filter (fun k => c.testBit k = true)).card := by
  rw [card_filter_range, colors_count_bit_count c hc, ← countP_testBit,
    List.countP_eq_length_filter]

theorem testBit_foldl_lor (l : List Nat) (a k : Nat) :
    (l.foldl (fun a c => a ||| c) a).testBit k = (a.testBit k || l.any fun c => c.testBit k) := by
  induction l generalizing a with
  | nil => simp
  | cons c l ih =>
    rw [List.foldl_cons, ih, Nat.testBit_or, List.any_cons, Bool.or_assoc]

/-- A color of the union of the singleton cells is the color of a singleton cell. -/
theorem testBit_singleton_union {subgrid : List Nat} {k : Nat}
    (h : (singleton_union subgrid).testBit k = true) :
    ∃ j, j < subgrid.length ∧ colors_is_singleton (subgrid.getD j 0) = true ∧
      (subgrid.getD j 0).testBit k = true := by
  unfold singleton_union at h
  rw [testBit_foldl_lor, Nat.zero_testBit, Bool.false_or, List.any_eq_true] at h
  obtain ⟨c, hc, hk⟩ := h
  obtain ⟨hmem, hs⟩ := List.mem_filter.1 hc
  obtain ⟨j, hj, rfl⟩ := List.getElem_of_mem hmem
  refine ⟨j, hj, ?_, ?_⟩
  · rw [List.getD_eq_getElem?_getD, List.getElem?_eq_getElem hj]
    exact hs
  · rw [List.getD_eq_getElem?_getD, List.getElem?_eq_getElem hj]
    exact hk

/-- A singleton holds exactly one color. -/
theorem singleton_testBit_unique {c a b : Nat} (hs : colors_is_singleton c = true)
    (ha : c.testBit a = true) (hb : c.testBit b = true) : a = b := by
  obtain ⟨m, rfl⟩ := singleton_eq_two_pow c hs
  rw [Nat.testBit_two_pow, decide_eq_true_eq] at ha hb
  omega

/-- Colors of a solution of a unit whose cells are subsets of the full set lie below the
size. -/
theorem unit_solution_lt {subgrid : List Nat} {size : Nat} {σ : Nat → Nat} (hsize : size ≤ 64)
    (hfull : ∀ i, i < size → colors_is_subset (subgrid.getD i 0) (colors_full size) = true)
    (hsol : unit_solution subgrid size σ) {i : Nat} (hi : i < size) :
    σ i < size ∧ (subgrid.getD i 0).testBit (σ i) = true := by
  have hin := hsol.1 i hi
  have h64 : σ i < 64 := by
    by_contra hge
    unfold colors_is_in MAX_COLORS at hin
    rw [if_pos (by omega)] at hin
    exact Bool.noConfusion hin
  rw [colors_is_in_lt _ h64] at hin
  refine ⟨?_, hin⟩
  have hsub := (colors_is_subset_iff _ _).1 (hfull i hi)
  have hbit : (colors_full size).testBit (σ i) = true := by
    have := congrArg (fun x => x.testBit (σ i)) hsub
    simp only [Nat.testBit_and, hin, Bool.true_and] at this
    exact this
  rw [colors_full_eq hsize, Nat.testBit_two_pow_sub_one, decide_eq_true_eq] at hbit
  exact hbit

/-- A solution of a unit of `size` cells uses every color below `size`. -/
theorem unit_solution_surjective {subgrid : List Nat} {size : Nat} {σ : Nat → Nat}
    (hsize : size ≤ 64)
    (hfull : ∀ i, i < size → colors_is_subset (subgrid.getD i 0) (colors_full size) = true)
    (hsol : unit_solution subgrid size σ) {k : Nat} (hk : k < size) :
    ∃ i, i < size ∧ σ i = k := by
  obtain ⟨i, hi, h⟩ := exists_preimage_of_card_le (A := Finset.range size)
    (B := Finset.range size) σ
    (fun a ha a' ha' h => hsol.2 a (Finset.mem_range.1 ha) a' (Finset.mem_range.1 ha') h)
    (fun a ha => Finset.mem_range.2 (unit_solution_lt hsize hfull hsol (Finset.mem_range.1 ha)).1)
    (Nat.le_refl _) k (Finset.mem_range.2 hk)
  exact ⟨i, Finset.mem_range.1 hi, h⟩

theorem subset_full_lt {c size : Nat} (hsize : size ≤ 64)
    (h : colors_is_subset c (colors_full size) = true) : c < 2 ^ 64 := by
  have hsub := (colors_is_subset_iff _ _).1 h
  have hle : c ≤ colors_full size := by
    rw [← hsub]
    exact Nat.and_le_right
  rw [colors_full_eq hsize] at hle
  have : 2 ^ size ≤ 2 ^ 64 := Nat.pow_le_pow_right (by decide) hsize
  have hpos : 0 < 2 ^ size := Nat.two_pow_pos size
  omega

/-- `cross_hatching` keeps every solution of the unit. -/
theorem cross_hatching_solution (subgrid : List Nat) (size : Nat) (σ : Nat → Nat)
    (hlen : subgrid.length = size) (hsize : size ≤ 64)
    (hfull : ∀ i, i < size → colors_is_subset (subgrid.getD i 0) (colors_full size) = true)
    (hsol : unit_solution subgrid size σ) (i : Nat) (hi : i < size) :
    ((cross_hatching subgrid size).2.getD i 0).testBit (σ i) = true := by
  subst hlen
  rw [cross_hatching_eq]
  obtain ⟨_, hget, _⟩ := foldl_pointwise (cross_hatching_cell (singleton_union subgrid)) subgrid
    subgrid.length (Nat.le_refl _)
  rw [hget i, if_pos hi]
  have hbit := (unit_solution_lt hsize hfull hsol hi).2
  unfold cross_hatching_cell
  by_cases hs : colors_is_singleton (subgrid.getD i 0) = true
  · rw [if_pos hs]
    exact hbit
  · rw [if_neg hs, testBit_colors_subtract, hbit, Bool.true_and]
    cases hS : (singleton_union subgrid).testBit (σ i)
    · rfl
    · exfalso
      obtain ⟨j, hj, hjs, hjb⟩ := testBit_singleton_union hS
      have hjσ := (unit_solution_lt hsize hfull hsol hj).2
      have e : σ i = σ j := singleton_testBit_unique hjs hjb hjσ
      have : i = j := hsol.2 i hi j hj e
      subst this
      exact hs hjs

theorem countP_ge_two {l : List Nat} {p : Nat → Bool} {i j : Nat} (hi : i < l.length)
    (hj : j < l.length) (hne : i ≠ j) (hpi : p (l.getD i 0) = true) (hpj : p (l.getD j 0) = true) :
    2 ≤ l.countP p := by
  have e : l.countP p = ((List.range l.length).filter (fun k => p (l.getD k 0))).length := by
    have := List.countP_map p (fun k => l.getD k 0) (List.range l.length)
    rw [map_range_getD] at this
    rw [this, List.countP_eq_length_filter]
    rfl
  rw [e, ← card_filter_range]
  have hsub : ({i, j} : Finset Nat) ⊆
      (Finset.range l.length).filter (fun k => p (l.getD k 0) = true) := by
    intro k hk
    rw [Finset.mem_insert, Finset.mem_singleton] at hk
    rcases hk with rfl | rfl
    · exact Finset.mem_filter.2 ⟨Finset.mem_range.2 hi, hpi⟩
    · exact Finset.mem_filter.2 ⟨Finset.mem_range.2 hj, hpj⟩
  have := Finset.card_le_card hsub
  rw [Finset.card_pair hne] at this
  exact this

/-- `lone_number` keeps every solution of the unit. -/
theorem lone_number_solution (subgrid : List Nat) (size : Nat) (σ : Nat → Nat)
    (hlen : subgrid.length = size) (hsize : size ≤ 64)
    (hfull : ∀ i, i < size → colors_is_subset (subgrid.getD i 0) (colors_full size) = true)
    (hsol : unit_solution subgrid size σ) (i : Nat) (hi : i < size) :
    ((lone_number subgrid size).2.getD i 0).testBit (σ i) = true := by
  subst hlen
  have hbit := (unit_solution_lt hsize hfull hsol hi).2
  have hcells : ∀ c ∈ subgrid, c < 2 ^ 64 := by
    intro c hc
    obtain ⟨j, hj, rfl⟩ := List.getElem_of_mem hc
    have := subset_full_lt hsize (hfull j hj)
    rw [List.getD_eq_getElem?_getD, List.getElem?_eq_getElem hj] at this
    exact this
  rw [lone_number_eq]
  split
  · exact hbit
  · obtain ⟨_, hget, _⟩ := foldl_pointwise
      (lone_number_cell (lone_number_lone subgrid subgrid.length)) subgrid
      subgrid.length (Nat.le_refl _)
    rw [hget i, if_pos hi, lone_number_lone_eq subgrid (by omega) hcells]
    unfold lone_number_cell
    by_cases hs : colors_is_singleton (subgrid.getD i 0) = true
    · rw [if_pos hs]
      exact hbit
    · rw [if_neg hs]
      by_cases hl : colors_is_singleton (subgrid.getD i 0 &&& lone_colors subgrid) = true
      · rw [if_pos hl]
        obtain ⟨m, hm⟩ := singleton_eq_two_pow _ hl
        have hmbit : (subgrid.getD i 0 &&& lone_colors subgrid).testBit m = true := by
          rw [hm, Nat.testBit_two_pow]
          simp
        rw [Nat.testBit_and, Bool.and_eq_true] at hmbit
        obtain ⟨hmc, hmL⟩ := hmbit
        rw [testBit_lone_colors subgrid hcells, decide_eq_true_eq] at hmL
        have hmlt : m < subgrid.length := by
          have hsub := (colors_is_subset_iff _ _).1 (hfull i hi)
          have hb : (colors_full subgrid.length).testBit m = true := by
            have := congrArg (fun x => x.testBit m) hsub
            simp only [Nat.testBit_and, hmc, Bool.true_and] at this
            exact this
          rw [colors_full_eq hsize, Nat.testBit_two_pow_sub_one, decide_eq_true_eq] at hb
          exact hb
        obtain ⟨j, hj, hjm⟩ := unit_solution_surjective hsize hfull hsol hmlt
        have hjb := (unit_solution_lt hsize hfull hsol hj).2
        rw [hjm] at hjb
        have hij : i = j := by
          by_contra hne
          have := countP_ge_two (p := fun c => c.testBit m) hi hj hne hmc hjb
          omega
        subst hij
        rw [hjm, hm, Nat.testBit_two_pow]
        simp
      · rw [if_neg hl]
        exact hbit

theorem naked_subset_count_card (cells : List Nat) (size i : Nat) :
    naked_subset_count cells size i =
      ((Finset.range size).filter
        (fun j => (!colors_is_singleton (cells.getD j 0) &&
          colors_is_subset (cells.getD j 0) (cells.getD i 0)) = true)).card := by
  rw [card_filter_range
    (fun j => !colors_is_singleton (cells.getD j 0) &&
      colors_is_subset (cells.getD j 0) (cells.getD i 0)), ← count_fold]
  unfold naked_subset_count
  congr 1
  funext count j
  cases colors_is_singleton (cells.getD j 0) <;>
    cases colors_is_subset (cells.getD j 0) (cells.getD i 0) <;> rfl

theorem testBit_lt_of_lt {c k : Nat} (hc : c < 2 ^ 64) (h : c.testBit k = true) : k < 64 := by
  by_contra hge
  have : c.testBit k = false :=
    Nat.testBit_lt_two_pow (Nat.lt_of_lt_of_le hc (Nat.pow_le_pow_right (by decide) (by omega)))
  rw [this] at h
  exact Bool.noConfusion h

/-- One iteration of the outer loop of `naked_subset` keeps a solution of the unit. -/
theorem naked_subset_step_solution (size : Nat) (σ : Nat → Nat)
    (hinj : ∀ i, i < size → ∀ j, j < size → σ i = σ j → i = j)
    (st : Bool × List Nat) (i : Nat)
    (hbits : ∀ j, j < size → (st.2.getD j 0).testBit (σ j) = true)
    (hlt : ∀ j, st.2.getD j 0 < 2 ^ 64) :
    (∀ j, j < size → ((naked_subset_step size st i).2.getD j 0).testBit (σ j) = true) ∧
    (∀ j, (naked_subset_step size st i).2.getD j 0 < 2 ^ 64) := by
  unfold naked_subset_step
  split
  · exact ⟨hbits, hlt⟩
  · split
    · exact ⟨hbits, hlt⟩
    · rename_i hcount
      have hcount' : naked_subset_count st.2 size i = colors_count (st.2.getD i 0) := by
        by_contra hne
        exact hcount (bne_iff_ne.2 hne)
      have hget : ∀ j, (naked_subset_elide size i st).2.getD j 0 =
          if j < size ∧ colors_is_subset (st.2.getD j 0) (st.2.getD i 0) = false
          then colors_subtract (st.2.getD j 0) (st.2.getD i 0) else st.2.getD j 0 := by
        intro j
        unfold naked_subset_elide
        exact naked_subset_elide_getD i st size j
      constructor
      · intro j hj
        rw [hget j]
        by_cases hc : j < size ∧ colors_is_subset (st.2.getD j 0) (st.2.getD i 0) = false
        · rw [if_pos hc, testBit_colors_subtract, hbits j hj, Bool.true_and]
          cases hb : (st.2.getD i 0).testBit (σ j)
          · rfl
          · exfalso
            rw [naked_subset_count_card, colors_count_card _ (hlt i)] at hcount'
            obtain ⟨a, ha, hσ⟩ := exists_preimage_of_card_le σ
              (A := (Finset.range size).filter
                (fun j => (!colors_is_singleton (st.2.getD j 0) &&
                  colors_is_subset (st.2.getD j 0) (st.2.getD i 0)) = true))
              (B := (Finset.range 64).filter (fun k => (st.2.getD i 0).testBit k = true))
              (fun a ha a' ha' h =>
                hinj a (Finset.mem_range.1 (Finset.mem_filter.1 ha).1) a'
                  (Finset.mem_range.1 (Finset.mem_filter.1 ha').1) h)
              (by
                intro a ha
                obtain ⟨ha1, ha2⟩ := Finset.mem_filter.1 ha
                rw [Bool.and_eq_true, colors_is_subset_iff] at ha2
                have hba := hbits a (Finset.mem_range.1 ha1)
                have hbc : (st.2.getD i 0).testBit (σ a) = true := by
                  have := congrArg (fun x => x.testBit (σ a)) ha2.2
                  simp only [Nat.testBit_and, hba, Bool.true_and] at this
                  exact this
                exact Finset.mem_filter.2
                  ⟨Finset.mem_range.2 (testBit_lt_of_lt (hlt i) hbc), hbc⟩)
              (by rw [hcount'])
              (σ j)
              (Finset.mem_filter.2 ⟨Finset.mem_range.2 (testBit_lt_of_lt (hlt i) hb), hb⟩)
            obtain ⟨ha1, ha2⟩ := Finset.mem_filter.1 ha
            have : a = j := hinj a (Finset.mem_range.1 ha1) j hj hσ
            subst this
            rw [Bool.and_eq_true] at ha2
            rw [ha2.2] at hc
            exact Bool.noConfusion hc.2
        · rw [if_neg hc]
          exact hbits j hj
      · intro j
        rw [hget j]
        split
        · unfold colors_subtract
          exact Nat.lt_of_le_of_lt (Nat.sub_le _ _) (hlt j)
        · exact hlt j

/-- `naked_subset` keeps every solution of the unit. -/
theorem naked_subset_solution (subgrid : List Nat) (size : Nat) (σ : Nat → Nat)
    (hlen : subgrid.length = size) (hsize : size ≤ 64)
    (hfull : ∀ i, i < size → colors_is_subset (subgrid.getD i 0) (colors_full size) = true)
    (hsol : unit_solution subgrid size σ) (i : Nat) (hi : i < size) :
    ((naked_subset subgrid size).2.getD i 0).testBit (σ i) = true := by
  rw [naked_subset_eq_upto]
  unfold naked_subset_upto
  have hinit : ∀ j, subgrid.getD j 0 < 2 ^ 64 := by
    intro j
    by_cases hj : j < size
    · exact subset_full_lt hsize (hfull j hj)
    · rw [List.getD_eq_default _ _ (by omega)]
      exact Nat.two_pow_pos 64
  have := foldl_invariant
    (fun st : Bool × List Nat =>
      (∀ j, j < size → (st.2.getD j 0).testBit (σ j) = true) ∧ (∀ j, st.2.getD j 0 < 2 ^ 64))
    (naked_subset_step size) (List.range size) (false, subgrid)
    ⟨fun j hj => (unit_solution_lt hsize hfull hsol hj).2, hinit⟩
    (fun st i _ h => naked_subset_step_solution size σ hsol.2 st i h.1 h.2)
  exact this.1 i hi

theorem position_set_lt (subgrid : List Nat) (j : Nat) (hlen : subgrid.length ≤ 64) :
    position_set subgrid j < 2 ^ 64 := by
  apply Nat.lt_pow_two_of_testBit
  intro k hk
  rw [testBit_position_set subgrid j k hlen]
  have : ¬ k < subgrid.length := by omega
  simp [this]

/-- When the color subset of `i` has as many colors as the position set of `i` has cells,
a solution of the unit gives every cell of that position set a color of the subset. -/
theorem hidden_colors_solution (subgrid : List Nat) (size : Nat) (σ : Nat → Nat)
    (hlen : subgrid.length = size) (hsize : size ≤ 64)
    (hfull : ∀ i, i < size → colors_is_subset (subgrid.getD i 0) (colors_full size) = true)
    (hsol : unit_solution subgrid size σ) (i : Nat)
    (hcount : hidden_count subgrid i = colors_count (position_set subgrid i))
    (k : Nat) (hk : (position_set subgrid i).testBit k = true) :
    (hidden_colors subgrid i).testBit (σ k) = true := by
  subst hlen
  have hP := position_set_lt subgrid i hsize
  have hmem := image_mem_of_card_le σ
    (A := (Finset.range 64).filter (fun k => (position_set subgrid i).testBit k = true))
    (B := (Finset.range subgrid.length).filter (fun j => hidden_member subgrid i j = true))
    (by
      intro j hj
      obtain ⟨hj1, hj2⟩ := Finset.mem_filter.1 hj
      have hjlt := Finset.mem_range.1 hj1
      obtain ⟨k', hk', hσ⟩ := unit_solution_surjective hsize hfull hsol hjlt
      have hbit := (unit_solution_lt hsize hfull hsol hk').2
      rw [hσ] at hbit
      have hpj : (position_set subgrid j).testBit k' = true := by
        rw [testBit_position_set subgrid j k' hsize, colors_is_in_lt _ (by omega : j < 64), hbit]
        simp [hk']
      unfold hidden_member at hj2
      rw [Bool.and_eq_true, colors_is_subset_iff] at hj2
      have hpi : (position_set subgrid i).testBit k' = true := by
        have := congrArg (fun x => x.testBit k') hj2.2
        simp only [Nat.testBit_and, hpj, Bool.true_and] at this
        exact this
      exact ⟨k', Finset.mem_filter.2 ⟨Finset.mem_range.2 (by omega), hpi⟩, hσ⟩)
    (by
      rw [← colors_count_card _ hP, card_filter_range (hidden_member subgrid i), ← hcount]
      exact Nat.le_refl _)
    k (Finset.mem_filter.2 ⟨Finset.mem_range.2 (testBit_lt_of_lt hP hk), hk⟩)
  obtain ⟨h1, h2⟩ := Finset.mem_filter.1 hmem
  rw [testBit_hidden_colors subgrid i (σ k) hsize, h2]
  simp [Finset.mem_range.1 h1]

/-- `hidden_subset` keeps every solution of the unit. -/
theorem hidden_subset_solution (subgrid : List Nat) (size : Nat) (σ : Nat → Nat)
    (hlen : subgrid.length = size) (hsize : size ≤ 64)
    (hfull : ∀ i, i < size → colors_is_subset (subgrid.getD i 0) (colors_full size) = true)
    (hsol : unit_solution subgrid size σ) (i : Nat) (hi : i < size) :
    ((hidden_subset subgrid size).2.getD i 0).testBit (σ i) = true := by
  obtain ⟨_, hpos⟩ := hidden_subset_position_spec subgrid size hlen hsize
  rw [hidden_subset_eq_steps]
  have := foldl_invariant
    (fun st : Bool × List Nat =>
      st.2.length = size ∧ cells_subset st.2 subgrid ∧
      ∀ k, k < size → (st.2.getD k 0).testBit (σ k) = true)
    (hidden_subset_step (hidden_subset_position subgrid size) size) (List.range size)
    (false, subgrid)
    ⟨hlen, cells_subset_refl _, fun k hk => (unit_solution_lt hsize hfull hsol hk).2⟩
    (by
      intro st c hc hst
      obtain ⟨hl, hsub, hbits⟩ := hst
      have hc' : c < size := List.mem_range.1 hc
      refine ⟨hidden_subset_step_length _ _ _ _ hl, ?_, ?_⟩
      · intro k
        exact subset_trans (hidden_subset_step_subset _ _ st c k) (hsub k)
      · intro k hk
        unfold hidden_subset_step
        rw [hpos c hc', hidden_subset_cs_spec subgrid size c hlen hsize hc']
        split
        · exact hbits k hk
        · split
          · exact hbits k hk
          · rename_i hcnt
            have hcount : hidden_count subgrid c = colors_count (position_set subgrid c) := by
              by_contra hne
              exact hcnt (bne_iff_ne.2 hne)
            rw [hidden_subset_elide_getD _ _ _ (by omega), if_pos hk]
            unfold hidden_subset_cell
            split
            · rename_i hcond
              rw [Nat.testBit_and, hbits k hk, Bool.true_and]
              apply hidden_colors_solution subgrid size σ hlen hsize hfull hsol c hcount k
              cases hin : colors_is_in (position_set subgrid c) k
              · exfalso
                have hz := land_hidden_colors_eq_zero subgrid c k (by omega) hin
                  (st.2.getD k 0) (hsub k)
                rw [hz] at hcond
                simp at hcond
              · rw [colors_is_in_lt _ (by omega : k < 64)] at hin
                exact hin
            · exact hbits k hk)
  exact this.2.2 i hi

/-- C25: each of the four unit heuristics keeps every solution of the unit. For a unit of
length `N ≤ 64` whose cells are subsets of the full set and an assignment `σ` that gives
every cell one of its colors and distinct cells distinct colors, after `cross_hatching`,
`lone_number`, `naked_subset` or `hidden_subset` the color `σ i` is still in the cell `i`,
for every index `i`. -/
theorem heuristics_preserve_solution (subgrid : List Nat) (size : Nat) (σ : Nat → Nat)
    (hlen : subgrid.length = size) (hsize : size ≤ 64)
    (hfull : ∀ i, i < size → colors_is_subset (subgrid.getD i 0) (colors_full size) = true)
    (hsol : unit_solution subgrid size σ) (i : Nat) (hi : i < size) :
    colors_is_in ((cross_hatching subgrid size).2.getD i 0) (σ i) = true ∧
    colors_is_in ((lone_number subgrid size).2.getD i 0) (σ i) = true ∧
    colors_is_in ((naked_subset subgrid size).2.getD i 0) (σ i) = true ∧
    colors_is_in ((hidden_subset subgrid size).2.getD i 0) (σ i) = true := by
  have h64 : σ i < 64 := Nat.lt_of_lt_of_le (unit_solution_lt hsize hfull hsol hi).1 hsize
  simp only [colors_is_in_lt _ h64]
  exact ⟨cross_hatching_solution subgrid size σ hlen hsize hfull hsol i hi,
    lone_number_solution subgrid size σ hlen hsize hfull hsol i hi,
    naked_subset_solution subgrid size σ hlen hsize hfull hsol i hi,
    hidden_subset_solution subgrid size σ hlen hsize hfull hsol i hi⟩

/-- Witness for C25 on the unit `{0,1} {0,1} {0,1,2} {2,3}` with the solution that gives
the cell `i` the color `i`. -/
theorem heuristics_preserve_solution_witness :
    (∀ i, i < 4 →
      colors_is_subset (([3, 3, 7, 12] : List Nat).getD i 0) (colors_full 4) = true) ∧
    unit_solution [3, 3, 7, 12] 4 (fun i => i) ∧
    naked_subset [3, 3, 7, 12] 4 = (true, [3, 3, 4, 12]) ∧
    (colors_is_in ((cross_hatching [3, 3, 7, 12] 4).2.getD 2 0) 2 = true ∧
      colors_is_in ((lone_number [3, 3, 7, 12] 4).2.getD 2 0) 2 = true ∧
      colors_is_in ((naked_subset [3, 3, 7, 12] 4).2.getD 2 0) 2 = true ∧
      colors_is_in ((hidden_subset [3, 3, 7, 12] 4).2.getD 2 0) 2 = true) :=
  have hfull : ∀ i, i < 4 →
      colors_is_subset (([3, 3, 7, 12] : List Nat).getD i 0) (colors_full 4) = true := by
    decide
  have hsol : unit_solution [3, 3, 7, 12] 4 (fun i => i) := ⟨by decide, by decide⟩
  ⟨hfull, hsol, by decide!,
    heuristics_preserve_solution [3, 3, 7, 12] 4 (fun i => i) rfl (by decide) hfull hsol 2
      (by decide)⟩

theorem subset_antisymm {a b : Nat} (h1 : a &&& b = a) (h2 : b &&& a = b) : a = b := by
  rw [← h1, Nat.and_comm, h2]

/-- A subset of a singleton is empty or the singleton. -/
theorem subset_singleton {c d : Nat} (hs : colors_is_singleton c = true) (hd : d &&& c = d) :
    d = 0 ∨ d = c := by
  obtain ⟨k, rfl⟩ := singleton_eq_two_pow c hs
  rw [Nat.and_comm, two_pow_land] at hd
  split at hd
  · right
    exact hd.symm
  · left
    exact hd.symm

theorem unit_progress_init (l : List Nat) (size : Nat) : unit_progress l size (false, l) :=
  ⟨rfl, cells_subset_refl l, fun _ _ => rfl, fun h => Bool.noConfusion h⟩

/-- A store of a strict subset into a cell that is not a singleton keeps the relation. -/
theorem unit_progress_set {l : List Nat} {size : Nat} {st : Bool × List Nat}
    (h : unit_progress l size st) {j : Nat} (hj : j < size) (v : Nat)
    (hv : v &&& st.2.getD j 0 = v) (hne : v ≠ st.2.getD j 0)
    (hns : colors_is_singleton (st.2.getD j 0) = false) :
    unit_progress l size (true, st.2.set j v) := by
  obtain ⟨h1, h2, h3, _⟩ := h
  have hjl : j < st.2.length := by
    by_contra hge
    rw [List.getD_eq_default _ _ (Nat.le_of_not_lt hge), Nat.and_zero] at hv
    rw [List.getD_eq_default _ _ (Nat.le_of_not_lt hge)] at hne
    exact hne hv.symm
  refine ⟨by rw [List.length_set]; exact h1, cells_subset_set h2 j v hv, ?_, ?_⟩
  · intro k hk
    show (st.2.set j v).getD k 0 = l.getD k 0
    rw [getD_set]
    split
    · rename_i hc
      obtain ⟨rfl, _⟩ := hc
      rw [h3 k hk, hk] at hns
      exact Bool.noConfusion hns
    · exact h3 k hk
  · intro _
    refine ⟨j, hj, ?_⟩
    show (st.2.set j v).getD j 0 ≠ l.getD j 0
    rw [getD_set, if_pos ⟨rfl, hjl⟩]
    intro e
    apply hne
    have hsub : st.2.getD j 0 &&& v = st.2.getD j 0 := by
      rw [e]
      exact h2 j
    exact subset_antisymm hv hsub

/-- The relation composes: a state that progressed from `st1.2`, which progressed from `l`,
progressed from `l`, with either flag of the second or the disjunction of both. -/
theorem unit_progress_trans {l : List Nat} {size : Nat} {st1 st2 : Bool × List Nat}
    (h1 : unit_progress l size st1) (h2 : unit_progress st1.2 size st2) (b : Bool)
    (hb : b = true → st1.1 = true ∨ st2.1 = true) :
    unit_progress l size (b, st2.2) := by
  obtain ⟨a1, a2, a3, a4⟩ := h1
  obtain ⟨b1, b2, b3, b4⟩ := h2
  refine ⟨b1.trans a1, fun k => subset_trans (b2 k) (a2 k), ?_, ?_⟩
  · intro k hk
    show st2.2.getD k 0 = l.getD k 0
    have e := a3 k hk
    rw [← e] at hk
    rw [b3 k hk, e]
  · intro hflag
    rcases hb hflag with hf | hf
    · obtain ⟨k, hk, hne⟩ := a4 hf
      refine ⟨k, hk, ?_⟩
      show st2.2.getD k 0 ≠ l.getD k 0
      intro e
      apply hne
      have hsub : l.getD k 0 &&& st1.2.getD k 0 = l.getD k 0 := by
        rw [← e]
        exact b2 k
      exact subset_antisymm (a2 k) hsub
    · obtain ⟨k, hk, hne⟩ := b4 hf
      refine ⟨k, hk, ?_⟩
      show st2.2.getD k 0 ≠ l.getD k 0
      intro e
      apply hne
      have hsub : st1.2.getD k 0 &&& st2.2.getD k 0 = st1.2.getD k 0 := by
        rw [e]
        exact a2 k
      exact subset_antisymm (b2 k) hsub

theorem cross_hatching_progress (subgrid : List Nat) (size : Nat) :
    unit_progress subgrid size (cross_hatching subgrid size) := by
  unfold cross_hatching
  dsimp only
  refine foldl_invariant (unit_progress subgrid size) _ _ _ (unit_progress_init _ _) ?_
  intro st i hi h
  dsimp only
  split
  · exact h
  · rename_i hns
    split
    · rename_i hne
      refine unit_progress_set h (List.mem_range.1 hi) _ (colors_subtract_subset _ _) ?_ ?_
      · exact fun e => (bne_iff_ne.1 hne) e.symm
      · cases hs : colors_is_singleton (st.2.getD i 0)
        · rfl
        · exact absurd hs hns
    · exact h

theorem lone_number_progress (subgrid : List Nat) (size : Nat) :
    unit_progress subgrid size (lone_number subgrid size) := by
  unfold lone_number
  dsimp only
  split
  · exact unit_progress_init _ _
  · refine foldl_invariant (unit_progress subgrid size) _ _ _ (unit_progress_init _ _) ?_
    intro st i hi h
    dsimp only
    split
    · exact h
    · rename_i hns
      have hns' : colors_is_singleton (st.2.getD i 0) = false := by
        cases hs : colors_is_singleton (st.2.getD i 0)
        · rfl
        · exact absurd hs hns
      split
      · rename_i hnew
        refine unit_progress_set h (List.mem_range.1 hi) _ (land_subset_left _ _) ?_ hns'
        intro e
        rw [e, hns'] at hnew
        exact Bool.noConfusion hnew
      · exact h

theorem naked_subset_progress (subgrid : List Nat) (size : Nat) :
    unit_progress subgrid size (naked_subset subgrid size) := by
  unfold naked_subset
  refine foldl_invariant (unit_progress subgrid size) _ _ _ (unit_progress_init _ _) ?_
  intro st i _ h
  dsimp only
  split
  · exact h
  · split
    · exact h
    · refine foldl_invariant (unit_progress subgrid size) _ _ _ h ?_
      intro s j hj hs
      dsimp only
      split
      · exact hs
      · rename_i hnsub
        split
        · rename_i hne
          have hne' : colors_subtract (s.2.getD j 0) (s.2.getD i 0) ≠ s.2.getD j 0 :=
            fun e => (bne_iff_ne.1 hne) e.symm
          refine unit_progress_set hs (List.mem_range.1 hj) _ (colors_subtract_subset _ _) hne' ?_
          cases hsing : colors_is_singleton (s.2.getD j 0)
          · rfl
          · exfalso
            rcases subset_singleton hsing (colors_subtract_subset (s.2.getD j 0) (s.2.getD i 0))
              with h0 | h0
            · apply hnsub
              rw [colors_is_subset_iff]
              unfold colors_subtract at h0
              have hle : s.2.getD j 0 &&& s.2.getD i 0 ≤ s.2.getD j 0 := Nat.and_le_left
              omega
            · exact hne' h0
        · exact hs

theorem hidden_subset_progress (subgrid : List Nat) (size : Nat) :
    unit_progress subgrid size (hidden_subset subgrid size) := by
  unfold hidden_subset
  dsimp only
  refine foldl_invariant (unit_progress subgrid size) _ _ _ (unit_progress_init _ _) ?_
  intro st i _ h
  dsimp only
  split
  · exact h
  · split
    · exact h
    · refine foldl_invariant (unit_progress subgrid size) _ _ _ h ?_
      intro s j hj hs
      dsimp only
      split
      · rename_i hcond
        rw [Bool.and_eq_true, bne_iff_ne, bne_iff_ne] at hcond
        refine unit_progress_set hs (List.mem_range.1 hj) _ (land_subset_left _ _) hcond.2 ?_
        cases hsing : colors_is_singleton (s.2.getD j 0)
        · rfl
        · exfalso
          rcases subset_singleton hsing (land_subset_left (s.2.getD j 0) _) with h0 | h0
          · exact hcond.1 h0
          · exact hcond.2 h0
      · exact hs

theorem subgrid_heuristics_progress (subgrid : List Nat) (size level : Nat) :
    unit_progress subgrid size (subgrid_heuristics subgrid size level) := by
  unfold subgrid_heuristics
  split
  · dsimp only
    split
    · exact naked_subset_progress subgrid size
    · exact unit_progress_trans (naked_subset_progress subgrid size)
        (hidden_subset_progress _ size) _ (fun h => Or.inr h)
  · dsimp only
    exact unit_progress_trans (cross_hatching_progress subgrid size)
      (lone_number_progress _ size) _ (fun h => by
        rw [Bool.or_eq_true] at h
        exact h)

theorem unit_store_not_mem {n : Nat} (unit : List (Nat × Nat)) (vals : List Nat) (grid : grid_t)
    (hshape : grid_shape n grid) (hrange : ∀ p ∈ unit, p.1 < n ∧ p.2 < n) (i j : Nat)
    (hnot : (i, j) ∉ unit) :
    grid_cell (unit_store grid unit vals) i j = grid_cell grid i j := by
  induction unit generalizing grid vals with
  | nil => rfl
  | cons p u ih =>
    cases vals with
    | nil => rfl
    | cons v vs =>
      have hp := hrange p (List.mem_cons_self p u)
      have e : unit_store grid (p :: u) (v :: vs) =
          unit_store (grid_put grid p.1 p.2 v) u vs := rfl
      rw [e, ih vs _ (grid_put_shape hshape _ _ _)
        (fun q hq => hrange q (List.mem_cons_of_mem p hq))
        (fun h => hnot (List.mem_cons_of_mem p h)),
        grid_cell_put hshape v hp.1 hp.2, if_neg]
      rintro ⟨rfl, rfl⟩
      exact hnot (List.mem_cons_self _ _)

theorem unit_store_get {n : Nat} (unit : List (Nat × Nat)) (vals : List Nat) (grid : grid_t)
    (hshape : grid_shape n grid) (hrange : ∀ p ∈ unit, p.1 < n ∧ p.2 < n) (hnd : unit.Nodup)
    (k : Nat) (hk : k < unit.length) (hkv : k < vals.length) :
    grid_cell (unit_store grid unit vals) (unit.getD k (0, 0)).1 (unit.getD k (0, 0)).2 =
      vals.getD k 0 := by
  induction unit generalizing grid vals k with
  | nil => exact absurd hk (Nat.not_lt_zero k)
  | cons p u ih =>
    cases vals with
    | nil => exact absurd hkv (Nat.not_lt_zero k)
    | cons v vs =>
      have hp := hrange p (List.mem_cons_self p u)
      have e : unit_store grid (p :: u) (v :: vs) =
          unit_store (grid_put grid p.1 p.2 v) u vs := rfl
      rw [e]
      cases k with
      | zero =>
        show grid_cell _ p.1 p.2 = v
        rw [unit_store_not_mem u vs _ (grid_put_shape hshape _ _ _)
          (fun q hq => hrange q (List.mem_cons_of_mem p hq)) p.1 p.2 (List.nodup_cons.1 hnd).1,
          grid_cell_put hshape v hp.1 hp.2, if_pos ⟨rfl, rfl⟩]
      | succ k =>
        exact ih vs _ (grid_put_shape hshape _ _ _)
          (fun q hq => hrange q (List.mem_cons_of_mem p hq)) (List.nodup_cons.1 hnd).2 k
          (Nat.lt_of_succ_lt_succ hk) (Nat.lt_of_succ_lt_succ hkv)

theorem unit_cells_getD (grid : grid_t) (unit : List (Nat × Nat)) (k : Nat)
    (hk : k < unit.length) :
    (unit_cells grid unit).getD k 0 =
      grid_cell grid (unit.getD k (0, 0)).1 (unit.getD k (0, 0)).2 := by
  unfold unit_cells
  rw [List.getD_eq_getElem?_getD, List.getD_eq_getElem?_getD, List.getElem?_map,
    List.getElem?_eq_getElem hk]
  rfl

theorem row_unit_ok {n index : Nat} (h : index < n) : unit_ok n (row_unit n index) := by
  refine ⟨row_unit_length n index, ?_, ?_⟩
  · unfold row_unit
    apply List.Nodup.map _ (List.nodup_range n)
    intro a b hab
    exact (Prod.mk.inj hab).2
  · intro p hp
    unfold row_unit at hp
    obtain ⟨i, hi, rfl⟩ := List.mem_map.1 hp
    exact ⟨h, List.mem_range.1 hi⟩

theorem column_unit_ok {n index : Nat} (h : index < n) : unit_ok n (column_unit n index) := by
  refine ⟨column_unit_length n index, ?_, ?_⟩
  · unfold column_unit
    apply List.Nodup.map _ (List.nodup_range n)
    intro a b hab
    exact (Prod.mk.inj hab).1
  · intro p hp
    unfold column_unit at hp
    obtain ⟨i, hi, rfl⟩ := List.mem_map.1 hp
    exact ⟨List.mem_range.1 hi, h⟩

theorem block_unit_ok {n index : Nat} (hsize : grid_check_size n = true) (h : index < n) :
    unit_ok n (block_unit n index) := by
  have hsq := sqrt_size_sq hsize
  have hpos := grid_check_size_pos hsize
  have hb : 0 < sqrt_size n := by
    rcases Nat.eq_zero_or_pos (sqrt_size n) with h0 | h0
    · rw [h0] at hsq
      omega
    · exact h0
  refine ⟨block_unit_length hsize index, ?_, ?_⟩
  · unfold block_unit
    dsimp only
    rw [List.nodup_flatMap]
    constructor
    · intro i _
      apply List.Nodup.map _ (List.nodup_range _)
      intro a b hab
      have := (Prod.mk.inj hab).2
      omega
    · apply (List.nodup_range _).pairwise_of_forall_ne
      intro a _ b _ hne
      intro p hpa hpb
      obtain ⟨x, _, rfl⟩ := List.mem_map.1 hpa
      obtain ⟨y, _, hy⟩ := List.mem_map.1 hpb
      have := (Prod.mk.inj hy).1
      omega
  · rintro ⟨i, j⟩ hp
    rw [mem_block_unit hb] at hp
    generalize sqrt_size n = b at hsq hb hp
    have h1 : index / b < b := by
      rw [Nat.div_lt_iff_lt_mul hb, hsq]
      exact h
    have h2 : index % b < b := Nat.mod_lt _ hb
    constructor
    · rw [← hsq, ← Nat.div_lt_iff_lt_mul hb, hp.1]
      exact h1
    · rw [← hsq, ← Nat.div_lt_iff_lt_mul hb, hp.2]
      exact h2

theorem grid_below_refl {n : Nat} {g : grid_t} (h : grid_shape n g) : grid_below n g g :=
  ⟨h, fun _ _ _ _ => Nat.and_self _, fun _ _ _ _ _ => rfl⟩

theorem grid_below_trans {n : Nat} {g1 g2 g3 : grid_t} (h12 : grid_below n g1 g2)
    (h23 : grid_below n g2 g3) : grid_below n g1 g3 := by
  obtain ⟨a1, a2, a3⟩ := h12
  obtain ⟨_, b2, b3⟩ := h23
  refine ⟨a1, fun i j hi hj => subset_trans (a2 i j hi hj) (b2 i j hi hj), ?_⟩
  intro i j hi hj hs
  have e := b3 i j hi hj hs
  rw [← e] at hs
  rw [a3 i j hi hj hs, e]

/-- A cell that differs from the one it came from still differs after shrinking further. -/
theorem ne_of_subset_of_ne {a b c : Nat} (hab : a &&& b = a) (hbc : b &&& c = b) (hne : b ≠ c) :
    a ≠ c := by
  intro e
  apply hne
  have : c &&& b = c := by
    rw [← e]
    exact hab
  exact subset_antisymm hbc this

theorem ne_of_ne_of_subset {a b c : Nat} (hab : a &&& b = a) (hbc : b &&& c = b) (hne : a ≠ b) :
    a ≠ c := by
  intro e
  apply hne
  have : b &&& a = b := by
    rw [e]
    exact hbc
  exact subset_antisymm hab this

/-- The cells of the grid after the heuristics ran on one unit: a cell is as it was, or it
is the cell `k` of the result of the heuristics on the cells of the unit. -/
theorem unit_store_cell_cases {n : Nat} (grid : grid_t) (unit : List (Nat × Nat))
    (vals : List Nat) (hshape : grid_shape n grid) (hunit : unit_ok n unit)
    (hlen : vals.length = n) (i j : Nat) :
    grid_cell (unit_store grid unit vals) i j = grid_cell grid i j ∨
    ∃ k, k < n ∧ unit.getD k (0, 0) = (i, j) ∧
      grid_cell (unit_store grid unit vals) i j = vals.getD k 0 ∧
      grid_cell grid i j = (unit_cells grid unit).getD k 0 := by
  obtain ⟨h1, h2, h3⟩ := hunit
  by_cases hmem : (i, j) ∈ unit
  · right
    obtain ⟨k, hk, hke⟩ := List.getElem_of_mem hmem
    have hget : unit.getD k (0, 0) = (i, j) := by
      rw [List.getD_eq_getElem?_getD, List.getElem?_eq_getElem hk]
      exact hke
    refine ⟨k, by omega, hget, ?_, ?_⟩
    · have := unit_store_get unit vals grid hshape h3 h2 k hk (by omega)
      rw [hget] at this
      exact this
    · rw [unit_cells_getD grid unit k hk, hget]
  · left
    exact unit_store_not_mem unit vals grid hshape h3 i j hmem

theorem unit_heuristics_progress {n : Nat} (level : Nat) (g : grid_t) (st : Bool × grid_t)
    (unit : List (Nat × Nat)) (hst : grid_progress n g st) (hunit : unit_ok n unit) :
    grid_progress n g (unit_heuristics level st unit) := by
  obtain ⟨⟨hshape, hsub, hsing⟩, hflag⟩ := hst
  have hp := subgrid_heuristics_progress (unit_cells st.2 unit) st.2.size level
  have hsz : st.2.size = n := hshape.1
  rw [hsz] at hp
  obtain ⟨p1, p2, p3, p4⟩ := hp
  have hlen : (subgrid_heuristics (unit_cells st.2 unit) n level).2.length = n := by
    rw [p1, unit_cells_length, hunit.1]
  have hcases := unit_store_cell_cases st.2 unit
    (subgrid_heuristics (unit_cells st.2 unit) n level).2 hshape hunit hlen
  have hstep : ∀ i j, grid_cell (unit_store st.2 unit
        (subgrid_heuristics (unit_cells st.2 unit) n level).2) i j &&& grid_cell st.2 i j =
      grid_cell (unit_store st.2 unit
        (subgrid_heuristics (unit_cells st.2 unit) n level).2) i j := by
    intro i j
    rcases hcases i j with h | ⟨k, _, _, h1, h2⟩
    · rw [h]
      exact Nat.and_self _
    · rw [h1, h2]
      exact p2 k
  unfold unit_heuristics
  dsimp only
  rw [hsz]
  refine ⟨⟨unit_store_shape _ _ hshape, ?_, ?_⟩, ?_⟩
  · intro i j hi hj
    exact subset_trans (hstep i j) (hsub i j hi hj)
  · intro i j hi hj hs
    have e := hsing i j hi hj hs
    rcases hcases i j with h | ⟨k, _, _, h1, h2⟩
    · rw [h, e]
    · rw [h1, ← e, h2]
      apply p3 k
      rw [← h2, e]
      exact hs
  · intro hb
    rw [Bool.or_eq_true] at hb
    rcases hb with hb | hb
    · obtain ⟨i, j, hi, hj, hne⟩ := hflag hb
      exact ⟨i, j, hi, hj, ne_of_subset_of_ne (hstep i j) (hsub i j hi hj) hne⟩
    · obtain ⟨k, hk, hne⟩ := p4 hb
      have hkl : k < unit.length := by rw [hunit.1]; exact hk
      have hmem : unit.getD k (0, 0) ∈ unit := by
        rw [List.getD_eq_getElem?_getD, List.getElem?_eq_getElem hkl]
        exact List.getElem_mem hkl
      have hr := hunit.2.2 _ hmem
      refine ⟨(unit.getD k (0, 0)).1, (unit.getD k (0, 0)).2, hr.1, hr.2, ?_⟩
      have h1 := unit_store_get unit (subgrid_heuristics (unit_cells st.2 unit) n level).2 st.2
        hshape hunit.2.2 hunit.2.1 k hkl (by omega)
      have h2 := unit_cells_getD st.2 unit k hkl
      apply ne_of_ne_of_subset (hstep _ _) (hsub _ _ hr.1 hr.2)
      rw [h1, ← h2]
      exact hne

/-- One pass of the heuristics over the rows, columns and blocks: the grid shrinks, and the
pass reports a change only if some cell changed. -/
theorem heuristics_pass_progress {n : Nat} (grid : grid_t) (level : Nat)
    (hshape : grid_shape n grid) (hsize : grid_check_size n = true) :
    grid_progress n grid (heuristics_pass grid level) := by
  unfold heuristics_pass
  rw [hshape.1]
  refine foldl_invariant (grid_progress n grid) _ _ _
    ⟨grid_below_refl hshape, fun h => Bool.noConfusion h⟩ ?_
  intro st index hidx hst
  have hi := List.mem_range.1 hidx
  exact unit_heuristics_progress level grid _ _
    (unit_heuristics_progress level grid _ _
      (unit_heuristics_progress level grid _ _ hst (row_unit_ok hi)) (column_unit_ok hi))
    (block_unit_ok hsize hi)

theorem popcount_card (c : Nat) (hc : c < 2 ^ 64) :
    popcount c = ((Finset.range 64).filter (fun k => c.testBit k = true)).card := by
  rw [popcount_eq_bit_count c hc, ← colors_count_bit_count c hc, colors_count_card c hc]

theorem subset_le {a b : Nat} (h : a &&& b = a) : a ≤ b := by
  rw [← h]
  exact Nat.and_le_right

theorem testBit_of_subset {a b k : Nat} (h : a &&& b = a) (hk : a.testBit k = true) :
    b.testBit k = true := by
  have := congrArg (fun x => x.testBit k) h
  simp only [Nat.testBit_and, hk, Bool.true_and] at this
  exact this

theorem popcount_le {a b : Nat} (h : a &&& b = a) (hb : b < 2 ^ 64) :
    popcount a ≤ popcount b := by
  rw [popcount_card a (Nat.lt_of_le_of_lt (subset_le h) hb), popcount_card b hb]
  apply Finset.card_le_card
  intro k hk
  obtain ⟨h1, h2⟩ := Finset.mem_filter.1 hk
  exact Finset.mem_filter.2 ⟨h1, testBit_of_subset h h2⟩

theorem popcount_lt {a b : Nat} (h : a &&& b = a) (hb : b < 2 ^ 64) (hne : a ≠ b) :
    popcount a < popcount b := by
  rw [popcount_card a (Nat.lt_of_le_of_lt (subset_le h) hb), popcount_card b hb]
  apply Finset.card_lt_card
  rw [Finset.ssubset_iff_of_subset]
  · have hex : ∃ k, a.testBit k ≠ b.testBit k := by
      by_contra hall
      apply hne
      apply Nat.eq_of_testBit_eq
      intro k
      by_contra hk
      exact hall ⟨k, hk⟩
    obtain ⟨k, hk⟩ := hex
    have hbk : b.testBit k = true := by
      cases hb' : b.testBit k
      · cases ha' : a.testBit k
        · rw [ha', hb'] at hk
          exact absurd rfl hk
        · have := testBit_of_subset h ha'
          rw [hb'] at this
          exact Bool.noConfusion this
      · rfl
    have hak : a.testBit k = false := by
      cases ha' : a.testBit k
      · rfl
      · rw [ha', hbk] at hk
        exact absurd rfl hk
    refine ⟨k, Finset.mem_filter.2 ⟨Finset.mem_range.2 (testBit_lt_of_lt hb hbk), hbk⟩, ?_⟩
    intro hm
    have := (Finset.mem_filter.1 hm).2
    rw [hak] at this
    exact Bool.noConfusion this
  · intro k hk
    obtain ⟨h1, h2⟩ := Finset.mem_filter.1 hk
    exact Finset.mem_filter.2 ⟨h1, testBit_of_subset h h2⟩

theorem sum_map_le (l : List Nat) (f g : Nat → Nat) (h : ∀ i ∈ l, f i ≤ g i) :
    (l.map f).sum ≤ (l.map g).sum := by
  induction l with
  | nil => exact Nat.le_refl _
  | cons a l ih =>
    rw [List.map_cons, List.map_cons, List.sum_cons, List.sum_cons]
    have h1 := h a (List.mem_cons_self a l)
    have h2 := ih (fun i hi => h i (List.mem_cons_of_mem a hi))
    omega

theorem sum_map_lt (l : List Nat) (f g : Nat → Nat) (h : ∀ i ∈ l, f i ≤ g i)
    (hex : ∃ i ∈ l, f i < g i) : (l.map f).sum < (l.map g).sum := by
  induction l with
  | nil =>
    obtain ⟨i, hi, _⟩ := hex
    exact absurd hi (List.not_mem_nil i)
  | cons a l ih =>
    rw [List.map_cons, List.map_cons, List.sum_cons, List.sum_cons]
    have h1 := h a (List.mem_cons_self a l)
    have h2 := sum_map_le l f g (fun i hi => h i (List.mem_cons_of_mem a hi))
    obtain ⟨i, hi, hlt⟩ := hex
    rcases List.mem_cons.1 hi with rfl | hi'
    · omega
    · have := ih (fun i hi => h i (List.mem_cons_of_mem a hi)) ⟨i, hi', hlt⟩
      omega

/-- A grid below another one has no more candidate colors, and its cells are 64-bit. -/
theorem grid_below_bits {n : Nat} {g' g : grid_t} (h : grid_below n g' g) (hsz : g.size = n)
    (hcells : ∀ i j, i < n → j < n → grid_cell g i j < 2 ^ 64) :
    grid_bits g' ≤ grid_bits g ∧ (∀ i j, i < n → j < n → grid_cell g' i j < 2 ^ 64) := by
  obtain ⟨hshape, hsub, _⟩ := h
  constructor
  · unfold grid_bits
    rw [hshape.1, hsz]
    apply sum_map_le
    intro i hi
    apply sum_map_le
    intro j hj
    have hi' := List.mem_range.1 hi
    have hj' := List.mem_range.1 hj
    exact popcount_le (hsub i j hi' hj') (hcells i j hi' hj')
  · intro i j hi hj
    exact Nat.lt_of_le_of_lt (subset_le (hsub i j hi hj)) (hcells i j hi hj)

/-- A grid below another one that differs from it in some cell has fewer candidate
colors. -/
theorem grid_below_bits_lt {n : Nat} {g' g : grid_t} (h : grid_below n g' g) (hsz : g.size = n)
    (hcells : ∀ i j, i < n → j < n → grid_cell g i j < 2 ^ 64)
    (hne : ∃ i j, i < n ∧ j < n ∧ grid_cell g' i j ≠ grid_cell g i j) :
    grid_bits g' < grid_bits g := by
  obtain ⟨hshape, hsub, _⟩ := h
  obtain ⟨i, j, hi, hj, hij⟩ := hne
  unfold grid_bits
  rw [hshape.1, hsz]
  apply sum_map_lt
  · intro i hi
    apply sum_map_le
    intro j hj
    have hi' := List.mem_range.1 hi
    have hj' := List.mem_range.1 hj
    exact popcount_le (hsub i j hi' hj') (hcells i j hi' hj')
  · refine ⟨i, List.mem_range.2 hi, ?_⟩
    apply sum_map_lt
    · intro j hj
      have hj' := List.mem_range.1 hj
      exact popcount_le (hsub i j hi hj') (hcells i j hi hj')
    · exact ⟨j, List.mem_range.2 hj, popcount_lt (hsub i j hi hj) (hcells i j hi hj) hij⟩

/-- The escalation loop returns once its fuel covers twice the number of candidate colors
plus the levels that remain, and the grid it returns is below the one it received. -/
theorem heuristics_loop_terminates {n : Nat} (hsize : grid_check_size n = true) (fuel : Nat) :
    ∀ (level : Nat) (grid : grid_t), grid_shape n grid →
      (∀ i j, i < n → j < n → grid_cell grid i j < 2 ^ 64) → level ≤ 2 →
      2 * grid_bits grid + (2 - level) ≤ fuel →
      ∃ result, heuristics_loop fuel level grid = some result ∧ grid_below n result grid := by
  induction fuel with
  | zero =>
    intro level grid hshape _ hlevel hfuel
    have : level = 2 := by omega
    subst this
    refine ⟨grid, ?_, grid_below_refl hshape⟩
    rw [heuristics_loop_zero, if_neg (by decide)]
  | succ fuel ih =>
    intro level grid hshape hcells hlevel hfuel
    rw [heuristics_loop_succ]
    by_cases hl : level < 2
    · rw [if_pos hl]
      obtain ⟨hbelow, hflag⟩ := heuristics_pass_progress grid level hshape hsize
      obtain ⟨hle, hcells'⟩ := grid_below_bits hbelow hshape.1 hcells
      by_cases hchg : (heuristics_pass grid level).1 = true
      · rw [if_pos hchg]
        have hlt := grid_below_bits_lt hbelow hshape.1 hcells (hflag hchg)
        by_cases h1 : (level == 1) = true
        · rw [if_pos h1]
          obtain ⟨result, hres, hb⟩ := ih (level - 1) _ hbelow.1 hcells' (by omega) (by omega)
          exact ⟨result, hres, grid_below_trans hb hbelow⟩
        · rw [if_neg h1]
          obtain ⟨result, hres, hb⟩ := ih level _ hbelow.1 hcells' hlevel (by omega)
          exact ⟨result, hres, grid_below_trans hb hbelow⟩
      · rw [if_neg hchg]
        obtain ⟨result, hres, hb⟩ := ih (level + 1) _ hbelow.1 hcells' (by omega) (by omega)
        exact ⟨result, hres, grid_below_trans hb hbelow⟩
    · rw [if_neg hl]
      exact ⟨grid, rfl, grid_below_refl hshape⟩

theorem unit_progress_changed {l : List Nat} {size : Nat} {st : Bool × List Nat}
    (h : unit_progress l size st) (hf : st.1 = true) :
    ∃ k, k < size ∧ st.2.getD k 0 ≠ l.getD k 0 ∧
      colors_is_subset (st.2.getD k 0) (l.getD k 0) = true := by
  obtain ⟨k, hk, hne⟩ := h.2.2.2 hf
  exact ⟨k, hk, hne, (colors_is_subset_iff _ _).2 (h.2.1 k)⟩

/-- Once its fuel covers twice the number of candidate colors plus two, `grid_heuristics`
returns. -/
theorem grid_heuristics_returns {n : Nat} (grid : grid_t) (hshape : grid_shape n grid)
    (hsize : grid_check_size n = true)
    (hcells : ∀ i j, i < n → j < n → grid_cell grid i j < 2 ^ 64) (fuel : Nat)
    (hfuel : 2 * grid_bits grid + 2 ≤ fuel) :
    ∃ c result, grid_heuristics fuel grid = some (c, result) ∧ grid_below n result grid := by
  unfold grid_heuristics
  split
  · exact ⟨SOLVED, grid, rfl, grid_below_refl hshape⟩
  · split
    · exact ⟨NOT_CONSISTENT, grid, rfl, grid_below_refl hshape⟩
    · obtain ⟨result, hres, hb⟩ :=
        heuristics_loop_terminates hsize fuel 0 grid hshape hcells (by decide) hfuel
      rw [hres]
      dsimp only
      split
      · exact ⟨SOLVED, result, rfl, hb⟩
      · split
        · exact ⟨CONSISTENT_NOT_SOLVED, result, rfl, hb⟩
        · exact ⟨NOT_CONSISTENT, result, rfl, hb⟩

/-- C24: on a grid of supported size `N` with 64-bit cells the escalation loop of
`grid_heuristics` terminates. Each of the four heuristics returns true only if some cell
became a strict subset of what it was; every pass that reports a change strictly decreases
the total number of candidate colors of the grid, and no pass increases it; so with fuel for
`2 * grid_bits grid + 2` passes the loop reaches level 2 and `grid_heuristics` returns. -/
theorem grid_heuristics_terminates (grid : grid_t) (n : Nat) (hshape : grid_shape n grid)
    (hsize : grid_check_size n = true)
    (hcells : ∀ i j, i < n → j < n → grid_cell grid i j < 2 ^ 64) :
    (∀ subgrid : List Nat,
      ((cross_hatching subgrid n).1 = true →
        ∃ k, k < n ∧ (cross_hatching subgrid n).2.getD k 0 ≠ subgrid.getD k 0 ∧
          colors_is_subset ((cross_hatching subgrid n).2.getD k 0) (subgrid.getD k 0) = true) ∧
      ((lone_number subgrid n).1 = true →
        ∃ k, k < n ∧ (lone_number subgrid n).2.getD k 0 ≠ subgrid.getD k 0 ∧
          colors_is_subset ((lone_number subgrid n).2.getD k 0) (subgrid.getD k 0) = true) ∧
      ((naked_subset subgrid n).1 = true →
        ∃ k, k < n ∧ (naked_subset subgrid n).2.getD k 0 ≠ subgrid.getD k 0 ∧
          colors_is_subset ((naked_subset subgrid n).2.getD k 0) (subgrid.getD k 0) = true) ∧
      ((hidden_subset subgrid n).1 = true →
        ∃ k, k < n ∧ (hidden_subset subgrid n).2.getD k 0 ≠ subgrid.getD k 0 ∧
          colors_is_subset ((hidden_subset subgrid n).2.getD k 0) (subgrid.getD k 0) = true)) ∧
    (∀ level, grid_bits (heuristics_pass grid level).2 ≤ grid_bits grid) ∧
    (∀ level, (heuristics_pass grid level).1 = true →
      grid_bits (heuristics_pass grid level).2 < grid_bits grid) ∧
    (∀ fuel, 2 * grid_bits grid + 2 ≤ fuel →
      ∃ result, heuristics_loop fuel 0 grid = some result) ∧
    (∀ fuel, 2 * grid_bits grid + 2 ≤ fuel →
      ∃ c result, grid_heuristics fuel grid = some (c, result)) := by
  refine ⟨?_, ?_, ?_, ?_, ?_⟩
  · intro subgrid
    exact ⟨unit_progress_changed (cross_hatching_progress subgrid n),
      unit_progress_changed (lone_number_progress subgrid n),
      unit_progress_changed (naked_subset_progress subgrid n),
      unit_progress_changed (hidden_subset_progress subgrid n)⟩
  · intro level
    exact (grid_below_bits (heuristics_pass_progress grid level hshape hsize).1 hshape.1
      hcells).1
  · intro level hchg
    obtain ⟨hb, hflag⟩ := heuristics_pass_progress grid level hshape hsize
    exact grid_below_bits_lt hb hshape.1 hcells (hflag hchg)
  · intro fuel hfuel
    obtain ⟨result, hres, _⟩ :=
      heuristics_loop_terminates hsize fuel 0 grid hshape hcells (by decide) hfuel
    exact ⟨result, hres⟩
  · intro fuel hfuel
    obtain ⟨c, result, hres, _⟩ := grid_heuristics_returns grid hshape hsize hcells fuel hfuel
    exact ⟨c, result, hres⟩

/-- Witness for C24 on `stuck_grid`, which holds 55 candidate colors. -/
theorem grid_heuristics_terminates_witness :
    grid_shape 4 stuck_grid ∧ grid_check_size 4 = true ∧
    (∀ i j, i < 4 → j < 4 → grid_cell stuck_grid i j < 2 ^ 64) ∧
    grid_bits stuck_grid = 55 ∧
    (∃ c result, grid_heuristics 112 stuck_grid = some (c, result)) :=
  have hs : grid_shape 4 stuck_grid := ⟨rfl, rfl, by decide⟩
  have hc : ∀ i j, i < 4 → j < 4 → grid_cell stuck_grid i j < 2 ^ 64 := by
    intro i j hi hj
    have h : ∀ i, i < 4 → ∀ j, j < 4 → grid_cell stuck_grid i j < 2 ^ 64 := by decide
    exact h i hi j hj
  have hb : grid_bits stuck_grid = 55 := by decide!
  ⟨hs, by decide, hc, hb,
    (grid_heuristics_terminates stuck_grid 4 hs (by decide) hc).2.2.2.2 112
      (by rw [hb])⟩

theorem grid_choice_scan_ok (grid : grid_t) : scan_ok grid (grid_choice_scan grid) := by
  unfold grid_choice_scan
  apply foldl_invariant (scan_ok grid)
  · exact ⟨fun _ => rfl, fun h => by simp at h⟩
  · intro st i hi hst
    apply foldl_invariant (scan_ok grid)
    · exact hst
    · intro st j hj hst
      dsimp only
      split
      · exact hst
      · split
        · exact hst
        · rename_i hns
          refine ⟨fun h => by simp at h, fun _ => ?_⟩
          exact ⟨List.mem_range.1 hi, List.mem_range.1 hj, rfl, by simpa using hns⟩

theorem colors_leftmost_zero : colors_leftmost 0 = 0 := by
  simp [colors_leftmost, colors_empty]

/-- A choice that is not empty names a cell of the grid that is neither a singleton nor
empty, and its color is one color of that cell. -/
theorem grid_choice_valid (rand : Nat → Nat) {n : Nat} (grid : grid_t) (random : Bool)
    (w : world) (hsz : grid.size = n)
    (hcells : ∀ i j, i < n → j < n → grid_cell grid i j < 2 ^ 64)
    (hne : grid_choice_is_empty (grid_choice rand grid random w).1 = false) :
    (grid_choice rand grid random w).1.row < n ∧
    (grid_choice rand grid random w).1.column < n ∧
    colors_is_singleton (grid_cell grid (grid_choice rand grid random w).1.row
      (grid_choice rand grid random w).1.column) = false ∧
    ∃ k, k < 64 ∧ (grid_choice rand grid random w).1.color = 2 ^ k ∧
      (grid_cell grid (grid_choice rand grid random w).1.row
        (grid_choice rand grid random w).1.column).testBit k = true := by
  have hscan := grid_choice_scan_ok grid
  have hrow : (grid_choice rand grid random w).1.row = (grid_choice_scan grid).2.row := by
    unfold grid_choice
    dsimp only
    split
    · split <;> rfl
    · rfl
  have hcol : (grid_choice rand grid random w).1.column = (grid_choice_scan grid).2.column := by
    unfold grid_choice
    dsimp only
    split
    · split <;> rfl
    · rfl
  have hcolor : (grid_choice rand grid random w).1.color =
      if random then colors_random (grid_choice_scan grid).2.color (rand w.rand_calls)
      else colors_leftmost (grid_choice_scan grid).2.color := by
    unfold grid_choice
    dsimp only
    split
    · split
      · rename_i h0
        have h0' : (grid_choice_scan grid).2.color = 0 := by simpa using h0
        simp [h0', colors_random]
      · rfl
    · rfl
  have hne' : (grid_choice rand grid random w).1.color ≠ 0 := by
    simpa [grid_choice_is_empty] using hne
  rw [hrow, hcol, hcolor]
  rw [hcolor] at hne'
  cases hflag : (grid_choice_scan grid).1 with
  | false =>
    have h0 := hscan.1 hflag
    rw [h0] at hne'
    exfalso
    apply hne'
    cases random
    · simp [colors_leftmost_zero]
    · simp [colors_random]
  | true =>
    obtain ⟨hr, hc, hcol, hns⟩ := hscan.2 hflag
    rw [hsz] at hr hc
    have hlt := hcells _ _ hr hc
    refine ⟨hr, hc, hns, ?_⟩
    rw [hcol] at hne' ⊢
    generalize grid_cell grid (grid_choice_scan grid).2.row (grid_choice_scan grid).2.column
      = cell at hne' hlt hns ⊢
    have hc0 : cell ≠ 0 := by
      intro h0
      apply hne'
      rw [h0]
      cases random
      · simp [colors_leftmost_zero]
      · simp [colors_random]
    cases random
    · obtain ⟨k, hk, hbit, _, hl⟩ := colors_leftmost_two_pow cell hc0 hlt
      exact ⟨k, hk, by simpa using hl, hbit⟩
    · obtain ⟨_, hs, hsub⟩ := colors_random_eq cell (rand w.rand_calls) hc0 hlt
      obtain ⟨k, hk⟩ := singleton_eq_two_pow _ hs
      have hsub' := (colors_is_subset_iff _ _).1 hsub
      have hbit : cell.testBit k = true := by
        apply testBit_of_subset hsub'
        rw [hk]
        exact Nat.testBit_two_pow_self
      exact ⟨k, testBit_lt_of_lt hlt hbit, by simpa using hk, hbit⟩

theorem grid_copy_eq (grid : grid_t) : grid_copy grid = grid := rfl

/-- A grid below another one has no more cells that are not singletons. -/
theorem grid_below_count {n : Nat} {g' g : grid_t} (h : grid_below n g' g) (hsz : g.size = n) :
    non_singleton_count g' ≤ non_singleton_count g := by
  obtain ⟨hshape, _, hsing⟩ := h
  unfold non_singleton_count
  rw [hshape.1, hsz]
  apply sum_map_le
  intro i hi
  apply sum_map_le
  intro j hj
  have hi' := List.mem_range.1 hi
  have hj' := List.mem_range.1 hj
  cases hs : colors_is_singleton (grid_cell g i j) with
  | true =>
    rw [hsing i j hi' hj' hs, hs]
  | false =>
    split <;> simp

theorem non_singleton_count_le {n : Nat} (g : grid_t) (hsz : g.size = n) :
    non_singleton_count g ≤ n * n := by
  unfold non_singleton_count
  rw [hsz]
  have h1 : ∀ i ∈ List.range n,
      ((List.range n).map fun j =>
        if colors_is_singleton (grid_cell g i j) then 0 else 1).sum ≤ n := by
    intro i _
    have h := sum_map_le (List.range n)
      (fun j => if colors_is_singleton (grid_cell g i j) then 0 else 1) (fun _ => 1)
      (by intro j _; dsimp only; split <;> simp)
    simpa using h
  have h2 := sum_map_le (List.range n)
    (fun i => ((List.range n).map fun j =>
        if colors_is_singleton (grid_cell g i j) then 0 else 1).sum) (fun _ => n) h1
  simpa using h2

theorem two_pow_ne_of_not_singleton {cell k : Nat} (hns : colors_is_singleton cell = false) :
    2 ^ k ≠ cell := by
  intro h
  rw [← h, colors_is_singleton_two_pow] at hns
  exact Bool.noConfusion hns

/-- Applying a choice taken from a cell that is not a singleton gives a grid below the
former one, with one cell less that is not a singleton and with fewer candidate colors. -/
theorem grid_choice_apply_below {n : Nat} {grid : grid_t} (hshape : grid_shape n grid)
    (hcells : ∀ i j, i < n → j < n → grid_cell grid i j < 2 ^ 64)
    (c : choice_t) (hr : c.row < n) (hc : c.column < n)
    (hns : colors_is_singleton (grid_cell grid c.row c.column) = false) {k : Nat}
    (hk : c.color = 2 ^ k) (hbit : (grid_cell grid c.row c.column).testBit k = true) :
    grid_below n (grid_choice_apply (grid_copy grid) c) grid ∧
    non_singleton_count (grid_choice_apply (grid_copy grid) c) < non_singleton_count grid ∧
    grid_bits (grid_choice_apply (grid_copy grid) c) < grid_bits grid := by
  rw [grid_copy_eq]
  have hcell : ∀ i j, grid_cell (grid_choice_apply grid c) i j =
      if i = c.row ∧ j = c.column then 2 ^ k else grid_cell grid i j := by
    intro i j
    unfold grid_choice_apply
    rw [grid_cell_put hshape _ hr hc, hk]
  have hbelow : grid_below n (grid_choice_apply grid c) grid := by
    refine ⟨grid_put_shape hshape _ _ _, ?_, ?_⟩
    · intro i j _ _
      rw [hcell]
      split
      · rename_i h
        rw [h.1, h.2]
        exact (colors_is_subset_iff _ _).1 (two_pow_subset_of_testBit hbit)
      · exact Nat.and_self _
    · intro i j _ _ hs
      rw [hcell]
      split
      · rename_i h
        rw [h.1, h.2, hns] at hs
        exact Bool.noConfusion hs
      · rfl
  refine ⟨hbelow, ?_, ?_⟩
  · unfold non_singleton_count
    rw [hbelow.1.1, hshape.1]
    have hle : ∀ i j,
        (if colors_is_singleton (grid_cell (grid_choice_apply grid c) i j) then 0 else 1) ≤
          (if colors_is_singleton (grid_cell grid i j) then 0 else 1) := by
      intro i j
      rw [hcell]
      by_cases h : i = c.row ∧ j = c.column
      · rw [if_pos h, colors_is_singleton_two_pow]
        simp
      · rw [if_neg h]
    apply sum_map_lt
    · intro i _
      apply sum_map_le
      intro j _
      exact hle i j
    · refine ⟨c.row, List.mem_range.2 hr, ?_⟩
      apply sum_map_lt
      · intro j _
        exact hle c.row j
      · refine ⟨c.column, List.mem_range.2 hc, ?_⟩
        have h1 : grid_cell (grid_choice_apply grid c) c.row c.column = 2 ^ k := by
          rw [hcell, if_pos ⟨rfl, rfl⟩]
        show (if colors_is_singleton (grid_cell (grid_choice_apply grid c) c.row c.column)
          then 0 else 1) < (if colors_is_singleton (grid_cell grid c.row c.column) then 0 else 1)
        rw [h1, colors_is_singleton_two_pow, hns]
        simp
  · apply grid_below_bits_lt hbelow hshape.1 hcells
    refine ⟨c.row, c.column, hr, hc, ?_⟩
    rw [hcell, if_pos ⟨rfl, rfl⟩]
    exact two_pow_ne_of_not_singleton hns

theorem popcount_subtract_two_pow {cell k : Nat} (hlt : cell < 2 ^ 64)
    (hbit : cell.testBit k = true) :
    popcount (colors_subtract cell (2 ^ k)) + 1 = popcount cell := by
  have hsub : colors_subtract cell (2 ^ k) < 2 ^ 64 :=
    Nat.lt_of_le_of_lt (subset_le (colors_subtract_subset _ _)) hlt
  rw [popcount_card _ hsub, popcount_card _ hlt]
  have hk : k < 64 := testBit_lt_of_lt hlt hbit
  have heq : (Finset.range 64).filter (fun j => (colors_subtract cell (2 ^ k)).testBit j = true)
      = ((Finset.range 64).filter (fun j => cell.testBit j = true)).erase k := by
    ext j
    simp only [Finset.mem_filter, Finset.mem_range, Finset.mem_erase, testBit_colors_subtract,
      Nat.testBit_two_pow]
    by_cases hjk : k = j
    · subst hjk
      simp
    · have hjk' : j ≠ k := fun h => hjk h.symm
      simp [hjk, hjk']
  rw [heq, Finset.card_erase_of_mem (by simp [hk, hbit])]
  have hpos : 0 < ((Finset.range 64).filter (fun j => cell.testBit j = true)).card :=
    Finset.card_pos.2 ⟨k, by simp [hk, hbit]⟩
  omega

/-- Discarding a choice removes one color from its cell and leaves the other cells as they
are; the grid obtained is below the former one and has fewer candidate colors. -/
theorem grid_choice_discard_below {n : Nat} {grid : grid_t} (hshape : grid_shape n grid)
    (hcells : ∀ i j, i < n → j < n → grid_cell grid i j < 2 ^ 64)
    (c : choice_t) (hr : c.row < n) (hc : c.column < n)
    (hns : colors_is_singleton (grid_cell grid c.row c.column) = false) {k : Nat}
    (hk : c.color = 2 ^ k) (hbit : (grid_cell grid c.row c.column).testBit k = true) :
    grid_below n (grid_choice_discard grid c) grid ∧
    (∀ i j, ¬ (i = c.row ∧ j = c.column) →
      grid_cell (grid_choice_discard grid c) i j = grid_cell grid i j) ∧
    popcount (grid_cell (grid_choice_discard grid c) c.row c.column) + 1 =
      popcount (grid_cell grid c.row c.column) ∧
    grid_bits (grid_choice_discard grid c) < grid_bits grid := by
  have hcell : ∀ i j, grid_cell (grid_choice_discard grid c) i j =
      if i = c.row ∧ j = c.column then colors_subtract (grid_cell grid c.row c.column) (2 ^ k)
      else grid_cell grid i j := by
    intro i j
    unfold grid_choice_discard
    dsimp only
    rw [grid_cell_put hshape _ hr hc, hk]
  have hbelow : grid_below n (grid_choice_discard grid c) grid := by
    refine ⟨grid_put_shape hshape _ _ _, ?_, ?_⟩
    · intro i j _ _
      rw [hcell]
      split
      · rename_i h
        rw [h.1, h.2]
        exact colors_subtract_subset _ _
      · exact Nat.and_self _
    · intro i j _ _ hs
      rw [hcell]
      split
      · rename_i h
        rw [h.1, h.2, hns] at hs
        exact Bool.noConfusion hs
      · rfl
  have hpop := popcount_subtract_two_pow (hcells _ _ hr hc) hbit
  refine ⟨hbelow, ?_, ?_, ?_⟩
  · intro i j hij
    rw [hcell, if_neg hij]
  · rw [hcell, if_pos ⟨rfl, rfl⟩]
    exact hpop
  · apply grid_below_bits_lt hbelow hshape.1 hcells
    refine ⟨c.row, c.column, hr, hc, ?_⟩
    rw [hcell, if_pos ⟨rfl, rfl⟩]
    intro h
    rw [h] at hpop
    omega

theorem grid_solver_eq_frame (rand : Nat → Nat) (mode : mode_t) (random : Bool) (fuel : Nat)
    (grid : grid_t) (w : world) :
    grid_solver rand mode random (fuel + 1) grid w =
      solver_frame rand mode random (grid_solver rand mode random fuel) (fuel + 1) grid w := by
  rw [grid_solver_succ]
  rfl

/-- The branching loop returns when its fuel covers the candidate colors of the grid and
the recursive calls return on grids with fewer cells that are not singletons and fewer
candidate colors. -/
theorem solver_loop_returns (rand : Nat → Nat) (mode : mode_t) (random : Bool)
    (solve : grid_t → world → Option (Option grid_t × world)) {n : Nat} (C B : Nat)
    (hsolve : ∀ child w, grid_shape n child →
      (∀ i j, i < n → j < n → grid_cell child i j < 2 ^ 64) →
      non_singleton_count child < C → grid_bits child < B → ∃ r, solve child w = some r) :
    ∀ (k : Nat) (grid : grid_t) (last : Option grid_t) (w : world), grid_shape n grid →
      (∀ i j, i < n → j < n → grid_cell grid i j < 2 ^ 64) →
      non_singleton_count grid ≤ C → grid_bits grid ≤ B → grid_bits grid ≤ k →
      ∃ r, solver_loop rand mode random solve k grid (grid_choice rand grid random w).1 last
        (grid_choice rand grid random w).2 = some r := by
  intro k
  induction k with
  | zero =>
    intro grid last w hshape hcells _ _ hk
    rw [solver_loop_zero]
    cases hne : grid_choice_is_empty (grid_choice rand grid random w).1 with
    | true => exact ⟨_, if_pos rfl⟩
    | false =>
      obtain ⟨hr, hc, hns, k', _, hk', hbit⟩ :=
        grid_choice_valid rand grid random w hshape.1 hcells hne
      have hd := (grid_choice_discard_below hshape hcells _ hr hc hns hk' hbit).2.2.2
      omega
  | succ k ih =>
    intro grid last w hshape hcells hC hB hk
    rw [solver_loop_succ]
    cases hne : grid_choice_is_empty (grid_choice rand grid random w).1 with
    | true => exact ⟨_, if_pos rfl⟩
    | false =>
      obtain ⟨hr, hc, hns, k', _, hk', hbit⟩ :=
        grid_choice_valid rand grid random w hshape.1 hcells hne
      obtain ⟨hab, hac, hbb⟩ := grid_choice_apply_below hshape hcells _ hr hc hns hk' hbit
      obtain ⟨hdb, _, _, hdl⟩ := grid_choice_discard_below hshape hcells _ hr hc hns hk' hbit
      have hdcells := (grid_below_bits hdb hshape.1 hcells).2
      have hdc := grid_below_count hdb hshape.1
      obtain ⟨r, hr'⟩ := hsolve _ (grid_choice rand grid random w).2 hab.1
        (grid_below_bits hab hshape.1 hcells).2 (by omega) (by omega)
      simp only [Bool.false_eq_true, if_false]
      rw [hr']
      obtain ⟨res, w'⟩ := r
      cases res with
      | none =>
        dsimp only
        split
        · exact ⟨_, rfl⟩
        · exact ih _ last w' hdb.1 hdcells (by omega) (by omega) (by omega)
      | some result =>
        dsimp only
        split
        · exact ⟨_, rfl⟩
        · split
          · exact ⟨_, rfl⟩
          · exact ih _ (some result) w' hdb.1 hdcells (by omega) (by omega) (by omega)

/-- A frame of the solver returns when its fuel covers the passes of `grid_heuristics` and
the recursive calls return on grids with fewer cells that are not singletons and fewer
candidate colors than the grid of the frame. -/
theorem solver_frame_returns (rand : Nat → Nat) (mode : mode_t) (random : Bool)
    (solve : grid_t → world → Option (Option grid_t × world)) {n : Nat}
    (hsize : grid_check_size n = true) (fuel : Nat) (grid : grid_t) (w : world)
    (hshape : grid_shape n grid)
    (hcells : ∀ i j, i < n → j < n → grid_cell grid i j < 2 ^ 64)
    (hfuel : 2 * grid_bits grid + 2 ≤ fuel)
    (hsolve : ∀ child w, grid_shape n child →
      (∀ i j, i < n → j < n → grid_cell child i j < 2 ^ 64) →
      non_singleton_count child < non_singleton_count grid →
      grid_bits child < grid_bits grid → ∃ r, solve child w = some r) :
    ∃ r, solver_frame rand mode random solve fuel grid w = some r := by
  obtain ⟨c, g1, hh, hb⟩ := grid_heuristics_returns grid hshape hsize hcells fuel hfuel
  unfold solver_frame
  rw [hh]
  dsimp only
  split
  · exact ⟨_, rfl⟩
  · split
    · exact ⟨_, rfl⟩
    · have hbits := grid_below_bits hb hshape.1 hcells
      exact solver_loop_returns rand mode random solve (non_singleton_count grid)
        (grid_bits grid) hsolve fuel g1 none w hb.1 hbits.2 (grid_below_count hb hshape.1)
        hbits.1 (by omega)

/-- The solver returns once its fuel covers twice the number of candidate colors of the
grid plus two. -/
theorem grid_solver_returns (rand : Nat → Nat) (mode : mode_t) (random : Bool) {n : Nat}
    (hsize : grid_check_size n = true) :
    ∀ (fuel : Nat) (grid : grid_t) (w : world), grid_shape n grid →
      (∀ i j, i < n → j < n → grid_cell grid i j < 2 ^ 64) →
      2 * grid_bits grid + 2 ≤ fuel → ∃ r, grid_solver rand mode random fuel grid w = some r := by
  intro fuel
  induction fuel with
  | zero =>
    intro grid w _ _ h
    omega
  | succ fuel ih =>
    intro grid w hshape hcells hfuel
    rw [grid_solver_eq_frame]
    apply solver_frame_returns rand mode random _ hsize (fuel + 1) grid w hshape hcells hfuel
    intro child w' hcs hcc _ hcb
    exact ih child w' hcs hcc (by omega)

/-- The solver limited to a recursion depth of at least the number of cells that are not
singletons returns. -/
theorem grid_solver_depth_returns (rand : Nat → Nat) (mode : mode_t) (random : Bool) {n : Nat}
    (hsize : grid_check_size n = true) (fuel : Nat) :
    ∀ (depth : Nat) (grid : grid_t) (w : world), grid_shape n grid →
      (∀ i j, i < n → j < n → grid_cell grid i j < 2 ^ 64) →
      non_singleton_count grid ≤ depth → 2 * grid_bits grid + 2 ≤ fuel →
      ∃ r, grid_solver_depth rand mode random fuel depth grid w = some r := by
  intro depth
  induction depth with
  | zero =>
    intro grid w hshape hcells hd hfuel
    unfold grid_solver_depth
    apply solver_frame_returns rand mode random _ hsize fuel grid w hshape hcells hfuel
    intro child w' _ _ hcn _
    omega
  | succ depth ih =>
    intro grid w hshape hcells hd hfuel
    unfold grid_solver_depth
    apply solver_frame_returns rand mode random _ hsize fuel grid w hshape hcells hfuel
    intro child w' hcs hcc hcn hcb
    exact ih child w' hcs hcc (by omega) (by omega)

/-- More fuel does not change a result of the escalation loop. -/
theorem heuristics_loop_mono (fuel : Nat) :
    ∀ (level : Nat) (grid result : grid_t) (fuel' : Nat), fuel ≤ fuel' →
      heuristics_loop fuel level grid = some result →
      heuristics_loop fuel' level grid = some result := by
  induction fuel with
  | zero =>
    intro level grid result fuel' _ h
    rw [heuristics_loop_zero] at h
    by_cases hl : level < 2
    · rw [if_pos hl] at h
      exact Option.noConfusion h
    · rw [if_neg hl] at h
      cases fuel' with
      | zero => rw [heuristics_loop_zero, if_neg hl]; exact h
      | succ f => rw [heuristics_loop_succ, if_neg hl]; exact h
  | succ fuel ih =>
    intro level grid result fuel' hle h
    obtain ⟨f, rfl⟩ : ∃ f, fuel' = f + 1 := ⟨fuel' - 1, by omega⟩
    have hf : fuel ≤ f := by omega
    rw [heuristics_loop_succ] at h ⊢
    by_cases hl : level < 2
    · rw [if_pos hl] at h ⊢
      split
      · rename_i hp
        rw [if_pos hp] at h
        split
        · rename_i h1
          rw [if_pos h1] at h
          exact ih _ _ _ f hf h
        · rename_i h1
          rw [if_neg h1] at h
          exact ih _ _ _ f hf h
      · rename_i hp
        rw [if_neg hp] at h
        exact ih _ _ _ f hf h
    · rw [if_neg hl] at h ⊢
      exact h

/-- More fuel does not change a result of `grid_heuristics`. -/
theorem grid_heuristics_mono {fuel fuel' : Nat} (hle : fuel ≤ fuel') (grid : grid_t)
    (r : Nat × grid_t) (h : grid_heuristics fuel grid = some r) :
    grid_heuristics fuel' grid = some r := by
  unfold grid_heuristics at h ⊢
  split
  · rename_i h1
    rw [if_pos h1] at h
    exact h
  · rename_i h1
    rw [if_neg h1] at h
    split
    · rename_i h2
      rw [if_pos h2] at h
      exact h
    · rename_i h2
      rw [if_neg h2] at h
      cases hl : heuristics_loop fuel 0 grid with
      | none =>
        rw [hl] at h
        exact Option.noConfusion h
      | some g =>
        rw [hl] at h
        rw [heuristics_loop_mono fuel 0 grid g fuel' hle hl]
        exact h

/-- The branching loop gives the same result with more fuel and with recursive calls that
return more often. -/
theorem solver_loop_mono (rand : Nat → Nat) (mode : mode_t) (random : Bool)
    (solve solve' : grid_t → world → Option (Option grid_t × world))
    (hsolve : ∀ g w r, solve g w = some r → solve' g w = some r) (fuel : Nat) :
    ∀ (fuel' : Nat) (grid : grid_t) (choice : choice_t) (last : Option grid_t) (w : world)
      (r : Option grid_t × world), fuel ≤ fuel' →
      solver_loop rand mode random solve fuel grid choice last w = some r →
      solver_loop rand mode random solve' fuel' grid choice last w = some r := by
  induction fuel with
  | zero =>
    intro fuel' grid choice last w r _ h
    rw [solver_loop_zero] at h
    cases hne : grid_choice_is_empty choice with
    | true =>
      rw [hne, if_pos rfl] at h
      cases fuel' with
      | zero => rw [solver_loop_zero, hne, if_pos rfl]; exact h
      | succ f => rw [solver_loop_succ, hne, if_pos rfl]; exact h
    | false =>
      rw [hne] at h
      simp at h
  | succ fuel ih =>
    intro fuel' grid choice last w r hle h
    obtain ⟨f, rfl⟩ : ∃ f, fuel' = f + 1 := ⟨fuel' - 1, by omega⟩
    have hf : fuel ≤ f := by omega
    rw [solver_loop_succ] at h ⊢
    cases hne : grid_choice_is_empty choice with
    | true =>
      rw [hne, if_pos rfl] at h
      rw [if_pos rfl]
      exact h
    | false =>
      rw [hne] at h
      simp only [Bool.false_eq_true, if_false] at h ⊢
      cases hs : solve (grid_choice_apply (grid_copy grid) choice) w with
      | none =>
        rw [hs] at h
        exact Option.noConfusion h
      | some res =>
        rw [hs] at h
        rw [hsolve _ _ _ hs]
        obtain ⟨res, w'⟩ := res
        cases res with
        | none =>
          dsimp only at h ⊢
          split
          · rename_i h1
            rw [if_pos h1] at h
            exact h
          · rename_i h1
            rw [if_neg h1] at h
            exact ih _ _ _ _ _ _ hf h
        | some result =>
          dsimp only at h ⊢
          split
          · rename_i h1
            rw [if_pos h1] at h
            exact h
          · rename_i h1
            rw [if_neg h1] at h
            split
            · rename_i h2
              rw [if_pos h2] at h
              exact h
            · rename_i h2
              rw [if_neg h2] at h
              exact ih _ _ _ _ _ _ hf h

/-- A frame of the solver gives the same result with more fuel and with recursive calls
that return more often. -/
theorem solver_frame_mono (rand : Nat → Nat) (mode : mode_t) (random : Bool)
    (solve solve' : grid_t → world → Option (Option grid_t × world))
    (hsolve : ∀ g w r, solve g w = some r → solve' g w = some r) {fuel fuel' : Nat}
    (hle : fuel ≤ fuel') (grid : grid_t) (w : world) (r : Option grid_t × world)
    (h : solver_frame rand mode random solve fuel grid w = some r) :
    solver_frame rand mode random solve' fuel' grid w = some r := by
  unfold solver_frame at h ⊢
  cases hh : grid_heuristics fuel grid with
  | none =>
    rw [hh] at h
    exact Option.noConfusion h
  | some cg =>
    rw [hh] at h
    rw [grid_heuristics_mono hle grid cg hh]
    obtain ⟨c, g⟩ := cg
    dsimp only at h ⊢
    split
    · rename_i h1
      rw [if_pos h1] at h
      exact h
    · rename_i h1
      rw [if_neg h1] at h
      split
      · rename_i h2
        rw [if_pos h2] at h
        exact h
      · rename_i h2
        rw [if_neg h2] at h
        exact solver_loop_mono rand mode random solve solve' hsolve fuel fuel' _ _ _ _ _ hle h

/-- More fuel does not change a result of the solver. -/
theorem grid_solver_mono (rand : Nat → Nat) (mode : mode_t) (random : Bool) (fuel : Nat) :
    ∀ (fuel' : Nat) (grid : grid_t) (w : world) (r : Option grid_t × world), fuel ≤ fuel' →
      grid_solver rand mode random fuel grid w = some r →
      grid_solver rand mode random fuel' grid w = some r := by
  induction fuel with
  | zero =>
    intro fuel' grid w r _ h
    rw [grid_solver_zero] at h
    exact Option.noConfusion h
  | succ fuel ih =>
    intro fuel' grid w r hle h
    obtain ⟨f, rfl⟩ : ∃ f, fuel' = f + 1 := ⟨fuel' - 1, by omega⟩
    rw [grid_solver_eq_frame] at h ⊢
    exact solver_frame_mono rand mode random _ _
      (fun g w r hr => ih f g w r (by omega) hr) hle grid w r h

/-- A result of the solver limited in depth is the result of the solver with enough
fuel. -/
theorem grid_solver_depth_le (rand : Nat → Nat) (mode : mode_t) (random : Bool) (fuel : Nat) :
    ∀ (depth fuel' : Nat) (grid : grid_t) (w : world) (r : Option grid_t × world),
      fuel + depth < fuel' →
      grid_solver_depth rand mode random fuel depth grid w = some r →
      grid_solver rand mode random fuel' grid w = some r := by
  intro depth
  induction depth with
  | zero =>
    intro fuel' grid w r hle h
    obtain ⟨f, rfl⟩ : ∃ f, fuel' = f + 1 := ⟨fuel' - 1, by omega⟩
    rw [grid_solver_eq_frame]
    unfold grid_solver_depth at h
    exact solver_frame_mono rand mode random _ _
      (fun g w r hr => Option.noConfusion hr) (by omega) grid w r h
  | succ depth ih =>
    intro fuel' grid w r hle h
    obtain ⟨f, rfl⟩ : ∃ f, fuel' = f + 1 := ⟨fuel' - 1, by omega⟩
    rw [grid_solver_eq_frame]
    unfold grid_solver_depth at h
    exact solver_frame_mono rand mode random _ _
      (fun g w r hr => ih f g w r (by omega) hr) (by omega) grid w r h

/-- With enough fuel and a depth limit of at least the number of cells that are not
singletons, the solver limited in depth and the solver return the same result. -/
theorem grid_solver_depth_agrees (rand : Nat → Nat) (mode : mode_t) (random : Bool) {n : Nat}
    (hsize : grid_check_size n = true) (fuel depth : Nat) (grid : grid_t) (w : world)
    (hshape : grid_shape n grid)
    (hcells : ∀ i j, i < n → j < n → grid_cell grid i j < 2 ^ 64)
    (hd : non_singleton_count grid ≤ depth) (hfuel : 2 * grid_bits grid + 2 ≤ fuel) :
    ∃ r, grid_solver_depth rand mode random fuel depth grid w = some r ∧
      grid_solver rand mode random fuel grid w = some r := by
  obtain ⟨r1, h1⟩ :=
    grid_solver_depth_returns rand mode random hsize fuel depth grid w hshape hcells hd hfuel
  obtain ⟨r2, h2⟩ := grid_solver_returns rand mode random hsize fuel grid w hshape hcells hfuel
  have h1' := grid_solver_depth_le rand mode random fuel depth (fuel + depth + 1) grid w r1
    (by omega) h1
  have h2' := grid_solver_mono rand mode random fuel (fuel + depth + 1) grid w r2 (by omega) h2
  rw [h1'] at h2'
  have heq : r1 = r2 := Option.some.inj h2'
  exact ⟨r1, h1, by rw [h2, heq]⟩

/-- Whatever the fuel, a grid returned by `grid_heuristics` is below the grid it was
given. -/
theorem grid_heuristics_below {n : Nat} (grid : grid_t) (hshape : grid_shape n grid)
    (hsize : grid_check_size n = true)
    (hcells : ∀ i j, i < n → j < n → grid_cell grid i j < 2 ^ 64) (fuel c : Nat) (g : grid_t)
    (h : grid_heuristics fuel grid = some (c, g)) : grid_below n g grid := by
  obtain ⟨c', g', h', hb⟩ := grid_heuristics_returns grid hshape hsize hcells
    (fuel + (2 * grid_bits grid + 2)) (by omega)
  have h2 := grid_heuristics_mono (Nat.le_add_right fuel (2 * grid_bits grid + 2)) grid _ h
  rw [h2] at h'
  have heq : g = g' := congrArg Prod.snd (Option.some.inj h')
  rw [heq]
  exact hb

/-- C26: on a grid of supported size `N` with 64-bit cells, for every mode, either choice
rule and every sequence of random values, `grid_solver` terminates. On every grid `g` of
that size on which `grid_choice` returns a choice that is not empty, the chosen cell is not
a singleton, `grid_choice_discard` removes exactly one color from it and leaves the other
cells as they are, so no cell becomes a non-singleton, and the grid given to the recursive
call has strictly fewer non-singleton cells than `g`; `grid_heuristics` does not raise the
number of non-singleton cells either. With fuel `2 * grid_bits grid + 2` the solver returns,
and limiting the recursion depth to any bound of at least the number of non-singleton cells
of the initial grid, itself at most `N * N`, does not change its result. -/
theorem grid_solver_terminates (rand : Nat → Nat) (mode : mode_t) (random : Bool)
    (grid : grid_t) (n : Nat) (hshape : grid_shape n grid) (hsize : grid_check_size n = true)
    (hcells : ∀ i j, i < n → j < n → grid_cell grid i j < 2 ^ 64) :
    (∀ (g : grid_t) (w : world), grid_shape n g →
      (∀ i j, i < n → j < n → grid_cell g i j < 2 ^ 64) →
      grid_choice_is_empty (grid_choice rand g random w).1 = false →
      (grid_choice rand g random w).1.row < n ∧ (grid_choice rand g random w).1.column < n ∧
      colors_is_singleton (grid_cell g (grid_choice rand g random w).1.row
        (grid_choice rand g random w).1.column) = false ∧
      popcount (grid_cell (grid_choice_discard g (grid_choice rand g random w).1)
          (grid_choice rand g random w).1.row (grid_choice rand g random w).1.column) + 1 =
        popcount (grid_cell g (grid_choice rand g random w).1.row
          (grid_choice rand g random w).1.column) ∧
      colors_is_subset
        (grid_cell (grid_choice_discard g (grid_choice rand g random w).1)
          (grid_choice rand g random w).1.row (grid_choice rand g random w).1.column)
        (grid_cell g (grid_choice rand g random w).1.row
          (grid_choice rand g random w).1.column) = true ∧
      (∀ i j, ¬ (i = (grid_choice rand g random w).1.row ∧
          j = (grid_choice rand g random w).1.column) →
        grid_cell (grid_choice_discard g (grid_choice rand g random w).1) i j =
          grid_cell g i j) ∧
      non_singleton_count (grid_choice_discard g (grid_choice rand g random w).1) ≤
        non_singleton_count g ∧
      non_singleton_count (grid_choice_apply (grid_copy g) (grid_choice rand g random w).1) <
        non_singleton_count g) ∧
    (∀ fuel c g, grid_heuristics fuel grid = some (c, g) →
      non_singleton_count g ≤ non_singleton_count grid) ∧
    non_singleton_count grid ≤ n * n ∧
    (∀ fuel w, 2 * grid_bits grid + 2 ≤ fuel →
      ∃ r, grid_solver rand mode random fuel grid w = some r) ∧
    (∀ fuel depth w, 2 * grid_bits grid + 2 ≤ fuel → non_singleton_count grid ≤ depth →
      grid_solver_depth rand mode random fuel depth grid w =
        grid_solver rand mode random fuel grid w) := by
  refine ⟨?_, ?_, ?_, ?_, ?_⟩
  · intro g w hg hgc hne
    obtain ⟨hr, hc, hns, k, _, hk, hbit⟩ := grid_choice_valid rand g random w hg.1 hgc hne
    obtain ⟨hdb, hother, hpop, _⟩ := grid_choice_discard_below hg hgc _ hr hc hns hk hbit
    obtain ⟨_, hac, _⟩ := grid_choice_apply_below hg hgc _ hr hc hns hk hbit
    exact ⟨hr, hc, hns, hpop, (colors_is_subset_iff _ _).2 (hdb.2.1 _ _ hr hc), hother,
      grid_below_count hdb hg.1, hac⟩
  · intro fuel c g h
    exact grid_below_count (grid_heuristics_below grid hshape hsize hcells fuel c g h) hshape.1
  · exact non_singleton_count_le grid hshape.1
  · intro fuel w hfuel
    exact grid_solver_returns rand mode random hsize fuel grid w hshape hcells hfuel
  · intro fuel depth w hfuel hd
    obtain ⟨r, h1, h2⟩ := grid_solver_depth_agrees rand mode random hsize fuel depth grid w
      hshape hcells hd hfuel
    rw [h1, h2]

/-- Witness for C26 on `stuck_grid`, which has 13 cells that are not singletons and 55
candidate colors: the solver in first mode with the leftmost choice returns with fuel 112,
and a recursion depth of 13 is enough. -/
theorem grid_solver_terminates_witness :
    grid_shape 4 stuck_grid ∧ grid_check_size 4 = true ∧
    (∀ i j, i < 4 → j < 4 → grid_cell stuck_grid i j < 2 ^ 64) ∧
    non_singleton_count stuck_grid = 13 ∧ 2 * grid_bits stuck_grid + 2 ≤ 112 ∧
    (∃ r, grid_solver (fun _ => 0) mode_first false 112 stuck_grid
      { solutions := 0, rand_calls := 0 } = some r) ∧
    grid_solver_depth (fun _ => 0) mode_first false 112 13 stuck_grid
        { solutions := 0, rand_calls := 0 } =
      grid_solver (fun _ => 0) mode_first false 112 stuck_grid
        { solutions := 0, rand_calls := 0 } :=
  have hs : grid_shape 4 stuck_grid := ⟨rfl, rfl, by decide⟩
  have hc : ∀ i j, i < 4 → j < 4 → grid_cell stuck_grid i j < 2 ^ 64 := by
    intro i j hi hj
    have h : ∀ i, i < 4 → ∀ j, j < 4 → grid_cell stuck_grid i j < 2 ^ 64 := by decide
    exact h i hi j hj
  have hn : non_singleton_count stuck_grid = 13 := by decide
  have hb : 2 * grid_bits stuck_grid + 2 ≤ 112 := by decide!
  ⟨hs, by decide, hc, hn, hb,
    (grid_solver_terminates (fun _ => 0) mode_first false stuck_grid 4 hs (by decide)
      hc).2.2.2.1 112 { solutions := 0, rand_calls := 0 } hb,
    (grid_solver_terminates (fun _ => 0) mode_first false stuck_grid 4 hs (by decide)
      hc).2.2.2.2 112 13 { solutions := 0, rand_calls := 0 } hb (by rw [hn])⟩

theorem popcount_le_width (c : Nat) : popcount c ≤ 64 := by
  unfold popcount
  exact (List.length_filter_le _ _).trans (by rw [List.length_range])

/-- A grid of size `n` holds at most `64 * (n * n)` candidate colors. -/
theorem grid_bits_le {n : Nat} (grid : grid_t) (hsz : grid.size = n) :
    grid_bits grid ≤ 64 * (n * n) := by
  unfold grid_bits
  rw [hsz]
  have h1 : ∀ i ∈ List.range n,
      ((List.range n).map fun j => popcount (grid_cell grid i j)).sum ≤ 64 * n := by
    intro i _
    have h := sum_map_le (List.range n) (fun j => popcount (grid_cell grid i j)) (fun _ => 64)
      (fun j _ => popcount_le_width _)
    have e : ((List.range n).map fun _ => 64).sum = 64 * n := by
      simp [Nat.mul_comm]
    rw [e] at h
    exact h
  have h2 := sum_map_le (List.range n)
    (fun i => ((List.range n).map fun j => popcount (grid_cell grid i j)).sum)
    (fun _ => 64 * n) h1
  have e : ((List.range n).map fun _ => 64 * n).sum = 64 * (n * n) := by
    simp
    ring
  rw [e] at h2
  exact h2

theorem colors_full_lt (size : Nat) : colors_full size < 2 ^ 64 := by
  unfold colors_full MAX_COLORS UINT64_MAX
  split
  · decide
  · rename_i h
    rw [Nat.shiftLeft_eq, Nat.one_mul]
    have h1 : 2 ^ size ≤ 2 ^ 64 := Nat.pow_le_pow_right (by decide) (by omega)
    have h2 : 0 < 2 ^ size := Nat.two_pow_pos size
    omega

/-- Every cell of a grid returned by `grid_alloc` is a 64-bit word. -/
theorem grid_alloc_cells {size : Nat} {grid : grid_t} (h : grid_alloc size = some grid)
    (i j : Nat) (hi : i < size) (hj : j < size) : grid_cell grid i j < 2 ^ 64 := by
  unfold grid_alloc at h
  split at h
  · simp at h
  · simp only [Option.some.injEq] at h
    subst h
    unfold grid_cell
    simp only [List.getD_eq_getElem?_getD, List.getElem?_replicate, hi, hj, if_true,
      Option.getD_some]
    exact colors_full_lt size

/-- Every cell of the grid left by grid_initialize is a 64-bit word when the cells of the
grid it was given are. -/
theorem grid_initialize_cells (rand : Nat → Nat) (grid : grid_t) (w : world) (n : Nat)
    (hshape : grid_shape n grid) (hsize : grid_check_size n = true)
    (hcells : ∀ i j, i < n → j < n → grid_cell grid i j < 2 ^ 64) :
    ∀ i j, i < n → j < n → grid_cell ( grid_initialize rand grid w).1 i j < 2 ^ 64 := by
  have hn := grid_check_size_pos hsize
  have hn64 := grid_check_size_le hsize
  have hgs : grid.size = n := hshape.1
  obtain ⟨f1, f2, f3⟩ := initialize_fold n grid hshape hn n (Nat.le_refl n)
  have hrow0 : ∀ g : grid_t, grid_shape n g → (g.cells.getD 0 []).length = n := by
    intro g hg
    have h0 : 0 < g.cells.length := by rw [hg.2.1]; exact hn
    rw [List.getD_eq_getElem?_getD, List.getElem?_eq_getElem h0]
    exact hg.2.2 _ (List.getElem_mem h0)
  unfold grid_initialize
  dsimp only
  rw [hgs]
  generalize (List.range n).foldl (fun g i => grid_put g 0 i (colors_set i)) grid = g1
    at f1 f2 f3 ⊢
  have hlen1 := hrow0 g1 f1
  have hrow1 : g1.cells.getD 0 [] = (List.range n).map colors_set := by
    apply row_eq_map_range _ n colors_set hlen1
    intro j hj
    have := f3 j
    rw [if_pos hj] at this
    exact this
  have hperm := shuffle_loop_perm rand g1.size (g1.cells.getD 0 []) w (by rw [hlen1, f1.1])
  generalize (shuffle_loop rand g1.size (g1.cells.getD 0 []) w).1 = r at hperm
  have h0 : 0 < g1.cells.length := by rw [f1.2.1]; exact hn
  have hres : (g1.cells.set 0 r).getD 0 [] = r := by
    rw [List.getD_eq_getElem?_getD, List.getElem?_set_self h0]
    rfl
  rw [hrow1] at hperm
  have hrlen : r.length = n := by
    rw [hperm.length_eq, List.length_map, List.length_range]
  intro i j hi hj
  by_cases hi0 : i = 0
  · subst hi0
    have hcell : grid_cell { g1 with cells := g1.cells.set 0 r } 0 j = r.getD j 0 := by
      unfold grid_cell
      rw [hres]
    rw [hcell]
    have hmem : r.getD j 0 ∈ (List.range n).map colors_set :=
      hperm.subset (getD_mem_of_lt r (by omega))
    obtain ⟨k, hk, hke⟩ := List.mem_map.1 hmem
    have hk64 : k < 64 := Nat.lt_of_lt_of_le (List.mem_range.1 hk) hn64
    rw [← hke, colors_set_eq_two_pow hk64]
    exact Nat.pow_lt_pow_right (by decide) hk64
  · have hrow : (g1.cells.set 0 r).getD i [] = grid.cells.getD i [] := by
      rw [← f2 i hi0]
      simp only [List.getD_eq_getElem?_getD]
      rw [List.getElem?_set_ne (fun e => hi0 e.symm)]
    have hcell : grid_cell { g1 with cells := g1.cells.set 0 r } i j = grid_cell grid i j := by
      unfold grid_cell
      rw [hrow]
    rw [hcell]
    exact hcells i j hi hj

/-- In first mode `grid_generator` returns once its fuel covers the first solve. -/
theorem grid_generator_first_returns (rand : Nat → Nat) (count fuel size : Nat) (w : world)
    (hsize : grid_check_size size = true) (hfuel : 2 * (64 * (size * size)) + 2 ≤ fuel) :
    ∃ r w', grid_generator rand count fuel size mode_first w = some (r, w') := by
  unfold grid_generator
  cases halloc : grid_alloc size with
  | none => exact ⟨_, _, rfl⟩
  | some g0 =>
    dsimp only
    have hshape := grid_alloc_shape halloc
    have hishape := grid_initialize_shape rand w hshape
    have hicells := grid_initialize_cells rand g0 w size hshape hsize
      (grid_alloc_cells halloc)
    have hbits := grid_bits_le ( grid_initialize rand g0 w).1 hishape.1
    obtain ⟨r, hr⟩ := grid_solver_returns rand mode_first true hsize fuel
      ( grid_initialize rand g0 w).1 ( grid_initialize rand g0 w).2 hishape hicells (by omega)
    rw [hr]
    obtain ⟨res, w1⟩ := r
    dsimp only
    rw [if_pos rfl]
    exact ⟨_, _, rfl⟩

/-- More fuel does not change a result of `grid_generator` in first mode. -/
theorem grid_generator_first_mono (rand : Nat → Nat) (count size : Nat) (w : world)
    {fuel fuel' : Nat} (hle : fuel ≤ fuel') (r : Option grid_t × world)
    (h : grid_generator rand count fuel size mode_first w = some r) :
    grid_generator rand count fuel' size mode_first w = some r := by
  unfold grid_generator at h ⊢
  cases halloc : grid_alloc size with
  | none =>
    rw [halloc] at h
    exact h
  | some g0 =>
    rw [halloc] at h
    dsimp only at h ⊢
    cases hs : grid_solver rand mode_first true fuel ( grid_initialize rand g0 w).1
        ( grid_initialize rand g0 w).2 with
    | none =>
      rw [hs] at h
      exact Option.noConfusion h
    | some res =>
      rw [hs] at h
      rw [grid_solver_mono rand mode_first true fuel fuel' _ _ res hle hs]
      exact h

/-- C10: for a supported size `N > 1` and the target `t = ⌊N² · num / den⌋` of a rate
`num / den` in (0, 1), whatever the values returned by `rand()`: `grid_generator` in first
mode returns for every fuel of at least `2 * (64 * N²) + 2`, more fuel does not change what
it returns, and a grid it returns (with any fuel) has exactly `t` cells equal to the full
set while its remaining `N² - t` cells are singletons; the shuffled position array is a
permutation of `0 .. N² - 1`. -/
theorem grid_generator_first_empty_cells (rand : Nat → Nat) (num den size : Nat) (w : world)
    (hsize : grid_check_size size = true) (h1 : 1 < size) (hnum : 0 < num) (hden : num < den) :
    (∀ fuel, 2 * (64 * (size * size)) + 2 ≤ fuel →
      ∃ r w', grid_generator rand (empty_count (size * size) num den) fuel size mode_first w =
          some (r, w') ∧
        (∀ fuel', fuel ≤ fuel' →
          grid_generator rand (empty_count (size * size) num den) fuel' size mode_first w =
            some (r, w')) ∧
        ∀ g, r = some g →
          ((List.range (size * size)).filter
            (fun p => grid_cell g (p / size) (p % size) == colors_full size)).length =
              empty_count (size * size) num den ∧
          ((List.range (size * size)).filter
            (fun p => colors_is_singleton (grid_cell g (p / size) (p % size)))).length =
              size * size - empty_count (size * size) num den) ∧
    (∀ fuel g w',
      grid_generator rand (empty_count (size * size) num den) fuel size mode_first w =
        some (some g, w') →
      ((List.range (size * size)).filter
        (fun p => grid_cell g (p / size) (p % size) == colors_full size)).length =
          empty_count (size * size) num den ∧
      ((List.range (size * size)).filter
        (fun p => colors_is_singleton (grid_cell g (p / size) (p % size)))).length =
          size * size - empty_count (size * size) num den) ∧
    ∀ w0, (shuffle_loop rand (size * size) (List.range (size * size)) w0).1.Perm
      (List.range (size * size)) := by
  refine ⟨?_, ?_, ?_⟩
  · intro fuel hfuel
    obtain ⟨r, w', hr⟩ := grid_generator_first_returns rand
      (empty_count (size * size) num den) fuel size w hsize hfuel
    refine ⟨r, w', hr, ?_, ?_⟩
    · intro fuel' hle
      exact grid_generator_first_mono rand _ size w hle _ hr
    · intro g hg
      rw [hg] at hr
      have h := grid_generator_first_counts rand num den fuel size w w' g hsize h1 hnum hden hr
      exact ⟨h.1, h.2.1⟩
  · intro fuel g w' hr
    have h := grid_generator_first_counts rand num den fuel size w w' g hsize h1 hnum hden hr
    exact ⟨h.1, h.2.1⟩
  · intro w0
    exact shuffle_loop_perm rand _ _ w0 (by rw [List.length_range])

/-- Witness for C10: size 4, rate 1/2, a random source that always returns 0.  With fuel
2050 the generator returns `generated_grid`, which has 8 full cells and 8 singletons. -/
theorem grid_generator_first_empty_cells_witness :
    grid_check_size 4 = true ∧ 1 < 4 ∧ 0 < 1 ∧ 1 < 2 ∧ 2 * (64 * (4 * 4)) + 2 ≤ 2050 ∧
    (∃ r w', grid_generator (fun _ => 0) (empty_count (4 * 4) 1 2) 2050 4 mode_first ⟨0, 0⟩ =
      some (r, w')) ∧
    grid_generator (fun _ => 0) (empty_count (4 * 4) 1 2) 2050 4 mode_first ⟨0, 0⟩ =
      some (some generated_grid, ⟨1, 21⟩) ∧
    ((List.range (4 * 4)).filter
      (fun p => grid_cell generated_grid (p / 4) (p % 4) == colors_full 4)).length =
        empty_count (4 * 4) 1 2 ∧
    ((List.range (4 * 4)).filter
      (fun p => colors_is_singleton (grid_cell generated_grid (p / 4) (p % 4)))).length =
        4 * 4 - empty_count (4 * 4) 1 2 :=
  have h := grid_generator_first_empty_cells (fun _ => 0) 1 2 4 ⟨0, 0⟩
    (by decide) (by decide) (by decide) (by decide)
  have hrun : grid_generator (fun _ => 0) (empty_count (4 * 4) 1 2) 2050 4 mode_first ⟨0, 0⟩ =
      some (some generated_grid, ⟨1, 21⟩) :=
    grid_generator_first_mono (fun _ => 0) _ 4 ⟨0, 0⟩ (by decide) _ grid_generator_first_run
  have hres : ∃ r w', grid_generator (fun _ => 0) (empty_count (4 * 4) 1 2) 2050 4 mode_first
      ⟨0, 0⟩ = some (r, w') :=
    (h.1 2050 (by decide)).elim fun r hr => hr.elim fun w' hw => ⟨r, w', hw.1⟩
  have hcount := h.2.1 2050 generated_grid ⟨1, 21⟩ hrun
  ⟨by decide, by decide, by decide, by decide, by decide, hres, hrun, hcount.1, hcount.2⟩

end Sudoku
